import Mathlib

/-!
# Mandelbrot escape-time kernels

A shallow embedding of the four compute kernels of the repository

* `graph.c`     : `compute_mandelbrot`            (scalar),
* `bad_opt.c`   : `compute_mandelbrot_sse`        (2 lanes, SSE2 intrinsics),
* `basic_opt.c` : `compute_mandelbrot_optimized`  (4 lanes, unrolled scalar code),
* `max_opt.c`   : `compute_mandelbrot_avx2`       (4 lanes, AVX intrinsics),

and of `get_color`, which is the same function in the four files.

Conventions.

* A `double` is a rational number and the arithmetic on it is exact: rounding,
  infinities and NaN are not modelled.  Every finite `double` is a rational.
  The loop of the scalar kernel is given a second time, `whileLoop_in`, in an
  arbitrary arithmetic, of which the arithmetic of binary64 is an instance.
* A C `int` that holds data (`iter`, the cells of `iterations`) is an `Int`; the
  loop indices `x`, `y`, `k`, `i`, `r` are natural numbers.
* A SIMD register is the list of its lanes, lane 0 first.
* The buffer `iterations` is a function from the index to the stored `int`; the
  memory returned by `malloc` is not initialised, so its first content is an
  arbitrary function.
-/

namespace Mandelbrot

/-! ## Constants and the viewport -/

/-- The iteration budget, `#define MAX_ITER 256`. -/
def MAX_ITER : Nat := 256

/-- The escape radius, `#define ESCAPE_RADIUS 10.0`. -/
def ESCAPE_RADIUS : ℚ := 10

/-- The grid width, `#define WIDTH 800`. -/
def WIDTH : Nat := 800

/-- The grid height, `#define HEIGHT 600`. -/
def HEIGHT : Nat := 600

/-- The viewport, `typedef struct { ... } MandelbrotState`. -/
structure MandelbrotState where
  center_x : ℚ
  center_y : ℚ
  scale : ℚ
  color_formula : Int

/-- The iteration buffer `int* iterations`, by index. -/
abbrev Buffer := Nat → Int

/-! ## The scalar kernel (`graph.c`) -/

/-- The inner loop of `compute_mandelbrot` (graph.c, lines 54-61):
`while (iter < MAX_ITER) { zx2; zy2; if (zx2 + zy2 > R*R) break; zy = ...; zx = ...; iter++; }`.
The first argument bounds the number of turns; `MAX_ITER` turns are always
enough because `iter` starts at 0 and grows by one each turn. -/
def whileLoop (cx cy : ℚ) : Nat → ℚ → ℚ → Int → Int
  | 0, _, _, iter => iter
  | fuel + 1, zx, zy, iter =>
    if iter < (MAX_ITER : Int) then
      let zx2 := zx * zx
      let zy2 := zy * zy
      if zx2 + zy2 > ESCAPE_RADIUS * ESCAPE_RADIUS then iter
      else whileLoop cx cy fuel (zx2 - zy2 + cx) (2 * zx * zy + cy) (iter + 1)
    else iter

/-- One repetition of the body of the `r` loop for the point `(cx, cy)`
(graph.c, lines 50-61): `zx = cx; zy = cy; iter = 0;` and the while loop. -/
def scalar_iter (cx cy : ℚ) : Int :=
  whileLoop cx cy MAX_ITER cx cy 0

/-- The abscissa of the column `x`: `center_x + (x - WIDTH / 2.0) * scale`. -/
def map_x (state : MandelbrotState) (x : Nat) : ℚ :=
  state.center_x + ((x : ℚ) - (WIDTH : ℚ) / 2) * state.scale

/-- The ordinate of the row `y`: `center_y + (y - HEIGHT / 2.0) * scale`. -/
def map_y (state : MandelbrotState) (y : Nat) : ℚ :=
  state.center_y + ((y : ℚ) - (HEIGHT : ℚ) / 2) * state.scale

/-- The value of `iter` when `compute_mandelbrot` leaves the `r` loop at the
pixel `(x, y)` (graph.c, lines 43-62): `iter = 0`, then `run_count` repetitions,
each of which starts again from `z = c`, `iter = 0`.  The scalar kernel keeps
this value in the local variable only: graph.c declares no `iterations` buffer
and has no store of `iter`. -/
def compute_mandelbrot (run_count : Nat) (state : MandelbrotState) (x y : Nat) : Int :=
  let cx := state.center_x + ((x : ℚ) - (WIDTH : ℚ) / 2) * state.scale
  let cy := state.center_y + ((y : ℚ) - (HEIGHT : ℚ) / 2) * state.scale
  (List.range run_count).foldl (fun _ _ => whileLoop cx cy MAX_ITER cx cy 0) 0

/-! ## The canonical escape rule, in the words of the specification -/

/-- The orbit `w_0 = c`, `w_{n+1} = w_n^2 + c` of the point `c = (cx, cy)`. -/
def orbit (cx cy : ℚ) : Nat → ℚ × ℚ
  | 0 => (cx, cy)
  | n + 1 =>
    let w := orbit cx cy n
    (w.1 * w.1 - w.2 * w.2 + cx, 2 * w.1 * w.2 + cy)

/-- The squared magnitude of a point of the plane. -/
def normSq (w : ℚ × ℚ) : ℚ := w.1 * w.1 + w.2 * w.2

/-- The state `w_n` has escaped: its squared magnitude exceeds
`ESCAPE_RADIUS^2 = 100`. -/
def escaped (cx cy : ℚ) (n : Nat) : Prop := normSq (orbit cx cy n) > 100

instance (cx cy : ℚ) : DecidablePred (escaped cx cy) :=
  fun n => inferInstanceAs (Decidable (normSq (orbit cx cy n) > 100))

/-- The canonical count: the least `n < MAX_ITER` whose state `w_n` has escaped,
and `MAX_ITER` when there is none. -/
def canonical_iter (cx cy : ℚ) : Nat :=
  if h : ∃ n, n < MAX_ITER ∧ escaped cx cy n then Nat.find h else MAX_ITER


/-! ## SIMD registers

A register is the list of its lanes, lane 0 first.  A lane of a comparison
result or of an integer register is the natural number of its 64 bits. -/

/-- The 64-bit pattern with every bit set, `~0ULL`. -/
def ALL_ONES : Nat := 2 ^ 64 - 1

/-- The integer of the sign bits of the lanes: bit `k` is the first component of
the `k`-th entry. -/
def movemask : List Bool → Nat
  | [] => 0
  | b :: bs => (if b then 1 else 0) + 2 * movemask bs

/-- Intrinsic `_mm_set1_pd(a)`: both lanes hold `a`. -/
def mm_set1_pd (a : ℚ) : List ℚ := [a, a]

/-- Intrinsic `_mm_set_pd(e1, e0)`: lane 0 holds `e0`, lane 1 holds `e1`. -/
def mm_set_pd (e1 e0 : ℚ) : List ℚ := [e0, e1]

/-- Intrinsic `_mm_add_pd`, and `_mm256_add_pd`: the sum, lane by lane. -/
def mm_add_pd (a b : List ℚ) : List ℚ := List.zipWith (fun u v => u + v) a b

/-- Intrinsic `_mm_sub_pd`, and `_mm256_sub_pd`: the difference, lane by lane. -/
def mm_sub_pd (a b : List ℚ) : List ℚ := List.zipWith (fun u v => u - v) a b

/-- Intrinsic `_mm_mul_pd`, and `_mm256_mul_pd`: the product, lane by lane. -/
def mm_mul_pd (a b : List ℚ) : List ℚ := List.zipWith (fun u v => u * v) a b

/-- Intrinsic `_mm_cmplt_pd`, and `_mm256_cmp_pd` with `_CMP_LT_OS`: a lane of
the result has every bit set when `a < b` in that lane, and no bit otherwise. -/
def mm_cmplt_pd (a b : List ℚ) : List Nat :=
  List.zipWith (fun u v => if u < v then ALL_ONES else 0) a b

/-- Intrinsic `_mm_movemask_pd`, and `_mm256_movemask_pd`: bit `k` of the result
is the sign bit (bit 63) of lane `k`. -/
def mm_movemask_pd (a : List Nat) : Nat := movemask (a.map (fun q => q.testBit 63))

/-- Intrinsic `_mm_castpd_si128`, and `_mm256_castsi256_pd`: the same bits. -/
def mm_cast (a : List Nat) : List Nat := a

/-- Intrinsic `_mm_setzero_si128()`. -/
def mm_setzero_si128 : List Nat := [0, 0]

/-- Intrinsic `_mm_set1_epi64x(a)`. -/
def mm_set1_epi64x (a : Nat) : List Nat := [a, a]

/-- Intrinsic `_mm_and_si128`: the bitwise and. -/
def mm_and_si128 (a b : List Nat) : List Nat := List.zipWith (fun u v => u &&& v) a b

/-- Intrinsic `_mm_add_epi64`: the sum of the 64-bit lanes, modulo `2^64`. -/
def mm_add_epi64 (a b : List Nat) : List Nat :=
  List.zipWith (fun u v => (u + v) % 2 ^ 64) a b

/-- The 32-bit words, in the order of the addresses, of the memory that
`_mm_storeu_si128` or another store of 64-bit lanes fills (x86 is little-endian:
the low word of a lane comes first). -/
def store_words : List Nat → List Nat
  | [] => []
  | q :: qs => q % 2 ^ 32 :: q / 2 ^ 32 % 2 ^ 32 :: store_words qs

/-- The `int` that a 32-bit word holds (two's complement). -/
def int_of_word (w : Nat) : Int := if w < 2 ^ 31 then (w : Int) else (w : Int) - 2 ^ 32

/-- Intrinsic `_mm256_set1_pd(a)`. -/
def mm256_set1_pd (a : ℚ) : List ℚ := [a, a, a, a]

/-- Intrinsic `_mm256_set_pd(e3, e2, e1, e0)`: lane 0 holds `e0`. -/
def mm256_set_pd (e3 e2 e1 e0 : ℚ) : List ℚ := [e0, e1, e2, e3]

/-- Intrinsic `_mm256_setzero_pd()`. -/
def mm256_setzero_pd : List ℚ := [0, 0, 0, 0]

/-- Intrinsic `_mm256_setr_epi64x(e0, e1, e2, e3)`: lane 0 holds `e0`. -/
def mm256_setr_epi64x (e0 e1 e2 e3 : Nat) : List Nat := [e0, e1, e2, e3]

/-- Intrinsic `_mm256_and_pd(a, m)` for a mask `m` whose lanes are `ALL_ONES` or
0, the only masks the kernel builds: the lane of `a` where the mask is set and
`0.0` elsewhere. -/
def mm256_and_pd (a : List ℚ) (m : List Nat) : List ℚ :=
  List.zipWith (fun u b => if b = ALL_ONES then u else 0) a m

/-- The conversion `(int)d` of a `double`: the fraction is dropped. -/
def int_of_double (d : ℚ) : Int := Int.tdiv d.num (d.den : Int)

/-! ## The loops over the grid -/

/-- The loop `for (int i = 0; i < n; i++) body(i)` on the buffer. -/
def for_range (n : Nat) (body : Nat → Buffer → Buffer) (buf : Buffer) : Buffer :=
  (List.range n).foldl (fun b i => body i b) buf

/-- The loop `for (int x = 0; x < stop; x += step) body(x)` on the buffer: it
makes `ceil(stop / step)` turns. -/
def for_step (stop step : Nat) (body : Nat → Buffer → Buffer) (buf : Buffer) : Buffer :=
  (List.range ((stop + step - 1) / step)).foldl (fun b j => body (step * j) b) buf

/-- The loop `for (int k = 0; k < 4 && (x + k) < WIDTH; k++)
iterations[y*WIDTH + x + k] = vals[k];` of the two 4-lane kernels. -/
def store4 (vals : List Int) (y x : Nat) : Nat → Nat → Buffer → Buffer
  | 0, _, buf => buf
  | fuel + 1, k, buf =>
    if k < 4 ∧ x + k < WIDTH then
      store4 vals y x fuel (k + 1) (Function.update buf (y * WIDTH + x + k) (vals.getD k 0))
    else buf

/-! ## The 2-lane SSE kernel (`bad_opt.c`) -/

/-- The registers that the inner loop of `compute_mandelbrot_sse` changes. -/
structure SseRegs where
  zx : List ℚ
  zy : List ℚ
  iter : List Nat
  mask : Nat

/-- The body of the inner loop of `compute_mandelbrot_sse` (bad_opt.c, lines
68-80). -/
def sse_body (cx cy : List ℚ) (s : SseRegs) : SseRegs :=
  let escape_radius := mm_set1_pd (ESCAPE_RADIUS * ESCAPE_RADIUS)
  let two := mm_set1_pd 2
  let one := mm_set1_epi64x 1
  let zx2 := mm_mul_pd s.zx s.zx
  let zy2 := mm_mul_pd s.zy s.zy
  let zxzy := mm_mul_pd (mm_mul_pd s.zx s.zy) two
  let zx := mm_add_pd (mm_sub_pd zx2 zy2) cx
  let zy := mm_add_pd zxzy cy
  let norm := mm_add_pd zx2 zy2
  let cmp := mm_cmplt_pd norm escape_radius
  let mask := mm_movemask_pd cmp
  let inc := mm_cast cmp
  ⟨zx, zy, mm_add_epi64 s.iter (mm_and_si128 inc one), mask⟩

/-- The inner loop `for (int i = 0; i < MAX_ITER && mask; i++)` of
`compute_mandelbrot_sse`; the first argument is `MAX_ITER - i`. -/
def sse_loop (cx cy : List ℚ) : Nat → SseRegs → SseRegs
  | 0, s => s
  | fuel + 1, s => if s.mask ≠ 0 then sse_loop cx cy fuel (sse_body cx cy s) else s

/-- The register `cy` of the row `y` (bad_opt.c, lines 53-54). -/
def sse_cy (state : MandelbrotState) (y : Nat) : List ℚ :=
  let scale := mm_set1_pd state.scale
  let center_y := mm_set1_pd state.center_y
  let y_coord := mm_set1_pd ((y : ℚ) - (HEIGHT : ℚ) / 2)
  mm_add_pd center_y (mm_mul_pd y_coord scale)

/-- The register `cx` of the group of the columns `x`, `x + 1` (bad_opt.c, lines
57-59). -/
def sse_cx (state : MandelbrotState) (x : Nat) : List ℚ :=
  let scale := mm_set1_pd state.scale
  let center_x := mm_set1_pd state.center_x
  let width_half := mm_set1_pd ((WIDTH : ℚ) / 2)
  let x_coord := mm_set_pd ((x + 1 : Nat) : ℚ) ((x : Nat) : ℚ)
  mm_add_pd center_x (mm_mul_pd (mm_sub_pd x_coord width_half) scale)

/-- The register `iter` when the inner loop of the group at `(x, y)` ends
(bad_opt.c, lines 61-81). -/
def sse_iter (state : MandelbrotState) (y x : Nat) : List Nat :=
  let cx := sse_cx state x
  let cy := sse_cy state y
  (sse_loop cx cy MAX_ITER ⟨cx, cy, mm_setzero_si128, 3⟩).iter

/-- The array `int iter_result[2]`, and the memory after it, once
`_mm_storeu_si128((__m128i*)iter_result, iter)` has stored the two 64-bit lanes
(bad_opt.c, lines 83-84): four `int`s, of which `iter_result[0]` and
`iter_result[1]` are the first two. -/
def sse_iter_result (state : MandelbrotState) (y x : Nat) : List Int :=
  (store_words (sse_iter state y x)).map int_of_word

/-- One turn of the `x` loop of `compute_mandelbrot_sse`: the group at `(x, y)`
is evaluated and stored (bad_opt.c, lines 57-89). -/
def sse_group (state : MandelbrotState) (y x : Nat) (iterations : Buffer) : Buffer :=
  let iter_result := sse_iter_result state y x
  let b1 := Function.update iterations (y * WIDTH + x) (iter_result.getD 0 0)
  if x + 1 < WIDTH then Function.update b1 (y * WIDTH + x + 1) (iter_result.getD 1 0) else b1

/-- The buffer `iterations` at the end of the loops of `compute_mandelbrot_sse`
(bad_opt.c, lines 51-92), from the buffer that `malloc` returned. -/
def compute_mandelbrot_sse (run_count : Nat) (state : MandelbrotState)
    (iterations : Buffer) : Buffer :=
  for_range run_count
    (fun _ => for_range HEIGHT (fun y => for_step WIDTH 2 (fun x => sse_group state y x)))
    iterations

/-! ## The 4-lane unrolled kernel (`basic_opt.c`) -/

/-- The arrays and the mask that the inner loops of
`compute_mandelbrot_optimized` change. -/
structure OptRegs where
  zx : List ℚ
  zy : List ℚ
  iter : List Int
  mask : Nat

/-- The body of the loop on `k` inside the loop on `i` (basic_opt.c, lines
60-72). -/
def opt_lane (cx cy : List ℚ) (i : Nat) (s : OptRegs) (k : Nat) : OptRegs :=
  if s.mask &&& (1 <<< k) ≠ 0 then s
  else
    let zx2 := s.zx.getD k 0 * s.zx.getD k 0
    let zy2 := s.zy.getD k 0 * s.zy.getD k 0
    let zxzy := 2 * s.zx.getD k 0 * s.zy.getD k 0
    let zx := s.zx.set k (zx2 - zy2 + cx.getD k 0)
    let zy := s.zy.set k (zxzy + cy.getD k 0)
    if zx2 + zy2 > ESCAPE_RADIUS * ESCAPE_RADIUS then
      ⟨zx, zy, s.iter.set k (i : Int), s.mask ||| (1 <<< k)⟩
    else ⟨zx, zy, s.iter, s.mask⟩

/-- The loop `for (int k = 0; k < 4; k++)` inside the loop on `i` (basic_opt.c,
lines 59-73). -/
def opt_body (cx cy : List ℚ) (i : Nat) (s : OptRegs) : OptRegs :=
  (List.range 4).foldl (opt_lane cx cy i) s

/-- The loop `for (int i = 0; i < MAX_ITER && mask != 0x0F; i++)`; the first
argument is `MAX_ITER - i`. -/
def opt_loop (cx cy : List ℚ) : Nat → Nat → OptRegs → OptRegs
  | 0, _, s => s
  | fuel + 1, i, s =>
    if s.mask ≠ 0x0F then opt_loop cx cy fuel (i + 1) (opt_body cx cy i s) else s

/-- The array `cx` of the group at column `x` (basic_opt.c, lines 49-50). -/
def opt_cx (state : MandelbrotState) (x : Nat) : List ℚ :=
  (List.range 4).map
    (fun k => state.center_x + (((x + k : Nat) : ℚ) - (WIDTH : ℚ) / 2) * state.scale)

/-- The array `cy` of the group in row `y` (basic_opt.c, lines 49 and 51). -/
def opt_cy (state : MandelbrotState) (y : Nat) : List ℚ :=
  (List.range 4).map
    (fun _ => state.center_y + ((y : ℚ) - (HEIGHT : ℚ) / 2) * state.scale)

/-- The array `iter` when the loop on `i` of the group at `(x, y)` ends
(basic_opt.c, lines 48-74). -/
def opt_iter (state : MandelbrotState) (y x : Nat) : List Int :=
  (opt_loop (opt_cx state x) (opt_cy state y) MAX_ITER 0
    ⟨[0, 0, 0, 0], [0, 0, 0, 0], [0, 0, 0, 0], 0⟩).iter

/-- One turn of the `x` loop of `compute_mandelbrot_optimized`: the group at
`(x, y)` is evaluated and stored (basic_opt.c, lines 48-78). -/
def opt_group (state : MandelbrotState) (y x : Nat) (iterations : Buffer) : Buffer :=
  store4 (opt_iter state y x) y x 4 0 iterations

/-- The buffer `iterations` at the end of the loops of
`compute_mandelbrot_optimized` (basic_opt.c, lines 45-81). -/
def compute_mandelbrot_optimized (run_count : Nat) (state : MandelbrotState)
    (iterations : Buffer) : Buffer :=
  for_range run_count
    (fun _ => for_range HEIGHT (fun y => for_step WIDTH 4 (fun x => opt_group state y x)))
    iterations

/-! ## The 4-lane AVX kernel (`max_opt.c`) -/

/-- The registers that the inner loop of `compute_mandelbrot_avx2` changes. -/
structure AvxRegs where
  zx : List ℚ
  zy : List ℚ
  iter : List ℚ
  mask : Nat

/-- The body of the inner loop of `compute_mandelbrot_avx2` (max_opt.c, lines
69-94). -/
def avx_body (cx cy : List ℚ) (s : AvxRegs) : AvxRegs :=
  let escape_radius := mm256_set1_pd (ESCAPE_RADIUS * ESCAPE_RADIUS)
  let two := mm256_set1_pd 2
  let zx2 := mm_mul_pd s.zx s.zx
  let zy2 := mm_mul_pd s.zy s.zy
  let xy := mm_mul_pd s.zx s.zy
  let new_zx := mm_add_pd (mm_sub_pd zx2 zy2) cx
  let new_zy := mm_add_pd (mm_mul_pd xy two) cy
  let zx := new_zx
  let zy := new_zy
  let norm := mm_add_pd (mm_mul_pd zx zx) (mm_mul_pd zy zy)
  let mask := mm_movemask_pd (mm_cmplt_pd norm escape_radius)
  let mask_vec := mm_cast (mm256_setr_epi64x
    (if mask &&& 0x1 ≠ 0 then ALL_ONES else 0)
    (if mask &&& 0x2 ≠ 0 then ALL_ONES else 0)
    (if mask &&& 0x4 ≠ 0 then ALL_ONES else 0)
    (if mask &&& 0x8 ≠ 0 then ALL_ONES else 0))
  ⟨zx, zy, mm_add_pd s.iter (mm256_and_pd (mm256_set1_pd 1) mask_vec), mask⟩

/-- The inner loop `for (int i = 0; i < MAX_ITER && mask; i++)` of
`compute_mandelbrot_avx2`; the first argument is `MAX_ITER - i`. -/
def avx_loop (cx cy : List ℚ) : Nat → AvxRegs → AvxRegs
  | 0, s => s
  | fuel + 1, s => if s.mask ≠ 0 then avx_loop cx cy fuel (avx_body cx cy s) else s

/-- The register `cy` of the row `y` (max_opt.c, lines 53-54). -/
def avx_cy (state : MandelbrotState) (y : Nat) : List ℚ :=
  let y_offset := ((y : ℚ) - (HEIGHT : ℚ) / 2) * state.scale
  mm_add_pd (mm256_set1_pd state.center_y) (mm256_set1_pd y_offset)

/-- The register `cx` of the group of the columns `x .. x + 3` (max_opt.c,
lines 57-61). -/
def avx_cx (state : MandelbrotState) (x : Nat) : List ℚ :=
  let scale := mm256_set1_pd state.scale
  let width_half := mm256_set1_pd ((WIDTH : ℚ) / 2)
  let x_coord := mm256_set_pd ((x + 3 : Nat) : ℚ) ((x + 2 : Nat) : ℚ) ((x + 1 : Nat) : ℚ)
    ((x : Nat) : ℚ)
  mm_add_pd (mm256_set1_pd state.center_x) (mm_mul_pd (mm_sub_pd x_coord width_half) scale)

/-- The array `double iter_result[4]` after `_mm256_storeu_pd(iter_result, iter)`
for the group at `(x, y)` (max_opt.c, lines 63-98). -/
def avx_iter_result (state : MandelbrotState) (y x : Nat) : List ℚ :=
  let cx := avx_cx state x
  let cy := avx_cy state y
  (avx_loop cx cy MAX_ITER ⟨cx, cy, mm256_setzero_pd, 0xF⟩).iter

/-- One turn of the `x` loop of `compute_mandelbrot_avx2`: the group at `(x, y)`
is evaluated and `(int)iter_result[k]` is stored (max_opt.c, lines 57-102). -/
def avx_group (state : MandelbrotState) (y x : Nat) (iterations : Buffer) : Buffer :=
  store4 ((avx_iter_result state y x).map int_of_double) y x 4 0 iterations

/-- The buffer `iterations` at the end of the loops of `compute_mandelbrot_avx2`
(max_opt.c, lines 51-105). -/
def compute_mandelbrot_avx2 (run_count : Nat) (state : MandelbrotState)
    (iterations : Buffer) : Buffer :=
  for_range run_count
    (fun _ => for_range HEIGHT (fun y => for_step WIDTH 4 (fun x => avx_group state y x)))
    iterations

/-! ## Lanes in lockstep

The three vector kernels advance the lanes of a group together and stop when no
lane keeps the loop alive.  The definitions below describe one lane at a time;
the theorems relate the registers of the kernels to them. -/

/-- A loop that applies `stp i` to every lane at turn `i` while a lane is
active; the first argument bounds the number of turns. -/
def lockstep {L : Type} (stp : Nat → L → L) (act : L → Bool) : Nat → Nat → List L → List L
  | 0, _, ls => ls
  | fuel + 1, i, ls =>
    if ls.any act then lockstep stp act fuel (i + 1) (ls.map (stp i)) else ls

/-- The number of turns that `lockstep` makes. -/
def lock_steps {L : Type} (stp : Nat → L → L) (act : L → Bool) : Nat → Nat → List L → Nat
  | 0, _, _ => 0
  | fuel + 1, i, ls =>
    if ls.any act then lock_steps stp act fuel (i + 1) (ls.map (stp i)) + 1 else 0

/-- The lane after `m` turns that start at turn `i`. -/
def run_lane {L : Type} (stp : Nat → L → L) : Nat → Nat → L → L
  | 0, _, l => l
  | m + 1, i, l => run_lane stp m (i + 1) (stp i l)

/-- One lane of the SSE kernel: its point, its state, its 64-bit counter and the
outcome of its last comparison. -/
structure SseLane where
  cx : ℚ
  cy : ℚ
  zx : ℚ
  zy : ℚ
  iter : Nat
  cmp : Bool

/-- What the body of the SSE loop does to one lane. -/
def sse_lane_step (l : SseLane) : SseLane :=
  let c : Bool := decide (l.zx * l.zx + l.zy * l.zy < ESCAPE_RADIUS * ESCAPE_RADIUS)
  ⟨l.cx, l.cy, l.zx * l.zx - l.zy * l.zy + l.cx, l.zx * l.zy * 2 + l.cy,
    (l.iter + (if c then 1 else 0)) % 2 ^ 64, c⟩

/-- The lane of the point `(cx, cy)` when the SSE loop starts. -/
def sse_lane_init (cx cy : ℚ) : SseLane := ⟨cx, cy, cx, cy, 0, true⟩

/-- The registers of the SSE kernel that hold the given lanes. -/
def sse_regs (ls : List SseLane) : SseRegs :=
  ⟨ls.map SseLane.zx, ls.map SseLane.zy, ls.map SseLane.iter, movemask (ls.map SseLane.cmp)⟩

/-- One lane of the AVX kernel: its point, its state, its counter (a `double`)
and the outcome of its last comparison. -/
structure AvxLane where
  cx : ℚ
  cy : ℚ
  zx : ℚ
  zy : ℚ
  iter : ℚ
  cmp : Bool

/-- What the body of the AVX loop does to one lane. -/
def avx_lane_step (l : AvxLane) : AvxLane :=
  let zx := l.zx * l.zx - l.zy * l.zy + l.cx
  let zy := l.zx * l.zy * 2 + l.cy
  let c : Bool := decide (zx * zx + zy * zy < ESCAPE_RADIUS * ESCAPE_RADIUS)
  ⟨l.cx, l.cy, zx, zy, l.iter + (if c then 1 else 0), c⟩

/-- The lane of the point `(cx, cy)` when the AVX loop starts. -/
def avx_lane_init (cx cy : ℚ) : AvxLane := ⟨cx, cy, cx, cy, 0, true⟩

/-- The registers of the AVX kernel that hold the given lanes. -/
def avx_regs (ls : List AvxLane) : AvxRegs :=
  ⟨ls.map AvxLane.zx, ls.map AvxLane.zy, ls.map AvxLane.iter, movemask (ls.map AvxLane.cmp)⟩

/-- One lane of the unrolled kernel: its point, its state, its `iter` cell and
its bit of `mask`. -/
structure OptLane where
  cx : ℚ
  cy : ℚ
  zx : ℚ
  zy : ℚ
  iter : Int
  esc : Bool

/-- What turn `i` of the unrolled loop does to one lane. -/
def opt_lane_step (i : Nat) (l : OptLane) : OptLane :=
  if l.esc then l
  else if l.zx * l.zx + l.zy * l.zy > ESCAPE_RADIUS * ESCAPE_RADIUS then
    ⟨l.cx, l.cy, l.zx * l.zx - l.zy * l.zy + l.cx, 2 * l.zx * l.zy + l.cy, (i : Int), true⟩
  else
    ⟨l.cx, l.cy, l.zx * l.zx - l.zy * l.zy + l.cx, 2 * l.zx * l.zy + l.cy, l.iter, false⟩

/-- The lane of the point `(cx, cy)` when the unrolled loop starts. -/
def opt_lane_init (cx cy : ℚ) : OptLane := ⟨cx, cy, 0, 0, 0, false⟩

/-- The arrays of the unrolled kernel that hold the given lanes. -/
def opt_regs (ls : List OptLane) : OptRegs :=
  ⟨ls.map OptLane.zx, ls.map OptLane.zy, ls.map OptLane.iter, movemask (ls.map OptLane.esc)⟩

/-- A transformation of the buffer that gives every cell of `S` its value under
`g` and leaves the other cells as they are. -/
def WritesOn (F : Buffer → Buffer) (S : Nat → Prop) (g : Nat → Int) : Prop :=
  ∀ buf i, (S i → F buf i = g i) ∧ (¬ S i → F buf i = buf i)

/-- The number of the states `w_off, ..., w_(off + m - 1)` of the orbit of
`(cx, cy)` whose squared magnitude is below `ESCAPE_RADIUS^2 = 100`. -/
def count_below (cx cy : ℚ) (off : Nat) : Nat → Nat
  | 0 => 0
  | m + 1 => count_below cx cy off m + (if normSq (orbit cx cy (off + m)) < 100 then 1 else 0)

/-- The orbit that starts at zero: `z_0 = 0`, `z_{n+1} = z_n^2 + c`, so that
`z_{n+1} = w_n`. -/
def orbit0 (cx cy : ℚ) : Nat → ℚ × ℚ
  | 0 => (0, 0)
  | n + 1 => orbit cx cy n

/-- The state `z_n` of the orbit from zero has escaped. -/
def escaped0 (cx cy : ℚ) (n : Nat) : Prop := normSq (orbit0 cx cy n) > 100

instance (cx cy : ℚ) : DecidablePred (escaped0 cx cy) :=
  fun n => inferInstanceAs (Decidable (normSq (orbit0 cx cy n) > 100))

/-- The least `n < MAX_ITER` whose state `z_n` of the orbit from zero has
escaped, and 0 when there is none. -/
def opt_count (cx cy : ℚ) : Nat :=
  if h : ∃ n, n < MAX_ITER ∧ escaped0 cx cy n then Nat.find h else 0

/-- The `int` that `compute_mandelbrot_sse` stores for the pixel `(x, y)`: the
element `x % 2` of `iter_result` in the group that starts at the even column
below `x`. -/
def sse_pixel (state : MandelbrotState) (x y : Nat) : Int :=
  (sse_iter_result state y (x - x % 2)).getD (x % 2) 0

/-- The `int` that `compute_mandelbrot_optimized` stores for the pixel `(x, y)`:
the cell `x % 4` of `iter` in the group that starts at the multiple of 4 below
`x`. -/
def opt_pixel (state : MandelbrotState) (x y : Nat) : Int :=
  (opt_iter state y (x - x % 4)).getD (x % 4) 0

/-- The `int` that `compute_mandelbrot_avx2` stores for the pixel `(x, y)`:
`(int)iter_result[x % 4]` in the group that starts at the multiple of 4 below
`x`. -/
def avx_pixel (state : MandelbrotState) (x y : Nat) : Int :=
  ((avx_iter_result state y (x - x % 4)).map int_of_double).getD (x % 4) 0

/-- The count of a lane of the SSE kernel: the least `n < MAX_ITER` whose state
`w_n` is not below the radius (`norm < 100` fails), and `MAX_ITER` when there is
none. -/
def sse_count (cx cy : ℚ) : Nat :=
  if h : ∃ n, n < MAX_ITER ∧ ¬ normSq (orbit cx cy n) < 100 then Nat.find h else MAX_ITER

/-- The count of a lane of the AVX kernel: the least `n < MAX_ITER` whose next
state `w_(n+1)` is not below the radius, and `MAX_ITER` when there is none. -/
def avx_count (cx cy : ℚ) : Nat :=
  if h : ∃ n, n < MAX_ITER ∧ ¬ normSq (orbit cx cy (n + 1)) < 100 then Nat.find h
  else MAX_ITER

/-! ## The colour of an iteration count (`get_color`, the same in the four files)

`sfColor`, `sfBlack` and `sfColor_fromRGB` belong to the CSFML library: a colour
has four 8-bit channels, black is `(0, 0, 0, 255)` and `sfColor_fromRGB` sets the
alpha channel to 255. -/

/-- The CSFML colour: red, green, blue and alpha, each an `sfUint8`. -/
structure sfColor where
  r : Nat
  g : Nat
  b : Nat
  a : Nat
deriving DecidableEq

/-- The CSFML constant `sfBlack`. -/
def sfBlack : sfColor := ⟨0, 0, 0, 255⟩

/-- The CSFML function `sfColor_fromRGB`. -/
def sfColor_fromRGB (red green blue : Nat) : sfColor := ⟨red, green, blue, 255⟩

/-- The conversion `(sfUint8)v` of a floating value: the fraction is dropped.
For a value outside `0 .. 255` C leaves the result undefined; the low 8 bits of
the integer are taken here. -/
def uint8_of_float (v : ℚ) : Nat := (Int.tdiv v.num (v.den : Int) % 256).toNat

/-- The red polynomial of `get_color`, before the conversion:
`9 * (1 - t) * t * t * t * 255`. -/
def red_value (t : ℚ) : ℚ := 9 * (1 - t) * t * t * t * 255

/-- The green polynomial of `get_color`, before the conversion:
`15 * (1 - t) * (1 - t) * t * t * 255`. -/
def green_value (t : ℚ) : ℚ := 15 * (1 - t) * (1 - t) * t * t * 255

/-- The blue polynomial of `get_color`, before the conversion:
`8.5 * (1 - t) * (1 - t) * (1 - t) * t * 255`. -/
def blue_value (t : ℚ) : ℚ := 8.5 * (1 - t) * (1 - t) * (1 - t) * t * 255

/-- The function `get_color`: black for `MAX_ITER`, and otherwise the three
polynomials of `t = (float)iterations / MAX_ITER`, each converted to `sfUint8`. -/
def get_color (iterations : Int) : sfColor :=
  if iterations = (MAX_ITER : Int) then sfBlack
  else
    let t : ℚ := (iterations : ℚ) / (MAX_ITER : ℚ)
    sfColor_fromRGB (uint8_of_float (red_value t)) (uint8_of_float (green_value t))
      (uint8_of_float (blue_value t))

/-- The colour in the words of the specification: each channel is its polynomial
in `t = iter / MAX_ITER`, rounded to the nearest integer. -/
def spec_color (iter : Int) : sfColor :=
  let t : ℚ := (iter : ℚ) / (MAX_ITER : ℚ)
  ⟨(round (9 * (1 - t) * t ^ 3 * 255)).toNat, (round (15 * (1 - t) ^ 2 * t ^ 2 * 255)).toNat,
    (round (8.5 * (1 - t) ^ 3 * t * 255)).toNat, 255⟩

/-! ## The command line (`parse_args`, the same in the four files) -/

/-- The global flags `graphics_enabled` and `run_count`. -/
structure Flags where
  graphics_enabled : Int
  run_count : Int

/-- The flags when the program starts: `int graphics_enabled = 1;` and
`int run_count = 1;`. -/
def initial_flags : Flags := ⟨1, 1⟩

/-- One turn of the loop of `parse_args` on the argument `arg` (graph.c, lines
93-104): the flags after the turn, and `false` when the turn ends with
`return 0` ("Unknown option").  A C string is the list of its characters;
`strcmp(arg, s) == 0` is equality, `strncmp(arg, "--runs=", 7) == 0` says that
the first 7 characters of `arg` are `--runs=`, and `arg + 7` is the rest.  The
library function `atoi` is a parameter. -/
def parse_arg (atoi : List Char → Int) (flags : Flags) (arg : List Char) : Flags × Bool :=
  if arg = "--graphics".toList then (⟨1, flags.run_count⟩, true)
  else if arg = "--no-graphics".toList then (⟨0, flags.run_count⟩, true)
  else if arg.take 7 = "--runs=".toList then
    let run_count := atoi (arg.drop 7)
    (⟨flags.graphics_enabled, if run_count < 1 then 1 else run_count⟩, true)
  else (flags, false)

/-- The loop `for (int i = 1; i < argc; i++)` of `parse_args` on the arguments
that are left, and the `return 1` after it: the result and the flags. -/
def parse_args_loop (atoi : List Char → Int) : List (List Char) → Flags → Int × Flags
  | [], flags => (1, flags)
  | arg :: rest, flags =>
    if (parse_arg atoi flags arg).2 then parse_args_loop atoi rest (parse_arg atoi flags arg).1
    else (0, (parse_arg atoi flags arg).1)

/-- The function `parse_args` on `argv[0 .. argc-1]`: `argv[0]` is skipped. -/
def parse_args (atoi : List Char → Int) (argv : List (List Char)) (flags : Flags) :
    Int × Flags :=
  parse_args_loop atoi (argv.drop 1) flags

/-- The value of `run_count` when `main` calls the compute function, and `none`
when `main` returns before the call because `parse_args` returned 0 (graph.c,
lines 110-112 and 178; `run_count` is assigned in `parse_args` only). -/
def main_run_count (atoi : List Char → Int) (argv : List (List Char)) : Option Int :=
  if (parse_args atoi argv initial_flags).1 = 0 then none
  else some (parse_args atoi argv initial_flags).2.run_count

/-- A reading of decimal digits, to run `parse_args` on examples: the value of
the longest run of digits at the start of the string, 0 when there is none. -/
def atoi_digits (s : List Char) : Int :=
  ((s.takeWhile Char.isDigit).foldl (fun n c => 10 * n + (c.toNat - 48)) 0 : Nat)

/-! ## The whole compute functions: allocation, timing and drawing -/

/-- The array `sfUint8* pixels`, by index. -/
abbrev Pixels := Nat → Nat

/-- The drawing loop at the end of the compute functions (bad_opt.c, lines
98-104): `pixels[4*i .. 4*i+3]` receive the colour of `iterations[i]` and the
alpha 255. -/
def draw_pixels (iterations : Buffer) (pixels : Pixels) : Pixels :=
  (List.range (WIDTH * HEIGHT)).foldl
    (fun p i =>
      let color := get_color (iterations i)
      Function.update
        (Function.update
          (Function.update (Function.update p (4 * i) color.r) (4 * i + 1) color.g)
          (4 * i + 2) color.b)
        (4 * i + 3) 255)
    pixels

/-- The end of a compute function once the loops have filled `iterations`: the
time `(double)(end - start) / CLOCKS_PER_SEC` is returned, and the pixels are
drawn when `graphics_enabled && pixels` holds (`none` is the null pointer). -/
def finish_compute (flags : Flags) (clock_start clock_end clocks_per_sec : ℚ)
    (iterations : Buffer) (pixels : Option Pixels) : ℚ × Option Pixels :=
  let compute_time := (clock_end - clock_start) / clocks_per_sec
  match pixels with
  | some p =>
    if flags.graphics_enabled ≠ 0 then (compute_time, some (draw_pixels iterations p))
    else (compute_time, some p)
  | none => (compute_time, none)

/-- The function `compute_mandelbrot_sse` as a whole (bad_opt.c, lines 38-109):
the returned time and the pixel array after the call.  `malloc_result` is `none`
when `malloc` returns the null pointer and the content of the new block
otherwise; the two readings of `clock()` and `CLOCKS_PER_SEC` are parameters; a
negative `run_count` runs no repetition. -/
def compute_mandelbrot_sse_call (flags : Flags) (clock_start clock_end clocks_per_sec : ℚ)
    (malloc_result : Option Buffer) (pixels : Option Pixels) (state : MandelbrotState) :
    ℚ × Option Pixels :=
  match malloc_result with
  | none => (0, pixels)
  | some iterations =>
    finish_compute flags clock_start clock_end clocks_per_sec
      (compute_mandelbrot_sse flags.run_count.toNat state iterations) pixels

/-- The function `compute_mandelbrot_optimized` as a whole (basic_opt.c, lines
38-99), with the parameters of `compute_mandelbrot_sse_call`. -/
def compute_mandelbrot_optimized_call (flags : Flags)
    (clock_start clock_end clocks_per_sec : ℚ)
    (malloc_result : Option Buffer) (pixels : Option Pixels) (state : MandelbrotState) :
    ℚ × Option Pixels :=
  match malloc_result with
  | none => (0, pixels)
  | some iterations =>
    finish_compute flags clock_start clock_end clocks_per_sec
      (compute_mandelbrot_optimized flags.run_count.toNat state iterations) pixels

/-- The function `compute_mandelbrot_avx2` as a whole (max_opt.c, lines 39-122),
with the parameters of `compute_mandelbrot_sse_call`. -/
def compute_mandelbrot_avx2_call (flags : Flags) (clock_start clock_end clocks_per_sec : ℚ)
    (malloc_result : Option Buffer) (pixels : Option Pixels) (state : MandelbrotState) :
    ℚ × Option Pixels :=
  match malloc_result with
  | none => (0, pixels)
  | some iterations =>
    finish_compute flags clock_start clock_end clocks_per_sec
      (compute_mandelbrot_avx2 flags.run_count.toNat state iterations) pixels

/-! ## The inner loops, turn by turn -/

/-- The registers of `compute_mandelbrot_sse` for a group with the points
`(cx, cy)` after the first `n` turns of the inner loop, or after all its turns
when the loop ends earlier (bad_opt.c, lines 61-81 with the bound `n` in the
place of `MAX_ITER`). -/
def sse_turns (cx cy : List ℚ) (n : Nat) : SseRegs :=
  sse_loop cx cy n ⟨cx, cy, mm_setzero_si128, 3⟩

/-- The registers of `compute_mandelbrot_avx2` for a group with the points
`(cx, cy)` after the first `n` turns of the inner loop, or after all its turns
when the loop ends earlier (max_opt.c, lines 63-95 with the bound `n` in the
place of `MAX_ITER`). -/
def avx_turns (cx cy : List ℚ) (n : Nat) : AvxRegs :=
  avx_loop cx cy n ⟨cx, cy, mm256_setzero_pd, 0xF⟩

/-! ## The scalar loop in the arithmetic of the machine

The definitions above take a `double` for a rational and its operations for the
exact ones.  The loop of the scalar kernel is given here for an arbitrary
arithmetic: a type of values and the operations and the comparison that the
compiled loop applies to them, so that a statement about every arithmetic is a
statement about the loop with the rounding, the infinities and the NaN of the
machine as well. -/

/-- An arithmetic on the values of `double`: `x + y`, `x - y`, `x * y`, the
comparison `x > y`, and the constants `2` (the `int` 2 converted) and
`ESCAPE_RADIUS`. -/
structure Arith (F : Type) where
  add : F → F → F
  sub : F → F → F
  mul : F → F → F
  gt : F → F → Bool
  two : F
  radius : F

/-- The exact arithmetic on the rationals, with `ESCAPE_RADIUS = 10`. -/
def exact_arith : Arith ℚ :=
  ⟨fun x y => x + y, fun x y => x - y, fun x y => x * y, fun x y => decide (x > y), 2,
    ESCAPE_RADIUS⟩

/-- The inner loop of `compute_mandelbrot` (graph.c, lines 54-61) in the
arithmetic `A`, operation by operation:
`zx2 = zx * zx; zy2 = zy * zy; if (zx2 + zy2 > ESCAPE_RADIUS * ESCAPE_RADIUS) break;
zy = 2 * zx * zy + cy; zx = zx2 - zy2 + cx; iter++;`.
The first argument bounds the number of turns. -/
def whileLoop_in {F : Type} (A : Arith F) (cx cy : F) : Nat → F → F → Int → Int
  | 0, _, _, iter => iter
  | fuel + 1, zx, zy, iter =>
    if iter < (MAX_ITER : Int) then
      let zx2 := A.mul zx zx
      let zy2 := A.mul zy zy
      if A.gt (A.add zx2 zy2) (A.mul A.radius A.radius) = true then iter
      else
        whileLoop_in A cx cy fuel (A.add (A.sub zx2 zy2) cx)
          (A.add (A.mul (A.mul A.two zx) zy) cy) (iter + 1)
    else iter

/-- The orbit `w_0 = c`, `w_{n+1} = w_n^2 + c` in the arithmetic `A`: the real
part of the square is `x * x - y * y` and the imaginary part `2 * x * y`. -/
def orbit_in {F : Type} (A : Arith F) (cx cy : F) : Nat → F × F
  | 0 => (cx, cy)
  | n + 1 =>
    let w := orbit_in A cx cy n
    (A.add (A.sub (A.mul w.1 w.1) (A.mul w.2 w.2)) cx,
      A.add (A.mul (A.mul A.two w.1) w.2) cy)

/-- The squared magnitude of `w_n`, computed in `A`, exceeds
`ESCAPE_RADIUS^2`. -/
def escaped_in {F : Type} (A : Arith F) (cx cy : F) (n : Nat) : Prop :=
  A.gt (A.add (A.mul (orbit_in A cx cy n).1 (orbit_in A cx cy n).1)
    (A.mul (orbit_in A cx cy n).2 (orbit_in A cx cy n).2)) (A.mul A.radius A.radius) = true

instance {F : Type} (A : Arith F) (cx cy : F) : DecidablePred (escaped_in A cx cy) :=
  fun n => inferInstanceAs (Decidable (A.gt
    (A.add (A.mul (orbit_in A cx cy n).1 (orbit_in A cx cy n).1)
      (A.mul (orbit_in A cx cy n).2 (orbit_in A cx cy n).2)) (A.mul A.radius A.radius) = true))

/-- The canonical count in the arithmetic `A`: the least `n < MAX_ITER` whose
state `w_n` has escaped, and `MAX_ITER` when there is none. -/
def canonical_iter_in {F : Type} (A : Arith F) (cx cy : F) : Nat :=
  if h : ∃ n, n < MAX_ITER ∧ escaped_in A cx cy n then Nat.find h else MAX_ITER

/-- A value of binary64: a finite value `m * 2^e` (a value has several such
pairs, and the operations depend on the value only; both zeros are the value
with `m = 0`, which no operation or comparison of the loop tells apart), an
infinity with its sign, or a NaN. -/
inductive Double where
  | fin (m e : Int)
  | inf (negative : Bool)
  | nan
deriving DecidableEq

/-- The number of the binary digits of `n`, with `fuel` digits at most. -/
def bit_length_aux : Nat → Nat → Nat
  | 0, _ => 0
  | fuel + 1, n => if n = 0 then 0 else bit_length_aux fuel (n / 2) + 1

/-- The number of the binary digits of `n`: the least `b` with `n < 2^b`, for
`n < 2^8192`. -/
def bit_length (n : Nat) : Nat := bit_length_aux 8192 n

/-- The rounding of binary64 of the exact value `m * 2^e`: to the nearest value
with 53 significant bits and an exponent not below the one of the subnormals
(the last place is `2^-1074` at least), ties to the even significand, and to an
infinity when the rounded magnitude reaches `2^1024`. -/
def round_double (m e : Int) : Double :=
  let n := m.natAbs
  if n = 0 then Double.fin 0 0
  else
    let top : Int := e + (bit_length n : Int) - 1
    let qe : Int := max (top - 52) (-1074)
    if qe ≤ e then
      if 1024 ≤ top then Double.inf (decide (m < 0)) else Double.fin m e
    else
      let k := (qe - e).toNat
      let q := n / 2 ^ k
      let r := n % 2 ^ k
      let up : Bool :=
        decide (2 ^ (k - 1) < r) || (decide (r = 2 ^ (k - 1)) && decide (q % 2 = 1))
      let q1 := if up then q + 1 else q
      if 1024 < qe + (bit_length q1 : Int) then Double.inf (decide (m < 0))
      else Double.fin (if m < 0 then -(q1 : Int) else (q1 : Int)) qe

/-- The sum `x + y` of binary64. -/
def double_add : Double → Double → Double
  | Double.nan, _ => Double.nan
  | _, Double.nan => Double.nan
  | Double.inf a, Double.inf b => if a = b then Double.inf a else Double.nan
  | Double.inf a, Double.fin _ _ => Double.inf a
  | Double.fin _ _, Double.inf b => Double.inf b
  | Double.fin m1 e1, Double.fin m2 e2 =>
    round_double (m1 * 2 ^ (e1 - min e1 e2).toNat + m2 * 2 ^ (e2 - min e1 e2).toNat) (min e1 e2)

/-- The opposite `-x` of binary64. -/
def double_neg : Double → Double
  | Double.nan => Double.nan
  | Double.inf a => Double.inf (!a)
  | Double.fin m e => Double.fin (-m) e

/-- The product `x * y` of binary64. -/
def double_mul : Double → Double → Double
  | Double.nan, _ => Double.nan
  | _, Double.nan => Double.nan
  | Double.inf a, Double.inf b => Double.inf (a != b)
  | Double.inf a, Double.fin m _ =>
    if m = 0 then Double.nan else Double.inf (a != decide (m < 0))
  | Double.fin m _, Double.inf b =>
    if m = 0 then Double.nan else Double.inf (decide (m < 0) != b)
  | Double.fin m1 e1, Double.fin m2 e2 => round_double (m1 * m2) (e1 + e2)

/-- The comparison `x > y` of binary64: false when an operand is a NaN. -/
def double_gt : Double → Double → Bool
  | Double.nan, _ => false
  | _, Double.nan => false
  | Double.inf a, Double.inf b => !a && b
  | Double.inf a, Double.fin _ _ => !a
  | Double.fin _ _, Double.inf b => b
  | Double.fin m1 e1, Double.fin m2 e2 =>
    decide (m1 * 2 ^ (e1 - min e1 e2).toNat > m2 * 2 ^ (e2 - min e1 e2).toNat)

/-- The arithmetic of binary64 (IEEE 754, rounding to nearest), the one of the
compiled kernels: `x - y` is `x + (-y)`. -/
def double_arith : Arith Double :=
  ⟨double_add, fun x y => double_add x (double_neg y), double_mul, double_gt,
    Double.fin 2 0, Double.fin 10 0⟩

/-- The rational value of a finite `double`, 0 for the other values. -/
def double_value : Double → ℚ
  | Double.fin m e => (m : ℚ) * (2 : ℚ) ^ e
  | _ => 0

/-! ## The library function `atoi`

The C standard defines `atoi(s)` as `(int)strtol(s, NULL, 10)` for the values
that an `int` can hold and leaves the other values undefined; the definition
below is the one of the GNU C library on a machine with a 64-bit `long` and a
32-bit `int`: `strtol` clamps to the range of `long` and the conversion to `int`
keeps the low 32 bits. -/

/-- The function `isspace` in the C locale: the space and the characters 9 to
13. -/
def c_isspace (c : Char) : Bool := c.toNat = 32 || (9 ≤ c.toNat && c.toNat ≤ 13)

/-- The value of the decimal digits at the start of the string, 0 when it
starts with no digit. -/
def digits_value (s : List Char) : Nat :=
  (s.takeWhile Char.isDigit).foldl (fun n c => 10 * n + (c.toNat - 48)) 0

/-- The function `strtol(s, NULL, 10)`: white space is skipped, then an optional
sign and the decimal digits are read, and the value is clamped to the range of
`long`. -/
def strtol (s : List Char) : Int :=
  let t := s.dropWhile c_isspace
  let v : Int :=
    if t.take 1 = ['-'] then -(digits_value (t.drop 1) : Int)
    else if t.take 1 = ['+'] then (digits_value (t.drop 1) : Int)
    else (digits_value t : Int)
  max (-(2 ^ 63)) (min v (2 ^ 63 - 1))

/-- The function `atoi`: `(int)strtol(s, NULL, 10)`. -/
def atoi (s : List Char) : Int := int_of_word ((strtol s % 2 ^ 32).toNat)

/-- The decimal numeral with the digits `ds`, the first digit first. -/
def numeral (ds : List Nat) : List Char := ds.map (fun d => Char.ofNat (48 + d))

/-- The integer value of the decimal numeral with the digits `ds`. -/
def decimal (ds : List Nat) : Nat := ds.foldl (fun n d => 10 * n + d) 0

/-- The argument is one of the three options that `parse_args` knows. -/
def known_option (arg : List Char) : Prop :=
  arg = "--graphics".toList ∨ arg = "--no-graphics".toList ∨ arg.take 7 = "--runs=".toList

/-! ## The scalar kernel follows the canonical rule -/

theorem whileLoop_spec (cx cy : ℚ) (fuel k : Nat) (hk : k + fuel = MAX_ITER)
    (hprev : ∀ m, m < k → ¬ escaped cx cy m) :
    ∃ r : Nat, whileLoop cx cy fuel (orbit cx cy k).1 (orbit cx cy k).2 (k : Int) = (r : Int)
      ∧ r ≤ MAX_ITER ∧ (∀ m, m < r → ¬ escaped cx cy m)
      ∧ (r < MAX_ITER → escaped cx cy r) := by
  induction fuel generalizing k with
  | zero =>
    refine ⟨k, by simp [whileLoop], by omega, hprev, fun h => by omega⟩
  | succ fuel ih =>
    have hlt : (k : Int) < (MAX_ITER : Int) := by exact_mod_cast (by omega : k < MAX_ITER)
    by_cases hesc : escaped cx cy k
    · refine ⟨k, ?_, by omega, hprev, fun _ => hesc⟩
      have h' : (orbit cx cy k).1 * (orbit cx cy k).1 + (orbit cx cy k).2 * (orbit cx cy k).2
          > ESCAPE_RADIUS * ESCAPE_RADIUS := by
        have := hesc
        simp only [escaped, normSq] at this
        simp only [ESCAPE_RADIUS]
        linarith
      simp only [whileLoop, if_pos hlt, if_pos h']
    · have h' : ¬ ((orbit cx cy k).1 * (orbit cx cy k).1 + (orbit cx cy k).2 * (orbit cx cy k).2
          > ESCAPE_RADIUS * ESCAPE_RADIUS) := by
        intro h
        apply hesc
        simp only [escaped, normSq]
        simp only [ESCAPE_RADIUS] at h
        linarith
      have hprev' : ∀ m, m < k + 1 → ¬ escaped cx cy m := by
        intro m hm
        rcases Nat.lt_succ_iff_lt_or_eq.mp hm with h | h
        · exact hprev m h
        · rw [h]; exact hesc
      obtain ⟨r, hr, hle, hbelow, hat⟩ := ih (k + 1) (by omega) hprev'
      refine ⟨r, ?_, hle, hbelow, hat⟩
      simp only [whileLoop, if_pos hlt, if_neg h']
      simpa [orbit] using hr

theorem scalar_iter_eq_canonical (cx cy : ℚ) :
    scalar_iter cx cy = (canonical_iter cx cy : Int) := by
  obtain ⟨r, hr, hle, hbelow, hat⟩ :=
    whileLoop_spec cx cy MAX_ITER 0 (Nat.zero_add _) (fun m hm => absurd hm (Nat.not_lt_zero m))
  have hr' : scalar_iter cx cy = (r : Int) := by
    simpa [scalar_iter, orbit] using hr
  rw [hr']
  suffices h : canonical_iter cx cy = r by rw [h]
  unfold canonical_iter
  split
  · rename_i h
    rw [Nat.find_eq_iff]
    have hlt : r < MAX_ITER := by
      obtain ⟨n, hn, hesc⟩ := h
      by_contra hge
      have : r = MAX_ITER := by omega
      exact hbelow n (by omega) hesc
    exact ⟨⟨hlt, hat hlt⟩, fun m hm hc => hbelow m hm hc.2⟩
  · rename_i h
    by_contra hne
    have hlt : r < MAX_ITER := lt_of_le_of_ne hle (fun e => hne e.symm)
    exact h ⟨r, hlt, hat hlt⟩


/-! ## Lanes in lockstep -/

theorem lockstep_eq_map {L : Type} (stp : Nat → L → L) (act : L → Bool) (fuel i : Nat)
    (ls : List L) :
    lockstep stp act fuel i ls = ls.map (run_lane stp (lock_steps stp act fuel i ls) i) := by
  induction fuel generalizing i ls with
  | zero => simp [lockstep, lock_steps, run_lane]
  | succ fuel ih =>
    by_cases h : ls.any act = true
    · simp only [lockstep, lock_steps, if_pos h]
      rw [ih, List.map_map]
      rfl
    · simp only [lockstep, lock_steps, if_neg h]
      simp [run_lane]

theorem lock_steps_le {L : Type} (stp : Nat → L → L) (act : L → Bool) (fuel i : Nat)
    (ls : List L) : lock_steps stp act fuel i ls ≤ fuel := by
  induction fuel generalizing i ls with
  | zero => simp [lock_steps]
  | succ fuel ih =>
    by_cases h : ls.any act = true
    · simp only [lock_steps, if_pos h]
      exact Nat.succ_le_succ (ih _ _)
    · simp only [lock_steps, if_neg h]
      exact Nat.zero_le _

/-- A lane that is active after each of its first `n` states keeps the loop
running for `n` turns at least. -/
theorem le_lock_steps {L : Type} (stp : Nat → L → L) (act : L → Bool) (fuel i : Nat)
    (ls : List L) (l : L) (hl : l ∈ ls) (n : Nat) (hn : n ≤ fuel)
    (hact : ∀ j, j < n → act (run_lane stp j i l) = true) :
    n ≤ lock_steps stp act fuel i ls := by
  induction fuel generalizing i ls l n with
  | zero => omega
  | succ fuel ih =>
    cases n with
    | zero => exact Nat.zero_le _
    | succ n =>
      have h0 : act l = true := by simpa [run_lane] using hact 0 (Nat.succ_pos n)
      have h : ls.any act = true := List.any_eq_true.mpr ⟨l, hl, h0⟩
      simp only [lock_steps, if_pos h]
      apply Nat.succ_le_succ
      apply ih (i + 1) (ls.map (stp i)) (stp i l) (List.mem_map_of_mem _ hl) n (by omega)
      intro j hj
      simpa [run_lane] using hact (j + 1) (by omega)

theorem movemask_ne_zero (bs : List Bool) : movemask bs ≠ 0 ↔ bs.any id = true := by
  induction bs with
  | nil => simp [movemask]
  | cons b bs ih =>
    cases b
    · simp only [movemask, List.any_cons, id, Bool.false_or]
      rw [← ih]
      simp
    · simp [movemask]

theorem all_ones_testBit (p : Prop) [Decidable p] :
    (if p then ALL_ONES else 0).testBit 63 = decide p := by
  by_cases h : p
  · simp only [if_pos h, h, decide_True]
    decide
  · simp only [if_neg h, h, decide_False]
    decide

theorem all_ones_and_one (p : Prop) [Decidable p] :
    (if p then ALL_ONES else 0) &&& 1 = if p then 1 else 0 := by
  by_cases h : p
  · simp only [if_pos h]
    decide
  · simp only [if_neg h]
    decide

/-! ## The SSE registers hold the lanes -/

theorem sse_body_regs (l0 l1 : SseLane) :
    sse_body [l0.cx, l1.cx] [l0.cy, l1.cy] (sse_regs [l0, l1])
      = sse_regs [sse_lane_step l0, sse_lane_step l1] := by
  simp only [sse_body, sse_regs, sse_lane_step, mm_set1_pd, mm_set1_epi64x, mm_mul_pd, mm_add_pd,
    mm_sub_pd, mm_cmplt_pd, mm_movemask_pd, mm_cast, mm_add_epi64, mm_and_si128, List.map_cons,
    List.map_nil, List.zipWith_cons_cons, List.zipWith_nil_right, all_ones_testBit,
    all_ones_and_one]
  simp

theorem sse_loop_regs (fuel : Nat) (l0 l1 : SseLane) :
    sse_loop [l0.cx, l1.cx] [l0.cy, l1.cy] fuel (sse_regs [l0, l1])
      = sse_regs (lockstep (fun _ => sse_lane_step) SseLane.cmp fuel 0 [l0, l1]) := by
  suffices h : ∀ i, sse_loop [l0.cx, l1.cx] [l0.cy, l1.cy] fuel (sse_regs [l0, l1])
      = sse_regs (lockstep (fun _ => sse_lane_step) SseLane.cmp fuel i [l0, l1]) from h 0
  induction fuel generalizing l0 l1 with
  | zero => intro i; simp [sse_loop, lockstep]
  | succ fuel ih =>
    intro i
    have hm : (sse_regs [l0, l1]).mask ≠ 0 ↔ [l0, l1].any SseLane.cmp = true := by
      simp only [sse_regs]
      rw [movemask_ne_zero]
      simp
    by_cases h : [l0, l1].any SseLane.cmp = true
    · simp only [sse_loop, lockstep, if_pos (hm.mpr h), if_pos h]
      rw [sse_body_regs]
      have := ih (sse_lane_step l0) (sse_lane_step l1) (i + 1)
      simpa [sse_lane_step] using this
    · simp only [sse_loop, lockstep, if_neg (fun hh => h (hm.mp hh)), if_neg h]

/-! ## One lane of the SSE kernel -/

theorem run_lane_succ {L : Type} (stp : Nat → L → L) (m i : Nat) (l : L) :
    run_lane stp (m + 1) i l = stp (i + m) (run_lane stp m i l) := by
  induction m generalizing i l with
  | zero => simp [run_lane]
  | succ m ih =>
    have : run_lane stp (m + 1 + 1) i l = run_lane stp (m + 1) (i + 1) (stp i l) := rfl
    rw [this, ih]
    have h2 : run_lane stp (m + 1) i l = run_lane stp m (i + 1) (stp i l) := rfl
    rw [h2]
    congr 1
    omega

theorem count_below_le (cx cy : ℚ) (off m : Nat) : count_below cx cy off m ≤ m := by
  induction m with
  | zero => simp [count_below]
  | succ m ih =>
    simp only [count_below]
    split <;> omega

theorem count_below_full (cx cy : ℚ) (off m : Nat)
    (h : ∀ j, j < m → normSq (orbit cx cy (off + j)) < 100) : count_below cx cy off m = m := by
  induction m with
  | zero => simp [count_below]
  | succ m ih =>
    simp only [count_below]
    rw [if_pos (h m (Nat.lt_succ_self m)), ih (fun j hj => h j (Nat.lt_succ_of_lt hj))]

theorem radius_sq : ESCAPE_RADIUS * ESCAPE_RADIUS = 100 := by
  norm_num [ESCAPE_RADIUS]

/-- The lane of `(cx, cy)` after `m` turns of the SSE loop: the state is `w_m`,
the counter is the number of the states `w_0 .. w_(m-1)` below the radius, and
the comparison is the one of `w_(m-1)`. -/
theorem sse_run_lane (cx cy : ℚ) (m i : Nat) :
    run_lane (fun _ => sse_lane_step) m i (sse_lane_init cx cy)
      = ⟨cx, cy, (orbit cx cy m).1, (orbit cx cy m).2, count_below cx cy 0 m % 2 ^ 64,
          decide (m = 0 ∨ normSq (orbit cx cy (m - 1)) < 100)⟩ := by
  induction m with
  | zero => simp [run_lane, sse_lane_init, orbit, count_below]
  | succ m ih =>
    rw [run_lane_succ, ih]
    simp only [sse_lane_step, radius_sq, orbit, count_below, normSq, Nat.zero_add,
      Nat.add_sub_cancel]
    congr 1
    · ring
    · by_cases h : (orbit cx cy m).1 * (orbit cx cy m).1 + (orbit cx cy m).2 * (orbit cx cy m).2
          < 100
      · simp only [h, decide_True, if_true]
        exact Nat.mod_add_mod _ _ _
      · simp only [h, decide_False]
        exact Nat.mod_add_mod _ _ _
    · simp

theorem sse_cx_eq (state : MandelbrotState) (x : Nat) :
    sse_cx state x = [map_x state x, map_x state (x + 1)] := by
  simp [sse_cx, map_x, mm_set1_pd, mm_set_pd, mm_add_pd, mm_sub_pd, mm_mul_pd]

theorem sse_cy_eq (state : MandelbrotState) (y : Nat) :
    sse_cy state y = [map_y state y, map_y state y] := by
  simp [sse_cy, map_y, mm_set1_pd, mm_add_pd, mm_mul_pd]

/-- The number of turns of the SSE loop for the group at `(x, y)`. -/
theorem sse_iter_eq (state : MandelbrotState) (y x : Nat) :
    ∃ m, m ≤ MAX_ITER
      ∧ (∀ n, n ≤ MAX_ITER →
          (∀ j, j < n → (j = 0 ∨ normSq (orbit (map_x state x) (map_y state y) (j - 1)) < 100))
          → n ≤ m)
      ∧ (∀ n, n ≤ MAX_ITER →
          (∀ j, j < n →
            (j = 0 ∨ normSq (orbit (map_x state (x + 1)) (map_y state y) (j - 1)) < 100))
          → n ≤ m)
      ∧ sse_iter state y x
        = [count_below (map_x state x) (map_y state y) 0 m,
           count_below (map_x state (x + 1)) (map_y state y) 0 m] := by
  let l0 := sse_lane_init (map_x state x) (map_y state y)
  let l1 := sse_lane_init (map_x state (x + 1)) (map_y state y)
  refine ⟨lock_steps (fun _ => sse_lane_step) SseLane.cmp MAX_ITER 0 [l0, l1],
    lock_steps_le _ _ _ _ _, ?_, ?_, ?_⟩
  · intro n hn h
    apply le_lock_steps _ _ _ _ _ l0 (by simp) n hn
    intro j hj
    rw [sse_run_lane]
    simpa using h j hj
  · intro n hn h
    apply le_lock_steps _ _ _ _ _ l1 (by simp) n hn
    intro j hj
    rw [sse_run_lane]
    simpa using h j hj
  · have hreg : (⟨[map_x state x, map_x state (x + 1)], [map_y state y, map_y state y],
        mm_setzero_si128, 3⟩ : SseRegs) = sse_regs [l0, l1] := by
      simp [sse_regs, l0, l1, sse_lane_init, mm_setzero_si128, movemask]
    have hloop := sse_loop_regs MAX_ITER l0 l1
    have hm := lock_steps_le (fun _ => sse_lane_step) SseLane.cmp MAX_ITER 0 [l0, l1]
    simp only [sse_iter, sse_cx_eq, sse_cy_eq]
    rw [hreg]
    have e0 : l0.cx = map_x state x := rfl
    have e1 : l1.cx = map_x state (x + 1) := rfl
    have e2 : l0.cy = map_y state y := rfl
    have e3 : l1.cy = map_y state y := rfl
    rw [e0, e1, e2, e3] at hloop
    rw [hloop, lockstep_eq_map]
    simp only [sse_regs, List.map_cons, List.map_nil, l0, l1, sse_run_lane]
    have hlt : ∀ cx cy m, m ≤ MAX_ITER →
        count_below cx cy 0 m % 2 ^ 64 = count_below cx cy 0 m := by
      intro cx cy m hm
      apply Nat.mod_eq_of_lt
      have := count_below_le cx cy 0 m
      have hM : MAX_ITER = 256 := rfl
      omega
    rw [hlt _ _ _ hm, hlt _ _ _ hm]

/-! ## The AVX registers hold the lanes -/

theorem movemask4_bits (b0 b1 b2 b3 : Bool) :
    ((movemask [b0, b1, b2, b3] &&& 0x1 ≠ 0) ↔ b0 = true)
    ∧ ((movemask [b0, b1, b2, b3] &&& 0x2 ≠ 0) ↔ b1 = true)
    ∧ ((movemask [b0, b1, b2, b3] &&& 0x4 ≠ 0) ↔ b2 = true)
    ∧ ((movemask [b0, b1, b2, b3] &&& 0x8 ≠ 0) ↔ b3 = true) := by
  cases b0 <;> cases b1 <;> cases b2 <;> cases b3 <;> decide

theorem avx_body_regs (l0 l1 l2 l3 : AvxLane) :
    avx_body [l0.cx, l1.cx, l2.cx, l3.cx] [l0.cy, l1.cy, l2.cy, l3.cy]
        (avx_regs [l0, l1, l2, l3])
      = avx_regs [avx_lane_step l0, avx_lane_step l1, avx_lane_step l2, avx_lane_step l3] := by
  simp only [avx_body, avx_regs, avx_lane_step, mm256_set1_pd, mm256_setr_epi64x, mm256_and_pd,
    mm_mul_pd, mm_add_pd, mm_sub_pd, mm_cmplt_pd, mm_movemask_pd, mm_cast, List.map_cons,
    List.map_nil, List.zipWith_cons_cons, List.zipWith_nil_right, all_ones_testBit]
  have hb := movemask4_bits
    (decide ((l0.zx * l0.zx - l0.zy * l0.zy + l0.cx) * (l0.zx * l0.zx - l0.zy * l0.zy + l0.cx)
      + (l0.zx * l0.zy * 2 + l0.cy) * (l0.zx * l0.zy * 2 + l0.cy)
        < ESCAPE_RADIUS * ESCAPE_RADIUS))
    (decide ((l1.zx * l1.zx - l1.zy * l1.zy + l1.cx) * (l1.zx * l1.zx - l1.zy * l1.zy + l1.cx)
      + (l1.zx * l1.zy * 2 + l1.cy) * (l1.zx * l1.zy * 2 + l1.cy)
        < ESCAPE_RADIUS * ESCAPE_RADIUS))
    (decide ((l2.zx * l2.zx - l2.zy * l2.zy + l2.cx) * (l2.zx * l2.zx - l2.zy * l2.zy + l2.cx)
      + (l2.zx * l2.zy * 2 + l2.cy) * (l2.zx * l2.zy * 2 + l2.cy)
        < ESCAPE_RADIUS * ESCAPE_RADIUS))
    (decide ((l3.zx * l3.zx - l3.zy * l3.zy + l3.cx) * (l3.zx * l3.zx - l3.zy * l3.zy + l3.cx)
      + (l3.zx * l3.zy * 2 + l3.cy) * (l3.zx * l3.zy * 2 + l3.cy)
        < ESCAPE_RADIUS * ESCAPE_RADIUS))
  obtain ⟨h0, h1, h2, h3⟩ := hb
  have hz : (0 : Nat) ≠ ALL_ONES := by decide
  simp only [h0, h1, h2, h3]
  congr 1
  simp only [List.cons.injEq, and_true]
  refine ⟨?_, ?_, ?_, ?_⟩ <;> congr 1 <;> split <;> simp_all

theorem avx_loop_regs (fuel : Nat) (l0 l1 l2 l3 : AvxLane) :
    avx_loop [l0.cx, l1.cx, l2.cx, l3.cx] [l0.cy, l1.cy, l2.cy, l3.cy] fuel
        (avx_regs [l0, l1, l2, l3])
      = avx_regs (lockstep (fun _ => avx_lane_step) AvxLane.cmp fuel 0 [l0, l1, l2, l3]) := by
  suffices h : ∀ i, avx_loop [l0.cx, l1.cx, l2.cx, l3.cx] [l0.cy, l1.cy, l2.cy, l3.cy] fuel
        (avx_regs [l0, l1, l2, l3])
      = avx_regs (lockstep (fun _ => avx_lane_step) AvxLane.cmp fuel i [l0, l1, l2, l3])
    from h 0
  induction fuel generalizing l0 l1 l2 l3 with
  | zero => intro i; simp [avx_loop, lockstep]
  | succ fuel ih =>
    intro i
    have hm : (avx_regs [l0, l1, l2, l3]).mask ≠ 0
        ↔ [l0, l1, l2, l3].any AvxLane.cmp = true := by
      simp only [avx_regs]
      rw [movemask_ne_zero]
      simp
    by_cases h : [l0, l1, l2, l3].any AvxLane.cmp = true
    · simp only [avx_loop, lockstep, if_pos (hm.mpr h), if_pos h]
      rw [avx_body_regs]
      have := ih (avx_lane_step l0) (avx_lane_step l1) (avx_lane_step l2) (avx_lane_step l3)
        (i + 1)
      simpa [avx_lane_step] using this
    · simp only [avx_loop, lockstep, if_neg (fun hh => h (hm.mp hh)), if_neg h]

/-- The lane of `(cx, cy)` after `m` turns of the AVX loop: the state is `w_m`,
the counter is the number of the states `w_1 .. w_m` below the radius, and the
comparison is the one of `w_m`. -/
theorem avx_run_lane (cx cy : ℚ) (m i : Nat) :
    run_lane (fun _ => avx_lane_step) m i (avx_lane_init cx cy)
      = ⟨cx, cy, (orbit cx cy m).1, (orbit cx cy m).2, (count_below cx cy 1 m : ℚ),
          decide (m = 0 ∨ normSq (orbit cx cy m) < 100)⟩ := by
  induction m with
  | zero => simp [run_lane, avx_lane_init, orbit, count_below]
  | succ m ih =>
    rw [run_lane_succ, ih]
    simp only [avx_lane_step, radius_sq, orbit, count_below, normSq]
    have e : 1 + m = m + 1 := by omega
    congr 1
    · ring
    · rw [e]
      simp only [orbit]
      by_cases h : ((orbit cx cy m).1 * (orbit cx cy m).1 - (orbit cx cy m).2 * (orbit cx cy m).2
          + cx) * ((orbit cx cy m).1 * (orbit cx cy m).1
          - (orbit cx cy m).2 * (orbit cx cy m).2 + cx)
          + (2 * (orbit cx cy m).1 * (orbit cx cy m).2 + cy)
            * (2 * (orbit cx cy m).1 * (orbit cx cy m).2 + cy) < 100
      · have h' : ((orbit cx cy m).1 * (orbit cx cy m).1 - (orbit cx cy m).2 * (orbit cx cy m).2
          + cx) * ((orbit cx cy m).1 * (orbit cx cy m).1
          - (orbit cx cy m).2 * (orbit cx cy m).2 + cx)
          + ((orbit cx cy m).1 * (orbit cx cy m).2 * 2 + cy)
            * ((orbit cx cy m).1 * (orbit cx cy m).2 * 2 + cy) < 100 := by
          have e2 : (orbit cx cy m).1 * (orbit cx cy m).2 * 2
              = 2 * (orbit cx cy m).1 * (orbit cx cy m).2 := by ring
          rw [e2]; exact h
        simp [h, h']
      · have h' : ¬ (((orbit cx cy m).1 * (orbit cx cy m).1
          - (orbit cx cy m).2 * (orbit cx cy m).2
          + cx) * ((orbit cx cy m).1 * (orbit cx cy m).1
          - (orbit cx cy m).2 * (orbit cx cy m).2 + cx)
          + ((orbit cx cy m).1 * (orbit cx cy m).2 * 2 + cy)
            * ((orbit cx cy m).1 * (orbit cx cy m).2 * 2 + cy) < 100) := by
          have e2 : (orbit cx cy m).1 * (orbit cx cy m).2 * 2
              = 2 * (orbit cx cy m).1 * (orbit cx cy m).2 := by ring
          rw [e2]; exact h
        simp [h, h']
    · have e2 : (orbit cx cy m).1 * (orbit cx cy m).2 * 2
          = 2 * (orbit cx cy m).1 * (orbit cx cy m).2 := by ring
      simp [e2]

theorem avx_cx_eq (state : MandelbrotState) (x : Nat) :
    avx_cx state x
      = [map_x state x, map_x state (x + 1), map_x state (x + 2), map_x state (x + 3)] := by
  simp [avx_cx, map_x, mm256_set1_pd, mm256_set_pd, mm_add_pd, mm_sub_pd, mm_mul_pd]

theorem avx_cy_eq (state : MandelbrotState) (y : Nat) :
    avx_cy state y = [map_y state y, map_y state y, map_y state y, map_y state y] := by
  simp [avx_cy, map_y, mm256_set1_pd, mm_add_pd]

/-- The counters of the AVX kernel for the group at `(x, y)`: after the `m` turns
of the loop, lane `k` has counted the states `w_1 .. w_m` of its point that are
below the radius; a lane whose states `w_1 .. w_(n-1)` are below the radius
keeps the loop running for `n` turns. -/
theorem avx_iter_result_eq (state : MandelbrotState) (y x : Nat) :
    ∃ m, m ≤ MAX_ITER
      ∧ (∀ k, k < 4 → ∀ n, n ≤ MAX_ITER →
          (∀ j, j < n →
            (j = 0 ∨ normSq (orbit (map_x state (x + k)) (map_y state y) j) < 100))
          → n ≤ m)
      ∧ avx_iter_result state y x
        = [(count_below (map_x state x) (map_y state y) 1 m : ℚ),
           (count_below (map_x state (x + 1)) (map_y state y) 1 m : ℚ),
           (count_below (map_x state (x + 2)) (map_y state y) 1 m : ℚ),
           (count_below (map_x state (x + 3)) (map_y state y) 1 m : ℚ)] := by
  have hreg : (⟨[map_x state x, map_x state (x + 1), map_x state (x + 2), map_x state (x + 3)],
      [map_y state y, map_y state y, map_y state y, map_y state y],
      mm256_setzero_pd, 0xF⟩ : AvxRegs)
      = avx_regs [avx_lane_init (map_x state x) (map_y state y),
          avx_lane_init (map_x state (x + 1)) (map_y state y),
          avx_lane_init (map_x state (x + 2)) (map_y state y),
          avx_lane_init (map_x state (x + 3)) (map_y state y)] := by
    simp [avx_regs, avx_lane_init, mm256_setzero_pd, movemask]
  have hloop := avx_loop_regs MAX_ITER (avx_lane_init (map_x state x) (map_y state y))
    (avx_lane_init (map_x state (x + 1)) (map_y state y))
    (avx_lane_init (map_x state (x + 2)) (map_y state y))
    (avx_lane_init (map_x state (x + 3)) (map_y state y))
  simp only [avx_lane_init] at hloop
  simp only [avx_lane_init] at hreg
  refine ⟨lock_steps (fun _ => avx_lane_step) AvxLane.cmp MAX_ITER 0
    [avx_lane_init (map_x state x) (map_y state y),
      avx_lane_init (map_x state (x + 1)) (map_y state y),
      avx_lane_init (map_x state (x + 2)) (map_y state y),
      avx_lane_init (map_x state (x + 3)) (map_y state y)],
    lock_steps_le _ _ _ _ _, ?_, ?_⟩
  · intro k hk n hn h
    apply le_lock_steps _ _ _ _ _ (avx_lane_init (map_x state (x + k)) (map_y state y)) ?_ n hn
    · intro j hj
      rw [avx_run_lane]
      simpa using h j hj
    · have : k = 0 ∨ k = 1 ∨ k = 2 ∨ k = 3 := by omega
      rcases this with h | h | h | h <;> subst h <;> simp
  · simp only [avx_iter_result, avx_cx_eq, avx_cy_eq]
    rw [hreg, hloop, lockstep_eq_map]
    simp only [avx_regs, List.map_cons, List.map_nil]
    have e := fun cx cy m i => congrArg AvxLane.iter (avx_run_lane cx cy m i)
    simp only [avx_lane_init] at e
    simp only [e]
    rfl

/-! ## The arrays of the unrolled kernel hold the lanes -/

theorem movemask4_shift (b0 b1 b2 b3 : Bool) :
    ((movemask [b0, b1, b2, b3] &&& (1 <<< 0) ≠ 0) ↔ b0 = true)
    ∧ ((movemask [b0, b1, b2, b3] &&& (1 <<< 1) ≠ 0) ↔ b1 = true)
    ∧ ((movemask [b0, b1, b2, b3] &&& (1 <<< 2) ≠ 0) ↔ b2 = true)
    ∧ ((movemask [b0, b1, b2, b3] &&& (1 <<< 3) ≠ 0) ↔ b3 = true)
    ∧ movemask [b0, b1, b2, b3] ||| (1 <<< 0) = movemask [true, b1, b2, b3]
    ∧ movemask [b0, b1, b2, b3] ||| (1 <<< 1) = movemask [b0, true, b2, b3]
    ∧ movemask [b0, b1, b2, b3] ||| (1 <<< 2) = movemask [b0, b1, true, b3]
    ∧ movemask [b0, b1, b2, b3] ||| (1 <<< 3) = movemask [b0, b1, b2, true] := by
  cases b0 <;> cases b1 <;> cases b2 <;> cases b3 <;> decide

theorem opt_lane_regs0 (i : Nat) (l0 l1 l2 l3 : OptLane) :
    opt_lane [l0.cx, l1.cx, l2.cx, l3.cx] [l0.cy, l1.cy, l2.cy, l3.cy] i
        (opt_regs [l0, l1, l2, l3]) 0
      = opt_regs [opt_lane_step i l0, l1, l2, l3] := by
  obtain ⟨cx0, cy0, zx0, zy0, it0, e0⟩ := l0
  obtain ⟨cx1, cy1, zx1, zy1, it1, e1⟩ := l1
  obtain ⟨cx2, cy2, zx2, zy2, it2, e2⟩ := l2
  obtain ⟨cx3, cy3, zx3, zy3, it3, e3⟩ := l3
  obtain ⟨a0, a1, a2, a3, o0, o1, o2, o3⟩ := movemask4_shift e0 e1 e2 e3
  simp only [opt_lane, opt_regs, List.map_cons, List.map_nil, a0, o0]
  by_cases h : zx0 * zx0 + zy0 * zy0 > ESCAPE_RADIUS * ESCAPE_RADIUS <;>
    cases e0 <;> simp [opt_lane_step, h]

theorem opt_lane_regs1 (i : Nat) (l0 l1 l2 l3 : OptLane) :
    opt_lane [l0.cx, l1.cx, l2.cx, l3.cx] [l0.cy, l1.cy, l2.cy, l3.cy] i
        (opt_regs [l0, l1, l2, l3]) 1
      = opt_regs [l0, opt_lane_step i l1, l2, l3] := by
  obtain ⟨cx0, cy0, zx0, zy0, it0, e0⟩ := l0
  obtain ⟨cx1, cy1, zx1, zy1, it1, e1⟩ := l1
  obtain ⟨cx2, cy2, zx2, zy2, it2, e2⟩ := l2
  obtain ⟨cx3, cy3, zx3, zy3, it3, e3⟩ := l3
  obtain ⟨a0, a1, a2, a3, o0, o1, o2, o3⟩ := movemask4_shift e0 e1 e2 e3
  simp only [opt_lane, opt_regs, List.map_cons, List.map_nil, a1, o1]
  by_cases h : zx1 * zx1 + zy1 * zy1 > ESCAPE_RADIUS * ESCAPE_RADIUS <;>
    cases e1 <;> simp [opt_lane_step, h]

theorem opt_lane_regs2 (i : Nat) (l0 l1 l2 l3 : OptLane) :
    opt_lane [l0.cx, l1.cx, l2.cx, l3.cx] [l0.cy, l1.cy, l2.cy, l3.cy] i
        (opt_regs [l0, l1, l2, l3]) 2
      = opt_regs [l0, l1, opt_lane_step i l2, l3] := by
  obtain ⟨cx0, cy0, zx0, zy0, it0, e0⟩ := l0
  obtain ⟨cx1, cy1, zx1, zy1, it1, e1⟩ := l1
  obtain ⟨cx2, cy2, zx2, zy2, it2, e2⟩ := l2
  obtain ⟨cx3, cy3, zx3, zy3, it3, e3⟩ := l3
  obtain ⟨a0, a1, a2, a3, o0, o1, o2, o3⟩ := movemask4_shift e0 e1 e2 e3
  simp only [opt_lane, opt_regs, List.map_cons, List.map_nil, a2, o2]
  by_cases h : zx2 * zx2 + zy2 * zy2 > ESCAPE_RADIUS * ESCAPE_RADIUS <;>
    cases e2 <;> simp [opt_lane_step, h]

theorem opt_lane_regs3 (i : Nat) (l0 l1 l2 l3 : OptLane) :
    opt_lane [l0.cx, l1.cx, l2.cx, l3.cx] [l0.cy, l1.cy, l2.cy, l3.cy] i
        (opt_regs [l0, l1, l2, l3]) 3
      = opt_regs [l0, l1, l2, opt_lane_step i l3] := by
  obtain ⟨cx0, cy0, zx0, zy0, it0, e0⟩ := l0
  obtain ⟨cx1, cy1, zx1, zy1, it1, e1⟩ := l1
  obtain ⟨cx2, cy2, zx2, zy2, it2, e2⟩ := l2
  obtain ⟨cx3, cy3, zx3, zy3, it3, e3⟩ := l3
  obtain ⟨a0, a1, a2, a3, o0, o1, o2, o3⟩ := movemask4_shift e0 e1 e2 e3
  simp only [opt_lane, opt_regs, List.map_cons, List.map_nil, a3, o3]
  by_cases h : zx3 * zx3 + zy3 * zy3 > ESCAPE_RADIUS * ESCAPE_RADIUS <;>
    cases e3 <;> simp [opt_lane_step, h]

theorem opt_lane_step_cx (i : Nat) (l : OptLane) : (opt_lane_step i l).cx = l.cx := by
  unfold opt_lane_step
  split
  · rfl
  · split <;> rfl

theorem opt_lane_step_cy (i : Nat) (l : OptLane) : (opt_lane_step i l).cy = l.cy := by
  unfold opt_lane_step
  split
  · rfl
  · split <;> rfl

theorem opt_body_regs (i : Nat) (l0 l1 l2 l3 : OptLane) :
    opt_body [l0.cx, l1.cx, l2.cx, l3.cx] [l0.cy, l1.cy, l2.cy, l3.cy] i
        (opt_regs [l0, l1, l2, l3])
      = opt_regs [opt_lane_step i l0, opt_lane_step i l1, opt_lane_step i l2,
          opt_lane_step i l3] := by
  have r : List.range 4 = [0, 1, 2, 3] := by decide
  simp only [opt_body, r, List.foldl_cons, List.foldl_nil]
  rw [opt_lane_regs0]
  have h1 := opt_lane_regs1 i (opt_lane_step i l0) l1 l2 l3
  rw [opt_lane_step_cx, opt_lane_step_cy] at h1
  rw [h1]
  have h2 := opt_lane_regs2 i (opt_lane_step i l0) (opt_lane_step i l1) l2 l3
  rw [opt_lane_step_cx, opt_lane_step_cy, opt_lane_step_cx, opt_lane_step_cy] at h2
  rw [h2]
  have h3 := opt_lane_regs3 i (opt_lane_step i l0) (opt_lane_step i l1) (opt_lane_step i l2) l3
  rw [opt_lane_step_cx, opt_lane_step_cy, opt_lane_step_cx, opt_lane_step_cy,
    opt_lane_step_cx, opt_lane_step_cy] at h3
  rw [h3]

theorem movemask4_full (b0 b1 b2 b3 : Bool) :
    movemask [b0, b1, b2, b3] ≠ 0x0F ↔ [b0, b1, b2, b3].any (fun b => !b) = true := by
  cases b0 <;> cases b1 <;> cases b2 <;> cases b3 <;> decide

theorem opt_loop_regs (fuel i : Nat) (l0 l1 l2 l3 : OptLane) :
    opt_loop [l0.cx, l1.cx, l2.cx, l3.cx] [l0.cy, l1.cy, l2.cy, l3.cy] fuel i
        (opt_regs [l0, l1, l2, l3])
      = opt_regs (lockstep opt_lane_step (fun l => !l.esc) fuel i [l0, l1, l2, l3]) := by
  induction fuel generalizing i l0 l1 l2 l3 with
  | zero => simp [opt_loop, lockstep]
  | succ fuel ih =>
    have hm : (opt_regs [l0, l1, l2, l3]).mask ≠ 0x0F
        ↔ [l0, l1, l2, l3].any (fun l => !l.esc) = true := by
      simp only [opt_regs, List.map_cons, List.map_nil]
      rw [movemask4_full]
      simp
    by_cases h : [l0, l1, l2, l3].any (fun l => !l.esc) = true
    · simp only [opt_loop, lockstep, if_pos (hm.mpr h), if_pos h]
      rw [opt_body_regs]
      have := ih (i + 1) (opt_lane_step i l0) (opt_lane_step i l1) (opt_lane_step i l2)
        (opt_lane_step i l3)
      simp only [opt_lane_step_cx, opt_lane_step_cy] at this
      simpa using this
    · simp only [opt_loop, lockstep, if_neg (fun hh => h (hm.mp hh)), if_neg h]

/-! ## One lane of the unrolled kernel -/

theorem orbit0_succ (cx cy : ℚ) (n : Nat) :
    orbit0 cx cy (n + 1)
      = ((orbit0 cx cy n).1 * (orbit0 cx cy n).1 - (orbit0 cx cy n).2 * (orbit0 cx cy n).2 + cx,
         2 * (orbit0 cx cy n).1 * (orbit0 cx cy n).2 + cy) := by
  cases n with
  | zero => simp [orbit0, orbit]
  | succ n => simp [orbit0, orbit]

/-- A lane of the unrolled kernel that has not escaped in its first `m` turns
holds `z_m`, and its `iter` cell is still 0. -/
theorem opt_run_lane_inside (cx cy : ℚ) (m : Nat)
    (h : ∀ j, j < m → ¬ escaped0 cx cy j) :
    run_lane opt_lane_step m 0 (opt_lane_init cx cy)
      = ⟨cx, cy, (orbit0 cx cy m).1, (orbit0 cx cy m).2, 0, false⟩ := by
  induction m with
  | zero => simp [run_lane, opt_lane_init, orbit0]
  | succ m ih =>
    rw [run_lane_succ, ih (fun j hj => h j (Nat.lt_succ_of_lt hj))]
    have hm : ¬ ((orbit0 cx cy m).1 * (orbit0 cx cy m).1
        + (orbit0 cx cy m).2 * (orbit0 cx cy m).2 > ESCAPE_RADIUS * ESCAPE_RADIUS) := by
      rw [radius_sq]
      exact h m (Nat.lt_succ_self m)
    simp only [opt_lane_step, if_neg hm, orbit0_succ]
    simp

/-- A lane of the unrolled kernel whose first escaped state is `z_e` holds `e`
in its `iter` cell from turn `e` on. -/
theorem opt_run_lane_escaped (cx cy : ℚ) (e m : Nat) (hem : e < m)
    (h : ∀ j, j < e → ¬ escaped0 cx cy j) (he : escaped0 cx cy e) :
    run_lane opt_lane_step m 0 (opt_lane_init cx cy)
      = ⟨cx, cy, (orbit0 cx cy (e + 1)).1, (orbit0 cx cy (e + 1)).2, (e : Int), true⟩ := by
  induction m with
  | zero => omega
  | succ m ih =>
    rw [run_lane_succ]
    rcases Nat.lt_succ_iff_lt_or_eq.mp hem with hlt | heq
    · rw [ih hlt]
      simp [opt_lane_step]
    · subst heq
      rw [opt_run_lane_inside cx cy e h]
      have hm : (orbit0 cx cy e).1 * (orbit0 cx cy e).1
          + (orbit0 cx cy e).2 * (orbit0 cx cy e).2 > ESCAPE_RADIUS * ESCAPE_RADIUS := by
        rw [radius_sq]
        exact he
      simp only [opt_lane_step, if_pos hm, orbit0_succ]
      simp

/-- The `iter` cell of a lane after `m` turns of a group, when the lane has kept
the loop running as long as it had not escaped. -/
theorem opt_run_lane_iter (cx cy : ℚ) (m : Nat) (hm : m ≤ MAX_ITER)
    (hrun : ∀ n, n ≤ MAX_ITER → (∀ j, j + 1 < n → ¬ escaped0 cx cy j) → n ≤ m) :
    (run_lane opt_lane_step m 0 (opt_lane_init cx cy)).iter = (opt_count cx cy : Int) := by
  unfold opt_count
  split
  · rename_i hex
    have hspec := Nat.find_spec hex
    have hmin := fun j (hj : j < Nat.find hex) => Nat.find_min hex hj
    have hbelow : ∀ j, j < Nat.find hex → ¬ escaped0 cx cy j := by
      intro j hj hesc
      exact hmin j hj ⟨lt_trans hj hspec.1, hesc⟩
    have hle : Nat.find hex + 1 ≤ m :=
      hrun _ hspec.1 (fun j hj => hbelow j (Nat.lt_of_succ_lt_succ hj))
    rw [opt_run_lane_escaped cx cy _ m hle hbelow hspec.2]
  · rename_i hno
    rw [opt_run_lane_inside cx cy m (fun j hj hesc => hno ⟨j, lt_of_lt_of_le hj hm, hesc⟩)]
    rfl

theorem opt_cx_eq (state : MandelbrotState) (x : Nat) :
    opt_cx state x
      = [map_x state x, map_x state (x + 1), map_x state (x + 2), map_x state (x + 3)] := by
  have r : List.range 4 = [0, 1, 2, 3] := by decide
  simp [opt_cx, map_x, r]

theorem opt_cy_eq (state : MandelbrotState) (y : Nat) :
    opt_cy state y = [map_y state y, map_y state y, map_y state y, map_y state y] := by
  have r : List.range 4 = [0, 1, 2, 3] := by decide
  simp [opt_cy, map_y, r]

/-- The array `iter` of the unrolled kernel for the group at `(x, y)`: the cell
of lane `k` holds the index of the first escaped state of the orbit from zero
of its point, and 0 when no state before `MAX_ITER` has escaped. -/
theorem opt_iter_eq (state : MandelbrotState) (y x : Nat) :
    opt_iter state y x
      = [(opt_count (map_x state x) (map_y state y) : Int),
         (opt_count (map_x state (x + 1)) (map_y state y) : Int),
         (opt_count (map_x state (x + 2)) (map_y state y) : Int),
         (opt_count (map_x state (x + 3)) (map_y state y) : Int)] := by
  have hreg : (⟨[0, 0, 0, 0], [0, 0, 0, 0], [0, 0, 0, 0], 0⟩ : OptRegs)
      = opt_regs [opt_lane_init (map_x state x) (map_y state y),
          opt_lane_init (map_x state (x + 1)) (map_y state y),
          opt_lane_init (map_x state (x + 2)) (map_y state y),
          opt_lane_init (map_x state (x + 3)) (map_y state y)] := by
    simp [opt_regs, opt_lane_init, movemask]
  have hloop := opt_loop_regs MAX_ITER 0 (opt_lane_init (map_x state x) (map_y state y))
    (opt_lane_init (map_x state (x + 1)) (map_y state y))
    (opt_lane_init (map_x state (x + 2)) (map_y state y))
    (opt_lane_init (map_x state (x + 3)) (map_y state y))
  have hc : ∀ cx cy, (opt_lane_init cx cy).cx = cx := fun _ _ => rfl
  have hd : ∀ cx cy, (opt_lane_init cx cy).cy = cy := fun _ _ => rfl
  simp only [hc, hd] at hloop
  simp only [opt_iter, opt_cx_eq, opt_cy_eq]
  rw [hreg, hloop, lockstep_eq_map]
  simp only [opt_regs, List.map_cons, List.map_nil]
  have key : ∀ k, k < 4 →
      (run_lane opt_lane_step
        (lock_steps opt_lane_step (fun l => !l.esc) MAX_ITER 0
          [opt_lane_init (map_x state x) (map_y state y),
            opt_lane_init (map_x state (x + 1)) (map_y state y),
            opt_lane_init (map_x state (x + 2)) (map_y state y),
            opt_lane_init (map_x state (x + 3)) (map_y state y)]) 0
        (opt_lane_init (map_x state (x + k)) (map_y state y))).iter
      = (opt_count (map_x state (x + k)) (map_y state y) : Int) := by
    intro k hk
    apply opt_run_lane_iter _ _ _ (lock_steps_le _ _ _ _ _)
    intro n hn h
    apply le_lock_steps _ _ _ _ _ (opt_lane_init (map_x state (x + k)) (map_y state y)) ?_ n hn
    · intro j hj
      rw [opt_run_lane_inside _ _ j (fun j' hj' => h j' (by omega))]
      rfl
    · have : k = 0 ∨ k = 1 ∨ k = 2 ∨ k = 3 := by omega
      rcases this with h | h | h | h <;> subst h <;> simp
  have k0 := key 0 (by omega)
  have k1 := key 1 (by omega)
  have k2 := key 2 (by omega)
  have k3 := key 3 (by omega)
  simp only [Nat.add_zero] at k0
  rw [k0, k1, k2, k3]

/-! ## The loops over the grid fill the buffer -/

theorem writes_foldl {ι : Type} (l : List ι) (body : ι → Buffer → Buffer)
    (S : ι → Nat → Prop) (g : Nat → Int) (h : ∀ j, j ∈ l → WritesOn (body j) (S j) g) :
    WritesOn (fun buf => l.foldl (fun b j => body j b) buf) (fun i => ∃ j, j ∈ l ∧ S j i) g := by
  induction l with
  | nil =>
    intro buf i
    simp
  | cons a l ih =>
    have iha := ih (fun j hj => h j (List.mem_cons_of_mem a hj))
    have ha := h a (List.mem_cons_self a l)
    intro buf i
    simp only [List.foldl_cons]
    constructor
    · rintro ⟨j, hj, hS⟩
      by_cases hl : ∃ j, j ∈ l ∧ S j i
      · exact (iha (body a buf) i).1 hl
      · refine ((iha (body a buf) i).2 hl).trans ?_
        rcases List.mem_cons.mp hj with rfl | hj'
        · exact (ha buf i).1 hS
        · exact absurd ⟨j, hj', hS⟩ hl
    · intro hno
      have hl : ¬ ∃ j, j ∈ l ∧ S j i := fun ⟨j, hj, hS⟩ =>
        hno ⟨j, List.mem_cons_of_mem a hj, hS⟩
      refine ((iha (body a buf) i).2 hl).trans ?_
      exact (ha buf i).2 (fun hS => hno ⟨a, List.mem_cons_self a l, hS⟩)

theorem writes_congr (F : Buffer → Buffer) (S T : Nat → Prop) (g : Nat → Int)
    (h : WritesOn F S g) (hST : ∀ i, S i ↔ T i) : WritesOn F T g := by
  intro buf i
  exact ⟨fun hT => (h buf i).1 ((hST i).mpr hT), fun hT => (h buf i).2 (fun hS => hT ((hST i).mp hS))⟩

theorem for_range_writes (n : Nat) (body : Nat → Buffer → Buffer) (S : Nat → Nat → Prop)
    (g : Nat → Int) (h : ∀ j, j < n → WritesOn (body j) (S j) g) :
    WritesOn (for_range n body) (fun i => ∃ j, j < n ∧ S j i) g := by
  have := writes_foldl (List.range n) body S g (fun j hj => h j (List.mem_range.mp hj))
  refine writes_congr _ _ _ _ this (fun i => ?_)
  simp [List.mem_range]

theorem for_step_writes (stop step : Nat) (body : Nat → Buffer → Buffer)
    (S : Nat → Nat → Prop) (g : Nat → Int)
    (h : ∀ j, j < (stop + step - 1) / step → WritesOn (body (step * j)) (S (step * j)) g) :
    WritesOn (for_step stop step body)
      (fun i => ∃ j, j < (stop + step - 1) / step ∧ S (step * j) i) g := by
  have := writes_foldl (List.range ((stop + step - 1) / step)) (fun j => body (step * j))
    (fun j => S (step * j)) g (fun j hj => h j (List.mem_range.mp hj))
  refine writes_congr _ _ _ _ this (fun i => ?_)
  simp [List.mem_range]

theorem store4_writes_from (vals : List Int) (y x : Nat) (g : Nat → Int)
    (hv : ∀ k, k < 4 → x + k < WIDTH → vals.getD k 0 = g (y * WIDTH + x + k))
    (fuel k : Nat) :
    WritesOn (store4 vals y x fuel k)
      (fun i => ∃ j, k ≤ j ∧ j < k + fuel ∧ j < 4 ∧ x + j < WIDTH ∧ i = y * WIDTH + x + j) g := by
  induction fuel generalizing k with
  | zero =>
    intro buf i
    refine ⟨fun ⟨j, h1, h2, _⟩ => absurd h2 (by omega), fun _ => ?_⟩
    simp only [store4]
  | succ fuel ih =>
    intro buf i
    by_cases hc : k < 4 ∧ x + k < WIDTH
    · simp only [store4, if_pos hc]
      have ihk := ih (k + 1) (Function.update buf (y * WIDTH + x + k) (vals.getD k 0)) i
      constructor
      · rintro ⟨j, h1, h2, h3, h4, h5⟩
        by_cases hj : j = k
        · subst hj
          by_cases hlater : ∃ j', j + 1 ≤ j' ∧ j' < j + 1 + fuel ∧ j' < 4 ∧ x + j' < WIDTH
              ∧ i = y * WIDTH + x + j'
          · exact ihk.1 hlater
          · rw [ihk.2 hlater, h5, Function.update_same]
            exact hv j h3 h4
        · exact ihk.1 ⟨j, by omega, by omega, h3, h4, h5⟩
      · intro hno
        have hlater : ¬ ∃ j', k + 1 ≤ j' ∧ j' < k + 1 + fuel ∧ j' < 4 ∧ x + j' < WIDTH
            ∧ i = y * WIDTH + x + j' := by
          rintro ⟨j, h1, h2, h3, h4, h5⟩
          exact hno ⟨j, by omega, by omega, h3, h4, h5⟩
        rw [ihk.2 hlater]
        have hne : i ≠ y * WIDTH + x + k := by
          intro he
          exact hno ⟨k, le_refl k, by omega, hc.1, hc.2, he⟩
        exact Function.update_noteq hne _ _
    · constructor
      · rintro ⟨j, h1, h2, h3, h4, h5⟩
        exact absurd ⟨by omega, by omega⟩ hc
      · intro _
        simp only [store4, if_neg hc]

theorem store4_writes (vals : List Int) (y x : Nat) (g : Nat → Int)
    (hv : ∀ k, k < 4 → x + k < WIDTH → vals.getD k 0 = g (y * WIDTH + x + k)) :
    WritesOn (store4 vals y x 4 0)
      (fun i => ∃ k, k < 4 ∧ x + k < WIDTH ∧ i = y * WIDTH + x + k) g := by
  refine writes_congr _ _ _ _ (store4_writes_from vals y x g hv 4 0) (fun i => ?_)
  constructor
  · rintro ⟨j, _, _, h3, h4, h5⟩
    exact ⟨j, h3, h4, h5⟩
  · rintro ⟨j, h3, h4, h5⟩
    exact ⟨j, Nat.zero_le j, by omega, h3, h4, h5⟩

/-- The loops over the repetitions, the rows and the groups of `step` columns
give every cell of the grid the value of its pixel, when the turn of a group
writes the values of the pixels of the group. -/
theorem grid_writes (step : Nat) (hstep : 0 < step)
    (group : Nat → Nat → Buffer → Buffer) (pix : Nat → Nat → Int)
    (hg : ∀ y j, step * j < WIDTH →
      WritesOn (group y (step * j))
        (fun i => ∃ k, k < step ∧ step * j + k < WIDTH ∧ i = y * WIDTH + step * j + k)
        (fun i => pix (i % WIDTH) (i / WIDTH)))
    (n : Nat) (hn : 1 ≤ n) (buf : Buffer) (x y : Nat) (hx : x < WIDTH) (hy : y < HEIGHT) :
    for_range n (fun _ => for_range HEIGHT (fun y => for_step WIDTH step (fun x => group y x)))
      buf (y * WIDTH + x) = pix x y := by
  have hW : WIDTH = 800 := rfl
  have hjlt : ∀ j, j < (WIDTH + step - 1) / step → step * j < WIDTH := by
    intro j hj
    have h1 : (j + 1) * step ≤ WIDTH + step - 1 := (Nat.le_div_iff_mul_le hstep).mp hj
    have h2 : (j + 1) * step = step * j + step := by ring
    omega
  have hrow : ∀ y, WritesOn (for_step WIDTH step (fun x => group y x))
      (fun i => ∃ j, j < (WIDTH + step - 1) / step ∧
        ∃ k, k < step ∧ step * j + k < WIDTH ∧ i = y * WIDTH + step * j + k)
      (fun i => pix (i % WIDTH) (i / WIDTH)) :=
    fun y => for_step_writes WIDTH step (fun x => group y x)
      (fun x i => ∃ k, k < step ∧ x + k < WIDTH ∧ i = y * WIDTH + x + k) _
      (fun j hj => hg y j (hjlt j hj))
  have hframe := for_range_writes HEIGHT
    (fun y => for_step WIDTH step (fun x => group y x))
    (fun y i => ∃ j, j < (WIDTH + step - 1) / step ∧
        ∃ k, k < step ∧ step * j + k < WIDTH ∧ i = y * WIDTH + step * j + k)
    (fun i => pix (i % WIDTH) (i / WIDTH)) (fun y _ => hrow y)
  have hruns := for_range_writes n
    (fun _ => for_range HEIGHT (fun y => for_step WIDTH step (fun x => group y x)))
    (fun _ i => ∃ y, y < HEIGHT ∧ ∃ j, j < (WIDTH + step - 1) / step ∧
        ∃ k, k < step ∧ step * j + k < WIDTH ∧ i = y * WIDTH + step * j + k)
    (fun i => pix (i % WIDTH) (i / WIDTH)) (fun _ _ => hframe)
  have hdm : step * (x / step) + x % step = x := Nat.div_add_mod x step
  have hjx : x / step < (WIDTH + step - 1) / step := by
    have h1 : x / step ≤ (WIDTH - 1) / step := Nat.div_le_div_right (by omega)
    have h2 : (WIDTH - 1 + step) / step = (WIDTH - 1) / step + 1 := Nat.add_div_right _ hstep
    have h3 : WIDTH + step - 1 = WIDTH - 1 + step := by omega
    rw [h3, h2]
    omega
  have hS := (hruns buf (y * WIDTH + x)).1
    ⟨0, by omega, y, hy, x / step, hjx, x % step, Nat.mod_lt x hstep, by omega, by omega⟩
  rw [hS]
  have e1 : (y * WIDTH + x) % WIDTH = x := by
    rw [Nat.add_comm, Nat.add_mul_mod_self_right]
    exact Nat.mod_eq_of_lt hx
  have e2 : (y * WIDTH + x) / WIDTH = y := by
    rw [Nat.add_comm, Nat.add_mul_div_right _ _ (by omega : 0 < WIDTH), Nat.div_eq_of_lt hx]
    omega
  simp only [e1, e2]

theorem cell_mod (y x : Nat) (hx : x < WIDTH) : (y * WIDTH + x) % WIDTH = x := by
  rw [Nat.add_comm, Nat.add_mul_mod_self_right]
  exact Nat.mod_eq_of_lt hx

theorem cell_div (y x : Nat) (hx : x < WIDTH) : (y * WIDTH + x) / WIDTH = y := by
  have hW : 0 < WIDTH := by decide
  rw [Nat.add_comm, Nat.add_mul_div_right _ _ hW, Nat.div_eq_of_lt hx]
  omega

/-- The buffer of the unrolled kernel, cell by cell. -/
theorem opt_buffer (n : Nat) (hn : 1 ≤ n) (state : MandelbrotState) (buf : Buffer)
    (x y : Nat) (hx : x < WIDTH) (hy : y < HEIGHT) :
    compute_mandelbrot_optimized n state buf (y * WIDTH + x) = opt_pixel state x y := by
  unfold compute_mandelbrot_optimized
  apply grid_writes 4 (by decide) (fun y x => opt_group state y x) (opt_pixel state) _ n hn buf
    x y hx hy
  intro y j hj
  apply store4_writes
  intro k hk hlt
  have e : y * WIDTH + 4 * j + k = y * WIDTH + (4 * j + k) := by omega
  rw [e, cell_mod y _ hlt, cell_div y _ hlt]
  unfold opt_pixel
  have e1 : (4 * j + k) % 4 = k := by omega
  have e2 : 4 * j + k - k = 4 * j := by omega
  rw [e1, e2]

/-- The buffer of the AVX kernel, cell by cell. -/
theorem avx_buffer (n : Nat) (hn : 1 ≤ n) (state : MandelbrotState) (buf : Buffer)
    (x y : Nat) (hx : x < WIDTH) (hy : y < HEIGHT) :
    compute_mandelbrot_avx2 n state buf (y * WIDTH + x) = avx_pixel state x y := by
  unfold compute_mandelbrot_avx2
  apply grid_writes 4 (by decide) (fun y x => avx_group state y x) (avx_pixel state) _ n hn buf
    x y hx hy
  intro y j hj
  apply store4_writes
  intro k hk hlt
  have e : y * WIDTH + 4 * j + k = y * WIDTH + (4 * j + k) := by omega
  rw [e, cell_mod y _ hlt, cell_div y _ hlt]
  unfold avx_pixel
  have e1 : (4 * j + k) % 4 = k := by omega
  have e2 : 4 * j + k - k = 4 * j := by omega
  rw [e1, e2]

theorem sse_group_writes (state : MandelbrotState) (y j : Nat) (hj : 2 * j < WIDTH) :
    WritesOn (sse_group state y (2 * j))
      (fun i => ∃ k, k < 2 ∧ 2 * j + k < WIDTH ∧ i = y * WIDTH + 2 * j + k)
      (fun i => sse_pixel state (i % WIDTH) (i / WIDTH)) := by
  have hv : ∀ k, k < 2 → 2 * j + k < WIDTH →
      (sse_iter_result state y (2 * j)).getD k 0
        = sse_pixel state ((y * WIDTH + 2 * j + k) % WIDTH) ((y * WIDTH + 2 * j + k) / WIDTH) := by
    intro k hk hlt
    have e : y * WIDTH + 2 * j + k = y * WIDTH + (2 * j + k) := by omega
    rw [e, cell_mod y _ hlt, cell_div y _ hlt]
    unfold sse_pixel
    have e1 : (2 * j + k) % 2 = k := by omega
    have e2 : 2 * j + k - k = 2 * j := by omega
    rw [e1, e2]
  intro buf i
  by_cases h1 : 2 * j + 1 < WIDTH
  · simp only [sse_group, if_pos h1]
    constructor
    · rintro ⟨k, hk, hlt, hi⟩
      have hk' : k = 0 ∨ k = 1 := by omega
      rcases hk' with rfl | rfl
      · have hne : i ≠ y * WIDTH + 2 * j + 1 := by omega
        have hi0 : i = y * WIDTH + 2 * j := by omega
        rw [Function.update_noteq hne, hi0, Function.update_same]
        have h0 := hv 0 (by omega) (by omega)
        simp only [Nat.add_zero] at h0
        exact h0
      · rw [hi, Function.update_same]
        exact hv 1 (by omega) h1
    · intro hno
      have hne1 : i ≠ y * WIDTH + 2 * j + 1 := fun he => hno ⟨1, by omega, h1, he⟩
      have hne0 : i ≠ y * WIDTH + 2 * j := fun he => hno ⟨0, by omega, by omega, by omega⟩
      rw [Function.update_noteq hne1, Function.update_noteq hne0]
  · simp only [sse_group, if_neg h1]
    constructor
    · rintro ⟨k, hk, hlt, hi⟩
      have hi0 : i = y * WIDTH + 2 * j := by omega
      rw [hi0, Function.update_same]
      have h0 := hv 0 (by omega) (by omega)
      simp only [Nat.add_zero] at h0
      exact h0
    · intro hno
      have hne0 : i ≠ y * WIDTH + 2 * j := fun he => hno ⟨0, by omega, by omega, by omega⟩
      rw [Function.update_noteq hne0]

/-- The buffer of the SSE kernel, cell by cell. -/
theorem sse_buffer (n : Nat) (hn : 1 ≤ n) (state : MandelbrotState) (buf : Buffer)
    (x y : Nat) (hx : x < WIDTH) (hy : y < HEIGHT) :
    compute_mandelbrot_sse n state buf (y * WIDTH + x) = sse_pixel state x y := by
  unfold compute_mandelbrot_sse
  exact grid_writes 2 (by decide) (fun y x => sse_group state y x) (sse_pixel state)
    (fun y j hj => sse_group_writes state y j hj) n hn buf x y hx hy

/-- The final `iter` of the scalar kernel at a pixel, for every positive number
of repetitions. -/
theorem scalar_pixel (n : Nat) (hn : 1 ≤ n) (state : MandelbrotState) (x y : Nat) :
    compute_mandelbrot n state x y = scalar_iter (map_x state x) (map_y state y) := by
  obtain ⟨m, rfl⟩ : ∃ m, n = m + 1 := ⟨n - 1, by omega⟩
  simp only [compute_mandelbrot, List.range_succ, List.foldl_append, List.foldl_cons,
    List.foldl_nil, scalar_iter, map_x, map_y]

/-! ## An escaped state stays escaped -/

/-- One step of `w -> w^2 + c` does not shrink a state whose squared magnitude
is 100 at least and not below the one of `c`. -/
theorem step_grows (a b p q : ℚ) (hN : 100 ≤ a * a + b * b)
    (hC : p * p + q * q ≤ a * a + b * b) :
    a * a + b * b
      ≤ (a * a - b * b + p) * (a * a - b * b + p) + (2 * a * b + q) * (2 * a * b + q) := by
  set N := a * a + b * b with hNdef
  set t := (a * a - b * b) * p + 2 * a * b * q with ht
  set s := (a * a - b * b) * q - 2 * a * b * p with hs
  have hid : t * t + s * s = N * N * (p * p + q * q) := by
    simp only [ht, hs, hNdef]; ring
  have hexp : (a * a - b * b + p) * (a * a - b * b + p) + (2 * a * b + q) * (2 * a * b + q)
      = N * N + 2 * t + (p * p + q * q) := by
    simp only [ht, hNdef]; ring
  rw [hexp]
  have hNpos : 0 ≤ N := by linarith
  have h1 : t * t ≤ N * N * N := by
    have : N * N * (p * p + q * q) ≤ N * N * N :=
      mul_le_mul_of_nonneg_left hC (mul_nonneg hNpos hNpos)
    nlinarith [mul_self_nonneg s]
  have hC0 : 0 ≤ p * p + q * q := add_nonneg (mul_self_nonneg p) (mul_self_nonneg q)
  by_contra hlt
  push_neg at hlt
  have h2 : 2 * t < N - N * N := by linarith
  have h3 : 0 < N * N - N := by nlinarith
  have h4 : (N * N - N) * (N * N - N) < (2 * t) * (2 * t) := by nlinarith
  have h5 : 4 * (N * N * N) ≤ (N * N - N) * (N * N - N) := by
    have : (N * N - N) * (N * N - N) - 4 * (N * N * N) = N * N * (N * N - 6 * N + 1) := by ring
    have h6 : 0 ≤ N * N - 6 * N + 1 := by nlinarith
    have h7 : 0 ≤ N * N * (N * N - 6 * N + 1) := mul_nonneg (mul_nonneg hNpos hNpos) h6
    linarith
  nlinarith

theorem orbit_grows (cx cy : ℚ) (n : Nat) (h100 : 100 ≤ normSq (orbit cx cy n))
    (hc : normSq (cx, cy) ≤ normSq (orbit cx cy n)) :
    normSq (orbit cx cy n) ≤ normSq (orbit cx cy (n + 1)) := by
  simp only [normSq, orbit] at *
  exact step_grows _ _ _ _ h100 hc

theorem orbit_large_from_zero (cx cy : ℚ) (h0 : 100 ≤ normSq (cx, cy)) (n : Nat) :
    100 ≤ normSq (orbit cx cy n) ∧ normSq (cx, cy) ≤ normSq (orbit cx cy n) := by
  induction n with
  | zero => exact ⟨by simpa [orbit] using h0, by simp [orbit]⟩
  | succ n ih =>
    have := orbit_grows cx cy n ih.1 ih.2
    exact ⟨le_trans ih.1 this, le_trans ih.2 this⟩

theorem orbit_frozen_step (cx cy : ℚ) (n : Nat) (h100 : 100 ≤ normSq (orbit cx cy n)) :
    100 ≤ normSq (orbit cx cy (n + 1)) := by
  by_cases hc : normSq (cx, cy) ≤ normSq (orbit cx cy n)
  · exact le_trans h100 (orbit_grows cx cy n h100 hc)
  · push_neg at hc
    exact (orbit_large_from_zero cx cy (le_of_lt (lt_of_le_of_lt h100 hc)) (n + 1)).1

/-- Frozen lanes: once a state of the orbit from `c` is not below the radius, no
later state is. -/
theorem orbit_frozen (cx cy : ℚ) (n k : Nat) (h : ¬ normSq (orbit cx cy n) < 100) :
    ¬ normSq (orbit cx cy (n + k)) < 100 := by
  induction k with
  | zero => exact h
  | succ k ih =>
    have h1 : 100 ≤ normSq (orbit cx cy (n + k)) := not_lt.mp ih
    exact not_lt.mpr (orbit_frozen_step cx cy (n + k) h1)

theorem count_below_frozen (cx cy : ℚ) (off f m : Nat) (hfm : f ≤ m)
    (hb : ∀ j, j < f → normSq (orbit cx cy (off + j)) < 100)
    (ha : ∀ j, f ≤ j → ¬ normSq (orbit cx cy (off + j)) < 100) :
    count_below cx cy off m = f := by
  induction m with
  | zero =>
    have : f = 0 := by omega
    subst this
    rfl
  | succ m ih =>
    simp only [count_below]
    rcases Nat.lt_or_ge m f with hlt | hge
    · have hf : f = m + 1 := by omega
      rw [if_pos (hb m hlt), count_below_full cx cy off m (fun j hj => hb j (by omega))]
      omega
    · rw [if_neg (ha m hge), ih hge]
      rfl

/-- The counter of a lane of the SSE kernel after the `m` turns of its group. -/
theorem sse_lane_count (cx cy : ℚ) (m : Nat) (hm : m ≤ MAX_ITER)
    (hrun : ∀ n, n ≤ MAX_ITER →
      (∀ j, j < n → (j = 0 ∨ normSq (orbit cx cy (j - 1)) < 100)) → n ≤ m) :
    count_below cx cy 0 m = sse_count cx cy := by
  unfold sse_count
  split
  · rename_i hex
    have hspec := Nat.find_spec hex
    have hbelow : ∀ j, j < Nat.find hex → normSq (orbit cx cy j) < 100 := by
      intro j hj
      by_contra hc
      exact Nat.find_min hex hj ⟨lt_trans hj hspec.1, hc⟩
    have hle : Nat.find hex + 1 ≤ m := by
      apply hrun _ hspec.1
      intro j hj
      rcases Nat.eq_zero_or_pos j with h0 | hpos
      · exact Or.inl h0
      · exact Or.inr (hbelow (j - 1) (by omega))
    apply count_below_frozen cx cy 0 _ m (by omega)
    · intro j hj
      rw [Nat.zero_add]
      exact hbelow j hj
    · intro j hj
      rw [Nat.zero_add]
      have := orbit_frozen cx cy (Nat.find hex) (j - Nat.find hex) hspec.2
      rwa [Nat.add_sub_cancel' hj] at this
  · rename_i hno
    have hall : ∀ j, j < MAX_ITER → normSq (orbit cx cy j) < 100 := by
      intro j hj
      by_contra hc
      exact hno ⟨j, hj, hc⟩
    have hle : MAX_ITER ≤ m := by
      apply hrun _ (le_refl _)
      intro j hj
      rcases Nat.eq_zero_or_pos j with h0 | hpos
      · exact Or.inl h0
      · exact Or.inr (hall (j - 1) (by omega))
    have hmeq : m = MAX_ITER := le_antisymm hm hle
    rw [hmeq]
    apply count_below_full
    intro j hj
    rw [Nat.zero_add]
    exact hall j hj

/-- The counter of a lane of the AVX kernel after the `m` turns of its group. -/
theorem avx_lane_count (cx cy : ℚ) (m : Nat) (hm : m ≤ MAX_ITER)
    (hrun : ∀ n, n ≤ MAX_ITER →
      (∀ j, j < n → (j = 0 ∨ normSq (orbit cx cy j) < 100)) → n ≤ m) :
    count_below cx cy 1 m = avx_count cx cy := by
  unfold avx_count
  split
  · rename_i hex
    have hspec := Nat.find_spec hex
    have hbelow : ∀ j, j < Nat.find hex → normSq (orbit cx cy (j + 1)) < 100 := by
      intro j hj
      by_contra hc
      exact Nat.find_min hex hj ⟨lt_trans hj hspec.1, hc⟩
    have hle : Nat.find hex + 1 ≤ m := by
      apply hrun _ hspec.1
      intro j hj
      rcases Nat.eq_zero_or_pos j with h0 | hpos
      · exact Or.inl h0
      · right
        have := hbelow (j - 1) (by omega)
        rwa [Nat.sub_add_cancel hpos] at this
    apply count_below_frozen cx cy 1 _ m (by omega)
    · intro j hj
      rw [Nat.add_comm]
      exact hbelow j hj
    · intro j hj
      have := orbit_frozen cx cy (Nat.find hex + 1) (j - Nat.find hex) hspec.2
      have e : Nat.find hex + 1 + (j - Nat.find hex) = 1 + j := by omega
      rwa [e] at this
  · rename_i hno
    have hall : ∀ j, j < MAX_ITER → normSq (orbit cx cy (j + 1)) < 100 := by
      intro j hj
      by_contra hc
      exact hno ⟨j, hj, hc⟩
    have hle : MAX_ITER ≤ m := by
      apply hrun _ (le_refl _)
      intro j hj
      rcases Nat.eq_zero_or_pos j with h0 | hpos
      · exact Or.inl h0
      · right
        have := hall (j - 1) (by omega)
        rwa [Nat.sub_add_cancel hpos] at this
    have hmeq : m = MAX_ITER := le_antisymm hm hle
    rw [hmeq]
    apply count_below_full
    intro j hj
    rw [Nat.add_comm]
    exact hall j hj

/-! ## The value of a pixel in each kernel -/

theorem sse_count_le (cx cy : ℚ) : sse_count cx cy ≤ MAX_ITER := by
  unfold sse_count
  split
  · rename_i h
    exact le_of_lt (Nat.find_spec h).1
  · exact le_refl _

theorem avx_count_le (cx cy : ℚ) : avx_count cx cy ≤ MAX_ITER := by
  unfold avx_count
  split
  · rename_i h
    exact le_of_lt (Nat.find_spec h).1
  · exact le_refl _

theorem opt_count_lt (cx cy : ℚ) : opt_count cx cy < MAX_ITER := by
  unfold opt_count
  split
  · rename_i h
    exact (Nat.find_spec h).1
  · decide

theorem canonical_iter_le (cx cy : ℚ) : canonical_iter cx cy ≤ MAX_ITER := by
  unfold canonical_iter
  split
  · rename_i h
    exact le_of_lt (Nat.find_spec h).1
  · exact le_refl _

/-- The counters of the two lanes of the SSE kernel for the group at `(x, y)`. -/
theorem sse_iter_counts (state : MandelbrotState) (y x : Nat) :
    sse_iter state y x
      = [sse_count (map_x state x) (map_y state y),
         sse_count (map_x state (x + 1)) (map_y state y)] := by
  obtain ⟨m, hm, h0, h1, he⟩ := sse_iter_eq state y x
  rw [he, sse_lane_count _ _ m hm h0, sse_lane_count _ _ m hm h1]

/-- The `int`s that the SSE kernel reads back from `iter_result`: element 0 is
the counter of lane 0 and element 1 is the high half of the same counter, which
is 0. -/
theorem sse_iter_result_eq (state : MandelbrotState) (y x : Nat) :
    (sse_iter_result state y x).getD 0 0 = (sse_count (map_x state x) (map_y state y) : Int)
    ∧ (sse_iter_result state y x).getD 1 0 = 0 := by
  have hle := sse_count_le (map_x state x) (map_y state y)
  have hM : MAX_ITER = 256 := rfl
  have h1 : sse_count (map_x state x) (map_y state y) % 2 ^ 32
      = sse_count (map_x state x) (map_y state y) := Nat.mod_eq_of_lt (by omega)
  have h2 : sse_count (map_x state x) (map_y state y) / 2 ^ 32 = 0 :=
    Nat.div_eq_of_lt (by omega)
  simp only [sse_iter_result, sse_iter_counts, store_words, List.map_cons, List.map_nil,
    List.getD_cons_zero, List.getD_cons_succ, h1, h2, int_of_word]
  constructor
  · rw [if_pos (by omega)]
  · simp

theorem sse_pixel_even (state : MandelbrotState) (x y : Nat) (hx : x % 2 = 0) :
    sse_pixel state x y = (sse_count (map_x state x) (map_y state y) : Int) := by
  unfold sse_pixel
  rw [hx, Nat.sub_zero]
  exact (sse_iter_result_eq state y x).1

/-- At an odd column the SSE kernel stores 0, whatever the point. -/
theorem sse_pixel_odd (state : MandelbrotState) (x y : Nat) (hx : x % 2 = 1) :
    sse_pixel state x y = 0 := by
  unfold sse_pixel
  rw [hx]
  exact (sse_iter_result_eq state y (x - 1)).2

theorem opt_pixel_eq (state : MandelbrotState) (x y : Nat) :
    opt_pixel state x y = (opt_count (map_x state x) (map_y state y) : Int) := by
  unfold opt_pixel
  rw [opt_iter_eq]
  have h : x % 4 = 0 ∨ x % 4 = 1 ∨ x % 4 = 2 ∨ x % 4 = 3 := by omega
  rcases h with h | h | h | h <;> rw [h] <;> simp only [List.getD_cons_zero, List.getD_cons_succ]
  · rw [Nat.sub_zero]
  · rw [Nat.sub_add_cancel (by omega)]
  · rw [Nat.sub_add_cancel (by omega)]
  · rw [Nat.sub_add_cancel (by omega)]

theorem int_of_double_natCast (n : Nat) : int_of_double (n : ℚ) = (n : Int) := by
  simp [int_of_double]

theorem avx_pixel_eq (state : MandelbrotState) (x y : Nat) :
    avx_pixel state x y = (avx_count (map_x state x) (map_y state y) : Int) := by
  unfold avx_pixel
  obtain ⟨m, hm, hrun, he⟩ := avx_iter_result_eq state y (x - x % 4)
  rw [he]
  have c0 := avx_lane_count _ _ m hm (hrun 0 (by omega))
  have c1 := avx_lane_count _ _ m hm (hrun 1 (by omega))
  have c2 := avx_lane_count _ _ m hm (hrun 2 (by omega))
  have c3 := avx_lane_count _ _ m hm (hrun 3 (by omega))
  simp only [Nat.add_zero] at c0
  rw [c0, c1, c2, c3]
  simp only [List.map_cons, List.map_nil, int_of_double_natCast]
  have h : x % 4 = 0 ∨ x % 4 = 1 ∨ x % 4 = 2 ∨ x % 4 = 3 := by omega
  rcases h with h | h | h | h <;> rw [h] <;> simp only [List.getD_cons_zero, List.getD_cons_succ]
  · rw [Nat.sub_zero]
  · rw [Nat.sub_add_cancel (by omega)]
  · rw [Nat.sub_add_cancel (by omega)]
  · rw [Nat.sub_add_cancel (by omega)]

/-! ## The counts at the points of the boundary cases -/

theorem canonical_iter_eq_of (cx cy : ℚ) (r : Nat) (hr : r < MAX_ITER)
    (hb : ∀ m, m < r → ¬ escaped cx cy m) (he : escaped cx cy r) :
    canonical_iter cx cy = r := by
  unfold canonical_iter
  rw [dif_pos ⟨r, hr, he⟩, Nat.find_eq_iff]
  exact ⟨⟨hr, he⟩, fun m hm hc => hb m hm hc.2⟩

theorem sse_count_eq_of (cx cy : ℚ) (r : Nat) (hr : r < MAX_ITER)
    (hb : ∀ m, m < r → normSq (orbit cx cy m) < 100) (he : ¬ normSq (orbit cx cy r) < 100) :
    sse_count cx cy = r := by
  unfold sse_count
  rw [dif_pos ⟨r, hr, he⟩, Nat.find_eq_iff]
  exact ⟨⟨hr, he⟩, fun m hm hc => hc.2 (hb m hm)⟩

theorem avx_count_eq_of (cx cy : ℚ) (r : Nat) (hr : r < MAX_ITER)
    (hb : ∀ m, m < r → normSq (orbit cx cy (m + 1)) < 100)
    (he : ¬ normSq (orbit cx cy (r + 1)) < 100) :
    avx_count cx cy = r := by
  unfold avx_count
  rw [dif_pos ⟨r, hr, he⟩, Nat.find_eq_iff]
  exact ⟨⟨hr, he⟩, fun m hm hc => hc.2 (hb m hm)⟩

theorem opt_count_eq_of (cx cy : ℚ) (r : Nat) (hr : r < MAX_ITER)
    (hb : ∀ m, m < r → ¬ escaped0 cx cy m) (he : escaped0 cx cy r) :
    opt_count cx cy = r := by
  unfold opt_count
  rw [dif_pos ⟨r, hr, he⟩, Nat.find_eq_iff]
  exact ⟨⟨hr, he⟩, fun m hm hc => hb m hm hc.2⟩

/-- The counts of a point whose orbit never reaches the radius: the scalar, the
SSE and the AVX counts are `MAX_ITER`, the count of the unrolled kernel is 0. -/
theorem bounded_counts (cx cy : ℚ) (h : ∀ n, normSq (orbit cx cy n) < 100) :
    canonical_iter cx cy = MAX_ITER ∧ sse_count cx cy = MAX_ITER
      ∧ avx_count cx cy = MAX_ITER ∧ opt_count cx cy = 0 := by
  refine ⟨?_, ?_, ?_, ?_⟩
  · unfold canonical_iter
    rw [dif_neg]
    rintro ⟨n, _, hn⟩
    exact absurd (h n) (not_lt.mpr (le_of_lt hn))
  · unfold sse_count
    rw [dif_neg]
    rintro ⟨n, _, hn⟩
    exact hn (h n)
  · unfold avx_count
    rw [dif_neg]
    rintro ⟨n, _, hn⟩
    exact hn (h (n + 1))
  · unfold opt_count
    rw [dif_neg]
    rintro ⟨n, _, hn⟩
    cases n with
    | zero =>
      simp only [escaped0, orbit0, normSq] at hn
      norm_num at hn
    | succ n => exact absurd (h n) (not_lt.mpr (le_of_lt hn))

theorem orbit_origin (n : Nat) : orbit 0 0 n = (0, 0) := by
  induction n with
  | zero => rfl
  | succ n ih => simp [orbit, ih]

theorem orbit_minus_half (n : Nat) :
    (orbit (-1 / 2) 0 n).2 = 0 ∧ -1 / 2 ≤ (orbit (-1 / 2) 0 n).1 ∧ (orbit (-1 / 2) 0 n).1 ≤ 0 := by
  induction n with
  | zero => norm_num [orbit]
  | succ n ih =>
    obtain ⟨h2, hl, hu⟩ := ih
    simp only [orbit, h2]
    refine ⟨by ring, ?_, ?_⟩
    · nlinarith [mul_self_nonneg (orbit (-1 / 2) 0 n).1]
    · nlinarith

theorem origin_bounded (n : Nat) : normSq (orbit 0 0 n) < 100 := by
  rw [orbit_origin]
  norm_num [normSq]

theorem minus_half_bounded (n : Nat) : normSq (orbit (-1 / 2) 0 n) < 100 := by
  obtain ⟨h2, hl, hu⟩ := orbit_minus_half n
  simp only [normSq, h2]
  nlinarith

theorem counts_2_2 :
    canonical_iter 2 2 = 1 ∧ sse_count 2 2 = 1 ∧ opt_count 2 2 = 2 ∧ avx_count 2 2 = 0 := by
  have hM : MAX_ITER = 256 := rfl
  refine ⟨?_, ?_, ?_, ?_⟩
  · apply canonical_iter_eq_of 2 2 1 (by omega)
    · intro m hm
      have : m = 0 := by omega
      subst this
      norm_num [escaped, orbit, normSq]
    · norm_num [escaped, orbit, normSq]
  · apply sse_count_eq_of 2 2 1 (by omega)
    · intro m hm
      have : m = 0 := by omega
      subst this
      norm_num [orbit, normSq]
    · norm_num [orbit, normSq]
  · apply opt_count_eq_of 2 2 2 (by omega)
    · intro m hm
      have : m = 0 ∨ m = 1 := by omega
      rcases this with h | h <;> subst h <;> norm_num [escaped0, orbit0, orbit, normSq]
    · norm_num [escaped0, orbit0, orbit, normSq]
  · apply avx_count_eq_of 2 2 0 (by omega)
    · intro m hm
      omega
    · norm_num [orbit, normSq]

theorem sse_count_3_2 : sse_count 3 2 = 1 := by
  have hM : MAX_ITER = 256 := rfl
  apply sse_count_eq_of 3 2 1 (by omega)
  · intro m hm
    have : m = 0 := by omega
    subst this
    norm_num [orbit, normSq]
  · norm_num [orbit, normSq]

/-! ## The claims -/

/-- C1, evaluated at its failing input: with the viewport of centre (2, 2) and
scale 1 the pixel (400, 300) is mapped to the point (2, 2); after one repetition
the scalar kernel ends with `iter = 1`, the SSE kernel stores 1, the unrolled
kernel stores 2 and the AVX kernel stores 0 for that pixel, so the four kernels
do not produce the same iteration count. -/
theorem C1_kernels_differ_at_2_2 (buf : Buffer) :
    map_x ⟨2, 2, 1, 0⟩ 400 = 2 ∧ map_y ⟨2, 2, 1, 0⟩ 300 = 2
      ∧ compute_mandelbrot 1 ⟨2, 2, 1, 0⟩ 400 300 = 1
      ∧ compute_mandelbrot_sse 1 ⟨2, 2, 1, 0⟩ buf (300 * WIDTH + 400) = 1
      ∧ compute_mandelbrot_optimized 1 ⟨2, 2, 1, 0⟩ buf (300 * WIDTH + 400) = 2
      ∧ compute_mandelbrot_avx2 1 ⟨2, 2, 1, 0⟩ buf (300 * WIDTH + 400) = 0 := by
  have hx : map_x ⟨2, 2, 1, 0⟩ 400 = 2 := by norm_num [map_x, WIDTH]
  have hy : map_y ⟨2, 2, 1, 0⟩ 300 = 2 := by norm_num [map_y, HEIGHT]
  have hW : (400 : Nat) < WIDTH := by decide
  have hH : (300 : Nat) < HEIGHT := by decide
  obtain ⟨c1, c2, c3, c4⟩ := counts_2_2
  refine ⟨hx, hy, ?_, ?_, ?_, ?_⟩
  · rw [scalar_pixel 1 (le_refl 1), hx, hy, scalar_iter_eq_canonical, c1]
    rfl
  · rw [sse_buffer 1 (le_refl 1) _ _ 400 300 hW hH, sse_pixel_even _ _ _ (by decide), hx, hy, c2]
    rfl
  · rw [opt_buffer 1 (le_refl 1) _ _ 400 300 hW hH, opt_pixel_eq, hx, hy, c3]
    rfl
  · rw [avx_buffer 1 (le_refl 1) _ _ 400 300 hW hH, avx_pixel_eq, hx, hy, c4]
    rfl

/-- C3, evaluated at its failing inputs: with the viewport of centre (0, 0) and
scale 1 the pixel (400, 300) is mapped to the point (0, 0); the scalar, the SSE
and the AVX kernel report `MAX_ITER = 256` for it, and the unrolled kernel
stores 0.  With the viewport of centre (1, 0) and scale 1 the pixel (399, 300)
is mapped to (0, 0) too and the SSE kernel stores 0 for it. -/
theorem C3_origin_values (buf : Buffer) :
    map_x ⟨0, 0, 1, 0⟩ 400 = 0 ∧ map_y ⟨0, 0, 1, 0⟩ 300 = 0
      ∧ compute_mandelbrot 1 ⟨0, 0, 1, 0⟩ 400 300 = 256
      ∧ compute_mandelbrot_sse 1 ⟨0, 0, 1, 0⟩ buf (300 * WIDTH + 400) = 256
      ∧ compute_mandelbrot_avx2 1 ⟨0, 0, 1, 0⟩ buf (300 * WIDTH + 400) = 256
      ∧ compute_mandelbrot_optimized 1 ⟨0, 0, 1, 0⟩ buf (300 * WIDTH + 400) = 0
      ∧ map_x ⟨1, 0, 1, 0⟩ 399 = 0 ∧ map_y ⟨1, 0, 1, 0⟩ 300 = 0
      ∧ compute_mandelbrot_sse 1 ⟨1, 0, 1, 0⟩ buf (300 * WIDTH + 399) = 0 := by
  have hx : map_x ⟨0, 0, 1, 0⟩ 400 = 0 := by norm_num [map_x, WIDTH]
  have hy : map_y ⟨0, 0, 1, 0⟩ 300 = 0 := by norm_num [map_y, HEIGHT]
  have hx' : map_x ⟨1, 0, 1, 0⟩ 399 = 0 := by norm_num [map_x, WIDTH]
  have hy' : map_y ⟨1, 0, 1, 0⟩ 300 = 0 := by norm_num [map_y, HEIGHT]
  have hW : (400 : Nat) < WIDTH := by decide
  have hW' : (399 : Nat) < WIDTH := by decide
  have hH : (300 : Nat) < HEIGHT := by decide
  obtain ⟨c1, c2, c3, c4⟩ := bounded_counts 0 0 origin_bounded
  refine ⟨hx, hy, ?_, ?_, ?_, ?_, hx', hy', ?_⟩
  · rw [scalar_pixel 1 (le_refl 1), hx, hy, scalar_iter_eq_canonical, c1]
    rfl
  · rw [sse_buffer 1 (le_refl 1) _ _ 400 300 hW hH, sse_pixel_even _ _ _ (by decide), hx, hy, c2]
    rfl
  · rw [avx_buffer 1 (le_refl 1) _ _ 400 300 hW hH, avx_pixel_eq, hx, hy, c3]
    rfl
  · rw [opt_buffer 1 (le_refl 1) _ _ 400 300 hW hH, opt_pixel_eq, hx, hy, c4]
    rfl
  · rw [sse_buffer 1 (le_refl 1) _ _ 399 300 hW' hH, sse_pixel_odd _ _ _ (by decide)]

/-- C4, evaluated at its input: with the viewport of centre (-0.5, 0) and scale
0.005 the pixel (400, 300) is mapped to the point (-0.5, 0); the scalar, the SSE
and the AVX kernel report `MAX_ITER = 256` for it, and the unrolled kernel
stores 0. -/
theorem C4_grid_centre_values (buf : Buffer) :
    map_x ⟨-1 / 2, 0, 5 / 1000, 0⟩ 400 = -1 / 2 ∧ map_y ⟨-1 / 2, 0, 5 / 1000, 0⟩ 300 = 0
      ∧ compute_mandelbrot 1 ⟨-1 / 2, 0, 5 / 1000, 0⟩ 400 300 = 256
      ∧ compute_mandelbrot_sse 1 ⟨-1 / 2, 0, 5 / 1000, 0⟩ buf (300 * WIDTH + 400) = 256
      ∧ compute_mandelbrot_avx2 1 ⟨-1 / 2, 0, 5 / 1000, 0⟩ buf (300 * WIDTH + 400) = 256
      ∧ compute_mandelbrot_optimized 1 ⟨-1 / 2, 0, 5 / 1000, 0⟩ buf (300 * WIDTH + 400) = 0 := by
  have hx : map_x ⟨-1 / 2, 0, 5 / 1000, 0⟩ 400 = -1 / 2 := by norm_num [map_x, WIDTH]
  have hy : map_y ⟨-1 / 2, 0, 5 / 1000, 0⟩ 300 = 0 := by norm_num [map_y, HEIGHT]
  have hW : (400 : Nat) < WIDTH := by decide
  have hH : (300 : Nat) < HEIGHT := by decide
  obtain ⟨c1, c2, c3, c4⟩ := bounded_counts (-1 / 2) 0 minus_half_bounded
  refine ⟨hx, hy, ?_, ?_, ?_, ?_⟩
  · rw [scalar_pixel 1 (le_refl 1), hx, hy, scalar_iter_eq_canonical, c1]
    rfl
  · rw [sse_buffer 1 (le_refl 1) _ _ 400 300 hW hH, sse_pixel_even _ _ _ (by decide), hx, hy, c2]
    rfl
  · rw [avx_buffer 1 (le_refl 1) _ _ 400 300 hW hH, avx_pixel_eq, hx, hy, c3]
    rfl
  · rw [opt_buffer 1 (le_refl 1) _ _ 400 300 hW hH, opt_pixel_eq, hx, hy, c4]
    rfl

/-- C5: for every viewport, every positive number of repetitions and every pixel
of the grid whose mapped point is (2, 2), each of the four kernels reports an
iteration count strictly less than `MAX_ITER = 256`. -/
theorem C5_escaping_point_below_max (state : MandelbrotState) (n : Nat) (buf : Buffer)
    (x y : Nat) (hn : 1 ≤ n) (hx : x < WIDTH) (hy : y < HEIGHT)
    (hmx : map_x state x = 2) (hmy : map_y state y = 2) :
    compute_mandelbrot n state x y < 256
      ∧ compute_mandelbrot_sse n state buf (y * WIDTH + x) < 256
      ∧ compute_mandelbrot_optimized n state buf (y * WIDTH + x) < 256
      ∧ compute_mandelbrot_avx2 n state buf (y * WIDTH + x) < 256 := by
  obtain ⟨c1, c2, c3, c4⟩ := counts_2_2
  refine ⟨?_, ?_, ?_, ?_⟩
  · rw [scalar_pixel n hn, hmx, hmy, scalar_iter_eq_canonical, c1]
    decide
  · rw [sse_buffer n hn _ _ x y hx hy]
    rcases Nat.mod_two_eq_zero_or_one x with h | h
    · rw [sse_pixel_even _ _ _ h, hmx, hmy, c2]
      decide
    · rw [sse_pixel_odd _ _ _ h]
      decide
  · rw [opt_buffer n hn _ _ x y hx hy, opt_pixel_eq, hmx, hmy, c3]
    decide
  · rw [avx_buffer n hn _ _ x y hx hy, avx_pixel_eq, hmx, hmy, c4]
    decide

theorem C5_escaping_point_below_max_witness :
    (1 ≤ 1 ∧ 400 < WIDTH ∧ 300 < HEIGHT
      ∧ map_x ⟨2, 2, 1, 0⟩ 400 = 2 ∧ map_y ⟨2, 2, 1, 0⟩ 300 = 2)
    ∧ (compute_mandelbrot 1 ⟨2, 2, 1, 0⟩ 400 300 < 256
      ∧ compute_mandelbrot_sse 1 ⟨2, 2, 1, 0⟩ (fun _ => 0) (300 * WIDTH + 400) < 256
      ∧ compute_mandelbrot_optimized 1 ⟨2, 2, 1, 0⟩ (fun _ => 0) (300 * WIDTH + 400) < 256
      ∧ compute_mandelbrot_avx2 1 ⟨2, 2, 1, 0⟩ (fun _ => 0) (300 * WIDTH + 400) < 256) :=
  ⟨⟨by decide, by decide, by decide, by norm_num [map_x, WIDTH], by norm_num [map_y, HEIGHT]⟩,
    C5_escaping_point_below_max ⟨2, 2, 1, 0⟩ 1 (fun _ => 0) 400 300 (by decide) (by decide)
      (by decide) (by norm_num [map_x, WIDTH]) (by norm_num [map_y, HEIGHT])⟩

/-- C6, evaluated at its failing input: with the viewport of centre (2, 2) and
scale 1, in the group of the columns 400 and 401 of row 300 the 64-bit counters
of the two lanes are both 1 when the loop ends, the pixel (401, 300) is the one
of lane 1 (mapped point (3, 2)), and the value that the SSE kernel writes to
`iterations[300 * WIDTH + 401]` is 0, not the counter of lane 1. -/
theorem C6_sse_odd_column_value (buf : Buffer) :
    sse_iter ⟨2, 2, 1, 0⟩ 300 400 = [1, 1]
      ∧ map_x ⟨2, 2, 1, 0⟩ 401 = 3 ∧ map_y ⟨2, 2, 1, 0⟩ 300 = 2
      ∧ compute_mandelbrot_sse 1 ⟨2, 2, 1, 0⟩ buf (300 * WIDTH + 401) = 0 := by
  have hx : map_x ⟨2, 2, 1, 0⟩ 400 = 2 := by norm_num [map_x, WIDTH]
  have hx1 : map_x ⟨2, 2, 1, 0⟩ 401 = 3 := by norm_num [map_x, WIDTH]
  have hy : map_y ⟨2, 2, 1, 0⟩ 300 = 2 := by norm_num [map_y, HEIGHT]
  refine ⟨?_, hx1, hy, ?_⟩
  · rw [sse_iter_counts, hx, hx1, hy, counts_2_2.2.1, sse_count_3_2]
  · rw [sse_buffer 1 (le_refl 1) _ _ 401 300 (by decide) (by decide),
      sse_pixel_odd _ _ _ (by decide)]

/-- C7: for every viewport, every positive number of repetitions and every pixel
of the grid, the value that the SSE, the unrolled and the AVX kernel leave in
the cell of the pixel, and the final `iter` of the scalar kernel, are integers
between 0 and `MAX_ITER = 256`. -/
theorem C7_values_in_range (state : MandelbrotState) (n : Nat) (buf : Buffer)
    (x y : Nat) (hn : 1 ≤ n) (hx : x < WIDTH) (hy : y < HEIGHT) :
    (0 ≤ compute_mandelbrot_sse n state buf (y * WIDTH + x)
      ∧ compute_mandelbrot_sse n state buf (y * WIDTH + x) ≤ 256)
    ∧ (0 ≤ compute_mandelbrot_optimized n state buf (y * WIDTH + x)
      ∧ compute_mandelbrot_optimized n state buf (y * WIDTH + x) ≤ 256)
    ∧ (0 ≤ compute_mandelbrot_avx2 n state buf (y * WIDTH + x)
      ∧ compute_mandelbrot_avx2 n state buf (y * WIDTH + x) ≤ 256)
    ∧ (0 ≤ compute_mandelbrot n state x y ∧ compute_mandelbrot n state x y ≤ 256) := by
  have hM : MAX_ITER = 256 := rfl
  refine ⟨?_, ?_, ?_, ?_⟩
  · rw [sse_buffer n hn _ _ x y hx hy]
    rcases Nat.mod_two_eq_zero_or_one x with h | h
    · rw [sse_pixel_even _ _ _ h]
      have := sse_count_le (map_x state x) (map_y state y)
      omega
    · rw [sse_pixel_odd _ _ _ h]
      omega
  · rw [opt_buffer n hn _ _ x y hx hy, opt_pixel_eq]
    have := opt_count_lt (map_x state x) (map_y state y)
    omega
  · rw [avx_buffer n hn _ _ x y hx hy, avx_pixel_eq]
    have := avx_count_le (map_x state x) (map_y state y)
    omega
  · rw [scalar_pixel n hn, scalar_iter_eq_canonical]
    have := canonical_iter_le (map_x state x) (map_y state y)
    omega

theorem C7_values_in_range_witness :
    (1 ≤ 5 ∧ 799 < WIDTH ∧ 599 < HEIGHT)
    ∧ ((0 ≤ compute_mandelbrot_sse 5 ⟨-1 / 2, 0, 5 / 1000, 0⟩ (fun _ => -7) (599 * WIDTH + 799)
      ∧ compute_mandelbrot_sse 5 ⟨-1 / 2, 0, 5 / 1000, 0⟩ (fun _ => -7) (599 * WIDTH + 799) ≤ 256)
    ∧ (0 ≤ compute_mandelbrot_optimized 5 ⟨-1 / 2, 0, 5 / 1000, 0⟩ (fun _ => -7)
          (599 * WIDTH + 799)
      ∧ compute_mandelbrot_optimized 5 ⟨-1 / 2, 0, 5 / 1000, 0⟩ (fun _ => -7)
          (599 * WIDTH + 799) ≤ 256)
    ∧ (0 ≤ compute_mandelbrot_avx2 5 ⟨-1 / 2, 0, 5 / 1000, 0⟩ (fun _ => -7) (599 * WIDTH + 799)
      ∧ compute_mandelbrot_avx2 5 ⟨-1 / 2, 0, 5 / 1000, 0⟩ (fun _ => -7) (599 * WIDTH + 799)
          ≤ 256)
    ∧ (0 ≤ compute_mandelbrot 5 ⟨-1 / 2, 0, 5 / 1000, 0⟩ 799 599
      ∧ compute_mandelbrot 5 ⟨-1 / 2, 0, 5 / 1000, 0⟩ 799 599 ≤ 256)) :=
  ⟨⟨by decide, by decide, by decide⟩,
    C7_values_in_range ⟨-1 / 2, 0, 5 / 1000, 0⟩ 5 (fun _ => -7) 799 599 (by decide) (by decide)
      (by decide)⟩

/-- C8: for every viewport, every number of repetitions `n >= 1` and every pixel
of the grid, each of the four kernels produces with `run_count = n` the value
that it produces with `run_count = 1`, whatever the first content of the two
buffers. -/
theorem C8_run_count_invariance (state : MandelbrotState) (n : Nat) (buf buf1 : Buffer)
    (x y : Nat) (hn : 1 ≤ n) (hx : x < WIDTH) (hy : y < HEIGHT) :
    compute_mandelbrot n state x y = compute_mandelbrot 1 state x y
    ∧ compute_mandelbrot_sse n state buf (y * WIDTH + x)
        = compute_mandelbrot_sse 1 state buf1 (y * WIDTH + x)
    ∧ compute_mandelbrot_optimized n state buf (y * WIDTH + x)
        = compute_mandelbrot_optimized 1 state buf1 (y * WIDTH + x)
    ∧ compute_mandelbrot_avx2 n state buf (y * WIDTH + x)
        = compute_mandelbrot_avx2 1 state buf1 (y * WIDTH + x) := by
  refine ⟨?_, ?_, ?_, ?_⟩
  · rw [scalar_pixel n hn, scalar_pixel 1 (le_refl 1)]
  · rw [sse_buffer n hn _ _ x y hx hy, sse_buffer 1 (le_refl 1) _ _ x y hx hy]
  · rw [opt_buffer n hn _ _ x y hx hy, opt_buffer 1 (le_refl 1) _ _ x y hx hy]
  · rw [avx_buffer n hn _ _ x y hx hy, avx_buffer 1 (le_refl 1) _ _ x y hx hy]

theorem C8_run_count_invariance_witness :
    (1 ≤ 5 ∧ 123 < WIDTH ∧ 45 < HEIGHT)
    ∧ (compute_mandelbrot 5 ⟨-1 / 2, 0, 5 / 1000, 0⟩ 123 45
        = compute_mandelbrot 1 ⟨-1 / 2, 0, 5 / 1000, 0⟩ 123 45
    ∧ compute_mandelbrot_sse 5 ⟨-1 / 2, 0, 5 / 1000, 0⟩ (fun _ => 0) (45 * WIDTH + 123)
        = compute_mandelbrot_sse 1 ⟨-1 / 2, 0, 5 / 1000, 0⟩ (fun i => (i : Int)) (45 * WIDTH + 123)
    ∧ compute_mandelbrot_optimized 5 ⟨-1 / 2, 0, 5 / 1000, 0⟩ (fun _ => 0) (45 * WIDTH + 123)
        = compute_mandelbrot_optimized 1 ⟨-1 / 2, 0, 5 / 1000, 0⟩ (fun i => (i : Int))
            (45 * WIDTH + 123)
    ∧ compute_mandelbrot_avx2 5 ⟨-1 / 2, 0, 5 / 1000, 0⟩ (fun _ => 0) (45 * WIDTH + 123)
        = compute_mandelbrot_avx2 1 ⟨-1 / 2, 0, 5 / 1000, 0⟩ (fun i => (i : Int))
            (45 * WIDTH + 123)) :=
  ⟨⟨by decide, by decide, by decide⟩,
    C8_run_count_invariance ⟨-1 / 2, 0, 5 / 1000, 0⟩ 5 (fun _ => 0) (fun i => (i : Int)) 123 45
      (by decide) (by decide) (by decide)⟩

/-! ## The colour polynomials -/

theorem uint8_of_float_eq (v : ℚ) (h0 : 0 ≤ v) (h : v < 256) :
    ((uint8_of_float v : Nat) : Int) = ⌊v⌋ := by
  have hnum : 0 ≤ v.num := Rat.num_nonneg.mpr h0
  have hfl : ⌊v⌋ = v.num / (v.den : Int) := Rat.floor_def
  have hf0 : 0 ≤ ⌊v⌋ := Int.floor_nonneg.mpr h0
  have hf1 : ⌊v⌋ < 256 := by
    rw [Int.floor_lt]
    exact_mod_cast h
  unfold uint8_of_float
  rw [Int.tdiv_eq_ediv hnum (Int.ofNat_nonneg _), ← hfl]
  rw [Int.toNat_of_nonneg (Int.emod_nonneg _ (by norm_num))]
  exact Int.emod_eq_of_lt hf0 hf1

theorem quartic_bound (t : ℚ) : (1 - t) * t * t * t ≤ 27 / 256 := by
  have h : 27 / 256 - (1 - t) * t * t * t
      = (t - 3 / 4) * (t - 3 / 4) * ((t + 1 / 4) * (t + 1 / 4) + 1 / 8) := by ring
  have h2 : 0 ≤ (t - 3 / 4) * (t - 3 / 4) * ((t + 1 / 4) * (t + 1 / 4) + 1 / 8) :=
    mul_nonneg (mul_self_nonneg _) (add_nonneg (mul_self_nonneg _) (by norm_num))
  linarith

theorem red_value_range (t : ℚ) (h0 : 0 ≤ t) (h1 : t ≤ 1) :
    0 ≤ red_value t ∧ red_value t ≤ 255 := by
  have hq := quartic_bound t
  have hn : 0 ≤ (1 - t) * t * t * t :=
    mul_nonneg (mul_nonneg (mul_nonneg (by linarith) h0) h0) h0
  unfold red_value
  constructor <;> nlinarith

theorem green_value_range (t : ℚ) (h0 : 0 ≤ t) (h1 : t ≤ 1) :
    0 ≤ green_value t ∧ green_value t ≤ 255 := by
  have hp : 0 ≤ (1 - t) * t := mul_nonneg (by linarith) h0
  have hq : (1 - t) * t ≤ 1 / 4 := by nlinarith [mul_self_nonneg (t - 1 / 2)]
  have hsq : ((1 - t) * t) * ((1 - t) * t) ≤ 1 / 16 := by nlinarith
  have hn : 0 ≤ ((1 - t) * t) * ((1 - t) * t) := mul_self_nonneg _
  unfold green_value
  constructor <;> nlinarith

theorem blue_value_range (t : ℚ) (h0 : 0 ≤ t) (h1 : t ≤ 1) :
    0 ≤ blue_value t ∧ blue_value t ≤ 255 := by
  have hq := quartic_bound (1 - t)
  have e : (1 - (1 - t)) * (1 - t) * (1 - t) * (1 - t) = (1 - t) * (1 - t) * (1 - t) * t := by
    ring
  rw [e] at hq
  have h1t : 0 ≤ 1 - t := by linarith
  have hn : 0 ≤ (1 - t) * (1 - t) * (1 - t) * t :=
    mul_nonneg (mul_nonneg (mul_nonneg h1t h1t) h1t) h0
  unfold blue_value
  constructor <;> norm_num <;> nlinarith

theorem t_range (iter : Int) (h0 : 0 ≤ iter) (h1 : iter ≤ (MAX_ITER : Int)) :
    0 ≤ (iter : ℚ) / (MAX_ITER : ℚ) ∧ (iter : ℚ) / (MAX_ITER : ℚ) ≤ 1 := by
  have hM : ((MAX_ITER : Nat) : ℚ) = 256 := by norm_num [MAX_ITER]
  have hM' : ((MAX_ITER : Nat) : Int) = 256 := by norm_num [MAX_ITER]
  rw [hM]
  rw [hM'] at h1
  have a0 : (0 : ℚ) ≤ (iter : ℚ) := by exact_mod_cast h0
  have a1 : (iter : ℚ) ≤ 256 := by exact_mod_cast h1
  constructor
  · positivity
  · rw [div_le_one (by norm_num)]
    exact a1

/-- C9, refuted at `iter = 64`: `get_color` returns the red channel 26 and the
blue channel 228, while the polynomials rounded to the nearest integer give 27
and 229, so `get_color(64)` is not the colour of the rounded formula. -/
theorem C9_round_fails_at_64 :
    (get_color 64).r = 26 ∧ (spec_color 64).r = 27 ∧ (get_color 64).b = 228
      ∧ (spec_color 64).b = 229 ∧ get_color 64 ≠ spec_color 64 := by
  have hM : ((MAX_ITER : Nat) : ℚ) = 256 := by norm_num [MAX_ITER]
  have hr : (get_color 64).r = 26 := by
    have h := uint8_of_float_eq (red_value (((64 : Int) : ℚ) / (MAX_ITER : ℚ)))
      (by rw [hM]; norm_num [red_value]) (by rw [hM]; norm_num [red_value])
    have hf : ⌊red_value (((64 : Int) : ℚ) / (MAX_ITER : ℚ))⌋ = 26 := by
      rw [Int.floor_eq_iff, hM]
      norm_num [red_value]
    rw [hf] at h
    have hne : ¬ ((64 : Int) = (MAX_ITER : Int)) := by decide
    simp only [get_color, if_neg hne, sfColor_fromRGB]
    exact_mod_cast h
  have hb : (get_color 64).b = 228 := by
    have h := uint8_of_float_eq (blue_value (((64 : Int) : ℚ) / (MAX_ITER : ℚ)))
      (by rw [hM]; norm_num [blue_value]) (by rw [hM]; norm_num [blue_value])
    have hf : ⌊blue_value (((64 : Int) : ℚ) / (MAX_ITER : ℚ))⌋ = 228 := by
      rw [Int.floor_eq_iff, hM]
      norm_num [blue_value]
    rw [hf] at h
    have hne : ¬ ((64 : Int) = (MAX_ITER : Int)) := by decide
    simp only [get_color, if_neg hne, sfColor_fromRGB]
    exact_mod_cast h
  have hsr : (spec_color 64).r = 27 := by
    simp only [spec_color, hM]
    have : round (9 * (1 - ((64 : Int) : ℚ) / 256) * (((64 : Int) : ℚ) / 256) ^ 3 * 255) = 27 := by
      rw [round_eq, Int.floor_eq_iff]
      norm_num
    rw [this]
    rfl
  have hsb : (spec_color 64).b = 229 := by
    simp only [spec_color, hM]
    have : round (8.5 * (1 - ((64 : Int) : ℚ) / 256) ^ 3 * (((64 : Int) : ℚ) / 256) * 255)
        = 229 := by
      rw [round_eq, Int.floor_eq_iff]
      norm_num
    rw [this]
    rfl
  refine ⟨hr, hsr, hb, hsb, ?_⟩
  intro he
  have := congrArg sfColor.r he
  rw [hr, hsr] at this
  exact absurd this (by decide)

/-- C9, amended: for every `iter` in `[0, MAX_ITER)` with `t = iter / MAX_ITER`,
`get_color(iter)` returns the three polynomials with the fraction dropped:
`r = floor(9 (1-t) t^3 255)`, `g = floor(15 (1-t)^2 t^2 255)`,
`b = floor(8.5 (1-t)^3 t 255)`, and the alpha channel 255. -/
theorem C9_get_color_floor (iter : Int) (h0 : 0 ≤ iter) (h1 : iter < (MAX_ITER : Int)) :
    ((get_color iter).r : Int)
        = ⌊9 * (1 - (iter : ℚ) / (MAX_ITER : ℚ)) * ((iter : ℚ) / (MAX_ITER : ℚ)) ^ 3 * 255⌋
    ∧ ((get_color iter).g : Int)
        = ⌊15 * (1 - (iter : ℚ) / (MAX_ITER : ℚ)) ^ 2 * ((iter : ℚ) / (MAX_ITER : ℚ)) ^ 2 * 255⌋
    ∧ ((get_color iter).b : Int)
        = ⌊8.5 * (1 - (iter : ℚ) / (MAX_ITER : ℚ)) ^ 3 * ((iter : ℚ) / (MAX_ITER : ℚ)) * 255⌋
    ∧ (get_color iter).a = 255 := by
  obtain ⟨t0, t1⟩ := t_range iter h0 (le_of_lt h1)
  have hne : ¬ (iter = (MAX_ITER : Int)) := ne_of_lt h1
  obtain ⟨r0, r1⟩ := red_value_range _ t0 t1
  obtain ⟨g0, g1⟩ := green_value_range _ t0 t1
  obtain ⟨b0, b1⟩ := blue_value_range _ t0 t1
  have er : 9 * (1 - (iter : ℚ) / (MAX_ITER : ℚ)) * ((iter : ℚ) / (MAX_ITER : ℚ)) ^ 3 * 255
      = red_value ((iter : ℚ) / (MAX_ITER : ℚ)) := by unfold red_value; ring
  have eg : 15 * (1 - (iter : ℚ) / (MAX_ITER : ℚ)) ^ 2 * ((iter : ℚ) / (MAX_ITER : ℚ)) ^ 2 * 255
      = green_value ((iter : ℚ) / (MAX_ITER : ℚ)) := by unfold green_value; ring
  have eb : 8.5 * (1 - (iter : ℚ) / (MAX_ITER : ℚ)) ^ 3 * ((iter : ℚ) / (MAX_ITER : ℚ)) * 255
      = blue_value ((iter : ℚ) / (MAX_ITER : ℚ)) := by unfold blue_value; ring
  rw [er, eg, eb]
  simp only [get_color, if_neg hne, sfColor_fromRGB]
  exact ⟨uint8_of_float_eq _ r0 (by linarith), uint8_of_float_eq _ g0 (by linarith),
    uint8_of_float_eq _ b0 (by linarith), trivial⟩

theorem C9_get_color_floor_witness :
    ((0 : Int) ≤ 64 ∧ (64 : Int) < (MAX_ITER : Int))
    ∧ (((get_color 64).r : Int)
        = ⌊9 * (1 - ((64 : Int) : ℚ) / (MAX_ITER : ℚ)) * (((64 : Int) : ℚ) / (MAX_ITER : ℚ)) ^ 3
            * 255⌋
    ∧ ((get_color 64).g : Int)
        = ⌊15 * (1 - ((64 : Int) : ℚ) / (MAX_ITER : ℚ)) ^ 2
            * (((64 : Int) : ℚ) / (MAX_ITER : ℚ)) ^ 2 * 255⌋
    ∧ ((get_color 64).b : Int)
        = ⌊8.5 * (1 - ((64 : Int) : ℚ) / (MAX_ITER : ℚ)) ^ 3
            * (((64 : Int) : ℚ) / (MAX_ITER : ℚ)) * 255⌋
    ∧ (get_color 64).a = 255) :=
  ⟨⟨by decide, by decide⟩, C9_get_color_floor 64 (by decide) (by decide)⟩

/-- C10: for every `iter` in `[0, MAX_ITER]`, with `t = iter / MAX_ITER`, each of
the three polynomial values of `get_color` lies in `[0, 255]` before the
conversion to `sfUint8`, and the channels `r`, `g`, `b` of `get_color(iter)`
are in `[0, 255]`; for `iter < MAX_ITER`, where the conversion takes place, it
returns the integer part of the value, without wrapping. -/
theorem C10_channels_in_range (iter : Int) (h0 : 0 ≤ iter) (h1 : iter ≤ (MAX_ITER : Int)) :
    (0 ≤ red_value ((iter : ℚ) / (MAX_ITER : ℚ))
      ∧ red_value ((iter : ℚ) / (MAX_ITER : ℚ)) ≤ 255)
    ∧ (0 ≤ green_value ((iter : ℚ) / (MAX_ITER : ℚ))
      ∧ green_value ((iter : ℚ) / (MAX_ITER : ℚ)) ≤ 255)
    ∧ (0 ≤ blue_value ((iter : ℚ) / (MAX_ITER : ℚ))
      ∧ blue_value ((iter : ℚ) / (MAX_ITER : ℚ)) ≤ 255)
    ∧ (get_color iter).r ≤ 255 ∧ (get_color iter).g ≤ 255 ∧ (get_color iter).b ≤ 255
    ∧ (iter < (MAX_ITER : Int) →
        ((uint8_of_float (red_value ((iter : ℚ) / (MAX_ITER : ℚ))) : Nat) : Int)
            = ⌊red_value ((iter : ℚ) / (MAX_ITER : ℚ))⌋
        ∧ ((uint8_of_float (green_value ((iter : ℚ) / (MAX_ITER : ℚ))) : Nat) : Int)
            = ⌊green_value ((iter : ℚ) / (MAX_ITER : ℚ))⌋
        ∧ ((uint8_of_float (blue_value ((iter : ℚ) / (MAX_ITER : ℚ))) : Nat) : Int)
            = ⌊blue_value ((iter : ℚ) / (MAX_ITER : ℚ))⌋) := by
  obtain ⟨t0, t1⟩ := t_range iter h0 h1
  obtain ⟨r0, r1⟩ := red_value_range _ t0 t1
  obtain ⟨g0, g1⟩ := green_value_range _ t0 t1
  obtain ⟨b0, b1⟩ := blue_value_range _ t0 t1
  have hr := uint8_of_float_eq _ r0 (lt_of_le_of_lt r1 (by norm_num))
  have hg := uint8_of_float_eq _ g0 (lt_of_le_of_lt g1 (by norm_num))
  have hb := uint8_of_float_eq _ b0 (lt_of_le_of_lt b1 (by norm_num))
  have fr : ⌊red_value ((iter : ℚ) / (MAX_ITER : ℚ))⌋ ≤ 255 := by
    have := Int.floor_le (red_value ((iter : ℚ) / (MAX_ITER : ℚ)))
    exact_mod_cast (le_trans this r1 : ((⌊red_value ((iter : ℚ) / (MAX_ITER : ℚ))⌋ : Int) : ℚ)
      ≤ ((255 : Int) : ℚ))
  have fg : ⌊green_value ((iter : ℚ) / (MAX_ITER : ℚ))⌋ ≤ 255 := by
    have := Int.floor_le (green_value ((iter : ℚ) / (MAX_ITER : ℚ)))
    exact_mod_cast (le_trans this g1 :
      ((⌊green_value ((iter : ℚ) / (MAX_ITER : ℚ))⌋ : Int) : ℚ) ≤ ((255 : Int) : ℚ))
  have fb : ⌊blue_value ((iter : ℚ) / (MAX_ITER : ℚ))⌋ ≤ 255 := by
    have := Int.floor_le (blue_value ((iter : ℚ) / (MAX_ITER : ℚ)))
    exact_mod_cast (le_trans this b1 : ((⌊blue_value ((iter : ℚ) / (MAX_ITER : ℚ))⌋ : Int) : ℚ)
      ≤ ((255 : Int) : ℚ))
  refine ⟨⟨r0, r1⟩, ⟨g0, g1⟩, ⟨b0, b1⟩, ?_, ?_, ?_, fun _ => ⟨hr, hg, hb⟩⟩
  · by_cases he : iter = (MAX_ITER : Int)
    · simp [get_color, he, sfBlack]
    · simp only [get_color, if_neg he, sfColor_fromRGB]
      omega
  · by_cases he : iter = (MAX_ITER : Int)
    · simp [get_color, he, sfBlack]
    · simp only [get_color, if_neg he, sfColor_fromRGB]
      omega
  · by_cases he : iter = (MAX_ITER : Int)
    · simp [get_color, he, sfBlack]
    · simp only [get_color, if_neg he, sfColor_fromRGB]
      omega

theorem C10_channels_in_range_witness :
    ((0 : Int) ≤ 192 ∧ (192 : Int) ≤ (MAX_ITER : Int))
    ∧ ((0 ≤ red_value (((192 : Int) : ℚ) / (MAX_ITER : ℚ))
      ∧ red_value (((192 : Int) : ℚ) / (MAX_ITER : ℚ)) ≤ 255)
    ∧ (0 ≤ green_value (((192 : Int) : ℚ) / (MAX_ITER : ℚ))
      ∧ green_value (((192 : Int) : ℚ) / (MAX_ITER : ℚ)) ≤ 255)
    ∧ (0 ≤ blue_value (((192 : Int) : ℚ) / (MAX_ITER : ℚ))
      ∧ blue_value (((192 : Int) : ℚ) / (MAX_ITER : ℚ)) ≤ 255)
    ∧ (get_color 192).r ≤ 255 ∧ (get_color 192).g ≤ 255 ∧ (get_color 192).b ≤ 255
    ∧ ((192 : Int) < (MAX_ITER : Int) →
        ((uint8_of_float (red_value (((192 : Int) : ℚ) / (MAX_ITER : ℚ))) : Nat) : Int)
            = ⌊red_value (((192 : Int) : ℚ) / (MAX_ITER : ℚ))⌋
        ∧ ((uint8_of_float (green_value (((192 : Int) : ℚ) / (MAX_ITER : ℚ))) : Nat) : Int)
            = ⌊green_value (((192 : Int) : ℚ) / (MAX_ITER : ℚ))⌋
        ∧ ((uint8_of_float (blue_value (((192 : Int) : ℚ) / (MAX_ITER : ℚ))) : Nat) : Int)
            = ⌊blue_value (((192 : Int) : ℚ) / (MAX_ITER : ℚ))⌋)) :=
  ⟨⟨by decide, by decide⟩, C10_channels_in_range 192 (by decide) (by decide)⟩

/-- When the allocation succeeds the compute functions return the measured
time, whatever they draw. -/
theorem compute_call_time (flags : Flags) (clock_start clock_end clocks_per_sec : ℚ)
    (iterations : Buffer) (pixels : Option Pixels) (state : MandelbrotState) :
    (compute_mandelbrot_sse_call flags clock_start clock_end clocks_per_sec (some iterations)
        pixels state).1 = (clock_end - clock_start) / clocks_per_sec
    ∧ (compute_mandelbrot_optimized_call flags clock_start clock_end clocks_per_sec
        (some iterations) pixels state).1 = (clock_end - clock_start) / clocks_per_sec
    ∧ (compute_mandelbrot_avx2_call flags clock_start clock_end clocks_per_sec (some iterations)
        pixels state).1 = (clock_end - clock_start) / clocks_per_sec := by
  refine ⟨?_, ?_, ?_⟩
  · simp only [compute_mandelbrot_sse_call, finish_compute]
    cases pixels with
    | none => rfl
    | some p => simp only []; split <;> rfl
  · simp only [compute_mandelbrot_optimized_call, finish_compute]
    cases pixels with
    | none => rfl
    | some p => simp only []; split <;> rfl
  · simp only [compute_mandelbrot_avx2_call, finish_compute]
    cases pixels with
    | none => rfl
    | some p => simp only []; split <;> rfl

/-! ## The colour of the ends, the mapping, the command line and the allocation -/

/-- C11: `get_color` maps both ends of the iteration range to black:
`get_color(0)` and `get_color(MAX_ITER)` have the channels `(0, 0, 0)`. -/
theorem C11_black_at_both_ends :
    ((get_color 0).r = 0 ∧ (get_color 0).g = 0 ∧ (get_color 0).b = 0)
    ∧ ((get_color (MAX_ITER : Int)).r = 0 ∧ (get_color (MAX_ITER : Int)).g = 0
      ∧ (get_color (MAX_ITER : Int)).b = 0)
    ∧ get_color 0 = get_color (MAX_ITER : Int) ∧ MAX_ITER = 256 := by
  have hne : ¬ ((0 : Int) = (MAX_ITER : Int)) := by decide
  have hz : uint8_of_float 0 = 0 := by
    simp [uint8_of_float]
  have h0 : get_color 0 = ⟨0, 0, 0, 255⟩ := by
    simp only [get_color, if_neg hne, sfColor_fromRGB, red_value, green_value, blue_value]
    norm_num [hz]
  have h1 : get_color (MAX_ITER : Int) = ⟨0, 0, 0, 255⟩ := by
    simp [get_color, sfBlack]
  rw [h0, h1]
  exact ⟨⟨rfl, rfl, rfl⟩, ⟨rfl, rfl, rfl⟩, rfl, rfl⟩

/-- C12: for every viewport, every row `y` and every group that starts at column
`x`, lane `k` of each vector kernel holds the point
`cx = center_x + ((x + k) - 400) * scale`, `cy = center_y + (y - 300) * scale`
(2 lanes in the SSE kernel, 4 lanes in the unrolled and the AVX kernel), the
scalar kernel iterates the point of the same formula with `k = 0`, and the pixel
(400, 300) is mapped to `(center_x, center_y)`. -/
theorem C12_same_mapping (state : MandelbrotState) (x y : Nat) :
    sse_cx state x
        = [state.center_x + (((x : Nat) : ℚ) - 400) * state.scale,
           state.center_x + (((x + 1 : Nat) : ℚ) - 400) * state.scale]
    ∧ sse_cy state y
        = [state.center_y + ((y : ℚ) - 300) * state.scale,
           state.center_y + ((y : ℚ) - 300) * state.scale]
    ∧ opt_cx state x
        = [state.center_x + (((x : Nat) : ℚ) - 400) * state.scale,
           state.center_x + (((x + 1 : Nat) : ℚ) - 400) * state.scale,
           state.center_x + (((x + 2 : Nat) : ℚ) - 400) * state.scale,
           state.center_x + (((x + 3 : Nat) : ℚ) - 400) * state.scale]
    ∧ opt_cy state y
        = [state.center_y + ((y : ℚ) - 300) * state.scale,
           state.center_y + ((y : ℚ) - 300) * state.scale,
           state.center_y + ((y : ℚ) - 300) * state.scale,
           state.center_y + ((y : ℚ) - 300) * state.scale]
    ∧ avx_cx state x
        = [state.center_x + (((x : Nat) : ℚ) - 400) * state.scale,
           state.center_x + (((x + 1 : Nat) : ℚ) - 400) * state.scale,
           state.center_x + (((x + 2 : Nat) : ℚ) - 400) * state.scale,
           state.center_x + (((x + 3 : Nat) : ℚ) - 400) * state.scale]
    ∧ avx_cy state y
        = [state.center_y + ((y : ℚ) - 300) * state.scale,
           state.center_y + ((y : ℚ) - 300) * state.scale,
           state.center_y + ((y : ℚ) - 300) * state.scale,
           state.center_y + ((y : ℚ) - 300) * state.scale]
    ∧ compute_mandelbrot 1 state x y
        = whileLoop (state.center_x + (((x : Nat) : ℚ) - 400) * state.scale)
            (state.center_y + ((y : ℚ) - 300) * state.scale) MAX_ITER
            (state.center_x + (((x : Nat) : ℚ) - 400) * state.scale)
            (state.center_y + ((y : ℚ) - 300) * state.scale) 0
    ∧ state.center_x + (((400 : Nat) : ℚ) - 400) * state.scale = state.center_x
    ∧ state.center_y + (((300 : Nat) : ℚ) - 300) * state.scale = state.center_y := by
  have hW : ((WIDTH : Nat) : ℚ) / 2 = 400 := by norm_num [WIDTH]
  have hH : ((HEIGHT : Nat) : ℚ) / 2 = 300 := by norm_num [HEIGHT]
  have hx : ∀ n : Nat, map_x state n = state.center_x + ((n : ℚ) - 400) * state.scale := by
    intro n
    simp only [map_x, hW]
  have hy : map_y state y = state.center_y + ((y : ℚ) - 300) * state.scale := by
    simp only [map_y, hH]
  refine ⟨?_, ?_, ?_, ?_, ?_, ?_, ?_, ?_, ?_⟩
  · rw [sse_cx_eq, hx, hx]
  · rw [sse_cy_eq, hy]
  · rw [opt_cx_eq, hx, hx, hx, hx]
  · rw [opt_cy_eq, hy]
  · rw [avx_cx_eq, hx, hx, hx, hx]
  · rw [avx_cy_eq, hy]
  · rw [scalar_pixel 1 (le_refl 1), hx, hy]
    rfl
  · norm_num
  · norm_num

theorem parse_arg_run_count (atoi : List Char → Int) (flags : Flags) (arg : List Char)
    (h : 1 ≤ flags.run_count) : 1 ≤ (parse_arg atoi flags arg).1.run_count := by
  unfold parse_arg
  split
  · exact h
  · split
    · exact h
    · split
      · simp only
        split <;> omega
      · exact h

theorem parse_args_loop_run_count (atoi : List Char → Int) (args : List (List Char))
    (flags : Flags) (h : 1 ≤ flags.run_count) :
    1 ≤ (parse_args_loop atoi args flags).2.run_count := by
  induction args generalizing flags with
  | nil => exact h
  | cons arg rest ih =>
    simp only [parse_args_loop]
    split
    · exact ih _ (parse_arg_run_count atoi flags arg h)
    · exact parse_arg_run_count atoi flags arg h

/-- Three command lines, read with `atoi_digits`: `--runs=5 --no-graphics`,
`--runs=0`, and a line with an unknown option after `--runs=-3`. -/
theorem parse_args_example :
    parse_args atoi_digits ["prog".toList, "--runs=5".toList, "--no-graphics".toList]
        initial_flags = (1, ⟨0, 5⟩)
    ∧ parse_args atoi_digits ["prog".toList, "--runs=0".toList] initial_flags = (1, ⟨1, 1⟩)
    ∧ parse_args atoi_digits ["prog".toList, "--runs=-3".toList, "--fast".toList,
        "--runs=9".toList] initial_flags = (0, ⟨1, 1⟩) := by
  refine ⟨?_, ?_, ?_⟩ <;> rfl

/-- C14: in the SSE, the unrolled and the AVX compute function, when `malloc`
fails the function returns exactly 0.0 and the pixel array of the caller is
what it was, for every viewport, flags (`run_count`, `graphics_enabled`), clock
readings and pixel pointer. -/
theorem C14_allocation_failure_no_op (flags : Flags)
    (clock_start clock_end clocks_per_sec : ℚ) (pixels : Option Pixels)
    (state : MandelbrotState) :
    compute_mandelbrot_sse_call flags clock_start clock_end clocks_per_sec none pixels state
        = (0, pixels)
    ∧ compute_mandelbrot_optimized_call flags clock_start clock_end clocks_per_sec none pixels
        state = (0, pixels)
    ∧ compute_mandelbrot_avx2_call flags clock_start clock_end clocks_per_sec none pixels state
        = (0, pixels) := by
  refine ⟨?_, ?_, ?_⟩
  · simp only [compute_mandelbrot_sse_call]
  · simp only [compute_mandelbrot_optimized_call]
  · simp only [compute_mandelbrot_avx2_call]

/-! ## Frozen lanes in the registers of the vector kernels -/

theorem lock_steps_mono {L : Type} (stp : Nat → L → L) (act : L → Bool) (fuel k i : Nat)
    (ls : List L) : lock_steps stp act fuel i ls ≤ lock_steps stp act (fuel + k) i ls := by
  induction fuel generalizing i ls with
  | zero => simp [lock_steps]
  | succ fuel ih =>
    have e : fuel + 1 + k = (fuel + k) + 1 := by omega
    rw [e]
    by_cases h : ls.any act = true
    · simp only [lock_steps, if_pos h]
      exact Nat.succ_le_succ (ih _ _)
    · simp only [lock_steps, if_neg h]
      exact le_refl _

theorem count_below_stable (cx cy : ℚ) (off m m' : Nat) (hm : m ≤ m')
    (h : ∀ j, m ≤ j → ¬ normSq (orbit cx cy (off + j)) < 100) :
    count_below cx cy off m' = count_below cx cy off m := by
  induction m' with
  | zero =>
    have : m = 0 := by omega
    rw [this]
  | succ m' ih =>
    rcases Nat.lt_or_ge m' m with hlt | hge
    · have : m = m' + 1 := by omega
      rw [this]
    · simp only [count_below]
      rw [if_neg (h m' hge), ih hge]
      rfl

theorem movemask2_testBit (b0 b1 : Bool) :
    (movemask [b0, b1]).testBit 0 = b0 ∧ (movemask [b0, b1]).testBit 1 = b1 := by
  cases b0 <;> cases b1 <;> decide

theorem movemask4_testBit (b0 b1 b2 b3 : Bool) :
    (movemask [b0, b1, b2, b3]).testBit 0 = b0 ∧ (movemask [b0, b1, b2, b3]).testBit 1 = b1
    ∧ (movemask [b0, b1, b2, b3]).testBit 2 = b2
    ∧ (movemask [b0, b1, b2, b3]).testBit 3 = b3 := by
  cases b0 <;> cases b1 <;> cases b2 <;> cases b3 <;> decide

/-- The registers of the SSE kernel after at most `n` turns on the lanes of the
points `p0` and `p1`, lane by lane. -/
theorem sse_loop_lanes (p0 p1 : ℚ × ℚ) (n : Nat) :
    ∃ m, m ≤ n
      ∧ (∀ k, ∃ m', m ≤ m' ∧
          sse_loop [p0.1, p1.1] [p0.2, p1.2] (n + k)
              ⟨[p0.1, p1.1], [p0.2, p1.2], mm_setzero_si128, 3⟩
            = sse_regs [run_lane (fun _ => sse_lane_step) m' 0 (sse_lane_init p0.1 p0.2),
                run_lane (fun _ => sse_lane_step) m' 0 (sse_lane_init p1.1 p1.2)])
      ∧ sse_loop [p0.1, p1.1] [p0.2, p1.2] n ⟨[p0.1, p1.1], [p0.2, p1.2], mm_setzero_si128, 3⟩
          = sse_regs [run_lane (fun _ => sse_lane_step) m 0 (sse_lane_init p0.1 p0.2),
              run_lane (fun _ => sse_lane_step) m 0 (sse_lane_init p1.1 p1.2)] := by
  have hreg : (⟨[p0.1, p1.1], [p0.2, p1.2], mm_setzero_si128, 3⟩ : SseRegs)
      = sse_regs [sse_lane_init p0.1 p0.2, sse_lane_init p1.1 p1.2] := by
    simp [sse_regs, sse_lane_init, mm_setzero_si128, movemask]
  have hloop : ∀ f, sse_loop [p0.1, p1.1] [p0.2, p1.2] f
      ⟨[p0.1, p1.1], [p0.2, p1.2], mm_setzero_si128, 3⟩
      = sse_regs [run_lane (fun _ => sse_lane_step)
            (lock_steps (fun _ => sse_lane_step) SseLane.cmp f 0
              [sse_lane_init p0.1 p0.2, sse_lane_init p1.1 p1.2]) 0 (sse_lane_init p0.1 p0.2),
          run_lane (fun _ => sse_lane_step)
            (lock_steps (fun _ => sse_lane_step) SseLane.cmp f 0
              [sse_lane_init p0.1 p0.2, sse_lane_init p1.1 p1.2]) 0
            (sse_lane_init p1.1 p1.2)] := by
    intro f
    have h := sse_loop_regs f (sse_lane_init p0.1 p0.2) (sse_lane_init p1.1 p1.2)
    have hc : ∀ a b, (sse_lane_init a b).cx = a := fun _ _ => rfl
    have hd : ∀ a b, (sse_lane_init a b).cy = b := fun _ _ => rfl
    simp only [hc, hd] at h
    rw [hreg, h, lockstep_eq_map]
    rfl
  exact ⟨_, lock_steps_le _ _ _ _ _,
    fun k => ⟨_, lock_steps_mono _ _ n k _ _, hloop (n + k)⟩, hloop n⟩

/-- The registers of the AVX kernel after at most `n` turns on the lanes of the
points `p0 .. p3`, lane by lane. -/
theorem avx_loop_lanes (p0 p1 p2 p3 : ℚ × ℚ) (n : Nat) :
    ∃ m, m ≤ n
      ∧ (∀ k, ∃ m', m ≤ m' ∧
          avx_loop [p0.1, p1.1, p2.1, p3.1] [p0.2, p1.2, p2.2, p3.2] (n + k)
              ⟨[p0.1, p1.1, p2.1, p3.1], [p0.2, p1.2, p2.2, p3.2], mm256_setzero_pd, 0xF⟩
            = avx_regs [run_lane (fun _ => avx_lane_step) m' 0 (avx_lane_init p0.1 p0.2),
                run_lane (fun _ => avx_lane_step) m' 0 (avx_lane_init p1.1 p1.2),
                run_lane (fun _ => avx_lane_step) m' 0 (avx_lane_init p2.1 p2.2),
                run_lane (fun _ => avx_lane_step) m' 0 (avx_lane_init p3.1 p3.2)])
      ∧ avx_loop [p0.1, p1.1, p2.1, p3.1] [p0.2, p1.2, p2.2, p3.2] n
            ⟨[p0.1, p1.1, p2.1, p3.1], [p0.2, p1.2, p2.2, p3.2], mm256_setzero_pd, 0xF⟩
          = avx_regs [run_lane (fun _ => avx_lane_step) m 0 (avx_lane_init p0.1 p0.2),
              run_lane (fun _ => avx_lane_step) m 0 (avx_lane_init p1.1 p1.2),
              run_lane (fun _ => avx_lane_step) m 0 (avx_lane_init p2.1 p2.2),
              run_lane (fun _ => avx_lane_step) m 0 (avx_lane_init p3.1 p3.2)] := by
  have hreg : (⟨[p0.1, p1.1, p2.1, p3.1], [p0.2, p1.2, p2.2, p3.2], mm256_setzero_pd, 0xF⟩
      : AvxRegs)
      = avx_regs [avx_lane_init p0.1 p0.2, avx_lane_init p1.1 p1.2, avx_lane_init p2.1 p2.2,
          avx_lane_init p3.1 p3.2] := by
    simp [avx_regs, avx_lane_init, mm256_setzero_pd, movemask]
  have hloop : ∀ f, avx_loop [p0.1, p1.1, p2.1, p3.1] [p0.2, p1.2, p2.2, p3.2] f
      ⟨[p0.1, p1.1, p2.1, p3.1], [p0.2, p1.2, p2.2, p3.2], mm256_setzero_pd, 0xF⟩
      = avx_regs ([avx_lane_init p0.1 p0.2, avx_lane_init p1.1 p1.2, avx_lane_init p2.1 p2.2,
          avx_lane_init p3.1 p3.2].map (run_lane (fun _ => avx_lane_step)
            (lock_steps (fun _ => avx_lane_step) AvxLane.cmp f 0
              [avx_lane_init p0.1 p0.2, avx_lane_init p1.1 p1.2, avx_lane_init p2.1 p2.2,
                avx_lane_init p3.1 p3.2]) 0)) := by
    intro f
    have h := avx_loop_regs f (avx_lane_init p0.1 p0.2) (avx_lane_init p1.1 p1.2)
      (avx_lane_init p2.1 p2.2) (avx_lane_init p3.1 p3.2)
    have hc : ∀ a b, (avx_lane_init a b).cx = a := fun _ _ => rfl
    have hd : ∀ a b, (avx_lane_init a b).cy = b := fun _ _ => rfl
    simp only [hc, hd] at h
    rw [hreg, h, lockstep_eq_map]
  exact ⟨_, lock_steps_le _ _ _ _ _,
    fun k => ⟨_, lock_steps_mono _ _ n k _ _, hloop (n + k)⟩, hloop n⟩

/-- A lane of the SSE kernel whose comparison has failed after `m` turns: after
`m' >= m` turns the comparison still fails and the counter is the same. -/
theorem sse_lane_frozen (cx cy : ℚ) (m m' : Nat) (hm : m ≤ m')
    (h : (run_lane (fun _ => sse_lane_step) m 0 (sse_lane_init cx cy)).cmp = false) :
    (run_lane (fun _ => sse_lane_step) m' 0 (sse_lane_init cx cy)).cmp = false
    ∧ (run_lane (fun _ => sse_lane_step) m' 0 (sse_lane_init cx cy)).iter
        = (run_lane (fun _ => sse_lane_step) m 0 (sse_lane_init cx cy)).iter := by
  rw [sse_run_lane] at h
  rw [sse_run_lane, sse_run_lane]
  simp only [decide_eq_false_iff_not, not_or] at h ⊢
  obtain ⟨hm0, hnb⟩ := h
  have hpos : 0 < m := Nat.pos_of_ne_zero hm0
  have hfz : ∀ j, m - 1 ≤ j → ¬ normSq (orbit cx cy j) < 100 := by
    intro j hj
    have := orbit_frozen cx cy (m - 1) (j - (m - 1)) hnb
    rwa [Nat.add_sub_cancel' hj] at this
  refine ⟨⟨by omega, hfz _ (by omega)⟩, ?_⟩
  rw [count_below_stable cx cy 0 m m' hm (fun j hj => by
    rw [Nat.zero_add]
    exact hfz j (by omega))]

/-- A lane of the AVX kernel whose comparison has failed after `m` turns: after
`m' >= m` turns the comparison still fails and the counter is the same. -/
theorem avx_lane_frozen (cx cy : ℚ) (m m' : Nat) (hm : m ≤ m')
    (h : (run_lane (fun _ => avx_lane_step) m 0 (avx_lane_init cx cy)).cmp = false) :
    (run_lane (fun _ => avx_lane_step) m' 0 (avx_lane_init cx cy)).cmp = false
    ∧ (run_lane (fun _ => avx_lane_step) m' 0 (avx_lane_init cx cy)).iter
        = (run_lane (fun _ => avx_lane_step) m 0 (avx_lane_init cx cy)).iter := by
  rw [avx_run_lane] at h
  rw [avx_run_lane, avx_run_lane]
  simp only [decide_eq_false_iff_not, not_or] at h ⊢
  obtain ⟨hm0, hnb⟩ := h
  have hfz : ∀ j, m ≤ j → ¬ normSq (orbit cx cy j) < 100 := by
    intro j hj
    have := orbit_frozen cx cy m (j - m) hnb
    rwa [Nat.add_sub_cancel' hj] at this
  refine ⟨⟨by omega, hfz _ hm⟩, ?_⟩
  rw [count_below_stable cx cy 1 m m' hm (fun j hj => hfz _ (by omega))]

theorem sse_iter_turns (state : MandelbrotState) (y x : Nat) :
    sse_iter state y x = (sse_turns (sse_cx state x) (sse_cy state y) MAX_ITER).iter := rfl

theorem avx_iter_result_turns (state : MandelbrotState) (y x : Nat) :
    avx_iter_result state y x = (avx_turns (avx_cx state x) (avx_cy state y) MAX_ITER).iter :=
  rfl

/-- C15: in the SSE and in the AVX kernel, for every group of points (lane `j`
runs the orbit of its point from `z = c`, and the lanes are updated together as
long as the mask is not 0): when the bit of lane `j` in `mask` is clear after
`n` turns, that is when the comparison `norm < 100` of the lane has failed, the
bit is clear after `n + k` turns too and the counter of the lane is the same,
whatever the points of the other lanes. -/
theorem C15_frozen_lanes (p0 p1 q0 q1 q2 q3 : ℚ × ℚ) (n k : Nat) :
    (∀ j, j < 2 →
      (sse_turns [p0.1, p1.1] [p0.2, p1.2] n).mask.testBit j = false →
      (sse_turns [p0.1, p1.1] [p0.2, p1.2] (n + k)).mask.testBit j = false
      ∧ (sse_turns [p0.1, p1.1] [p0.2, p1.2] (n + k)).iter.getD j 0
          = (sse_turns [p0.1, p1.1] [p0.2, p1.2] n).iter.getD j 0)
    ∧ (∀ j, j < 4 →
      (avx_turns [q0.1, q1.1, q2.1, q3.1] [q0.2, q1.2, q2.2, q3.2] n).mask.testBit j = false →
      (avx_turns [q0.1, q1.1, q2.1, q3.1] [q0.2, q1.2, q2.2, q3.2] (n + k)).mask.testBit j
          = false
      ∧ (avx_turns [q0.1, q1.1, q2.1, q3.1] [q0.2, q1.2, q2.2, q3.2] (n + k)).iter.getD j 0
          = (avx_turns [q0.1, q1.1, q2.1, q3.1] [q0.2, q1.2, q2.2, q3.2] n).iter.getD j 0) := by
  constructor
  · intro j hj h
    obtain ⟨m, _, hk, hn⟩ := sse_loop_lanes p0 p1 n
    obtain ⟨m', hmm, hk'⟩ := hk k
    unfold sse_turns at h ⊢
    rw [hn] at h ⊢
    rw [hk']
    simp only [sse_regs, List.map_cons, List.map_nil] at h ⊢
    have hb := movemask2_testBit
      (run_lane (fun _ => sse_lane_step) m 0 (sse_lane_init p0.1 p0.2)).cmp
      (run_lane (fun _ => sse_lane_step) m 0 (sse_lane_init p1.1 p1.2)).cmp
    have hb' := movemask2_testBit
      (run_lane (fun _ => sse_lane_step) m' 0 (sse_lane_init p0.1 p0.2)).cmp
      (run_lane (fun _ => sse_lane_step) m' 0 (sse_lane_init p1.1 p1.2)).cmp
    have hj' : j = 0 ∨ j = 1 := by omega
    rcases hj' with rfl | rfl
    · rw [hb.1] at h
      rw [hb'.1]
      have := sse_lane_frozen p0.1 p0.2 m m' hmm h
      simpa using this
    · rw [hb.2] at h
      rw [hb'.2]
      have := sse_lane_frozen p1.1 p1.2 m m' hmm h
      simpa using this
  · intro j hj h
    obtain ⟨m, _, hk, hn⟩ := avx_loop_lanes q0 q1 q2 q3 n
    obtain ⟨m', hmm, hk'⟩ := hk k
    unfold avx_turns at h ⊢
    rw [hn] at h ⊢
    rw [hk']
    simp only [avx_regs, List.map_cons, List.map_nil] at h ⊢
    have hb := movemask4_testBit
      (run_lane (fun _ => avx_lane_step) m 0 (avx_lane_init q0.1 q0.2)).cmp
      (run_lane (fun _ => avx_lane_step) m 0 (avx_lane_init q1.1 q1.2)).cmp
      (run_lane (fun _ => avx_lane_step) m 0 (avx_lane_init q2.1 q2.2)).cmp
      (run_lane (fun _ => avx_lane_step) m 0 (avx_lane_init q3.1 q3.2)).cmp
    have hb' := movemask4_testBit
      (run_lane (fun _ => avx_lane_step) m' 0 (avx_lane_init q0.1 q0.2)).cmp
      (run_lane (fun _ => avx_lane_step) m' 0 (avx_lane_init q1.1 q1.2)).cmp
      (run_lane (fun _ => avx_lane_step) m' 0 (avx_lane_init q2.1 q2.2)).cmp
      (run_lane (fun _ => avx_lane_step) m' 0 (avx_lane_init q3.1 q3.2)).cmp
    have hj' : j = 0 ∨ j = 1 ∨ j = 2 ∨ j = 3 := by omega
    rcases hj' with rfl | rfl | rfl | rfl
    · rw [hb.1] at h
      rw [hb'.1]
      have := avx_lane_frozen q0.1 q0.2 m m' hmm h
      simpa using this
    · rw [hb.2.1] at h
      rw [hb'.2.1]
      have := avx_lane_frozen q1.1 q1.2 m m' hmm h
      simpa using this
    · rw [hb.2.2.1] at h
      rw [hb'.2.2.1]
      have := avx_lane_frozen q2.1 q2.2 m m' hmm h
      simpa using this
    · rw [hb.2.2.2] at h
      rw [hb'.2.2.2]
      have := avx_lane_frozen q3.1 q3.2 m m' hmm h
      simpa using this

theorem sse_turns_example :
    (sse_turns [2, 0] [2, 0] 2).mask.testBit 0 = false := by
  simp only [sse_turns, sse_loop, sse_body, mm_set1_pd, mm_set1_epi64x, mm_mul_pd, mm_add_pd,
    mm_sub_pd, mm_cmplt_pd, mm_movemask_pd, mm_cast, mm_add_epi64, mm_and_si128,
    mm_setzero_si128, List.map_cons, List.map_nil, List.zipWith_cons_cons,
    List.zipWith_nil_right, all_ones_testBit, radius_sq]
  norm_num [movemask]

theorem avx_turns_example :
    (avx_turns [2, 0, 0, 0] [2, 0, 0, 0] 1).mask.testBit 0 = false := by
  simp only [avx_turns, avx_loop, avx_body, mm256_set1_pd, mm_mul_pd, mm_add_pd,
    mm_sub_pd, mm_cmplt_pd, mm_movemask_pd, mm256_setzero_pd, List.map_cons, List.map_nil,
    List.zipWith_cons_cons, List.zipWith_nil_right, all_ones_testBit, radius_sq]
  norm_num [movemask]

theorem C15_frozen_lanes_witness :
    ((sse_turns [2, 0] [2, 0] 2).mask.testBit 0 = false
      ∧ ((sse_turns [2, 0] [2, 0] (2 + 3)).mask.testBit 0 = false
        ∧ (sse_turns [2, 0] [2, 0] (2 + 3)).iter.getD 0 0
            = (sse_turns [2, 0] [2, 0] 2).iter.getD 0 0))
    ∧ ((avx_turns [2, 0, 0, 0] [2, 0, 0, 0] 1).mask.testBit 0 = false
      ∧ ((avx_turns [2, 0, 0, 0] [2, 0, 0, 0] (1 + 4)).mask.testBit 0 = false
        ∧ (avx_turns [2, 0, 0, 0] [2, 0, 0, 0] (1 + 4)).iter.getD 0 0
            = (avx_turns [2, 0, 0, 0] [2, 0, 0, 0] 1).iter.getD 0 0)) :=
  ⟨⟨sse_turns_example,
      (C15_frozen_lanes (2, 2) (0, 0) (2, 2) (0, 0) (0, 0) (0, 0) 2 3).1 0 (by decide)
        sse_turns_example⟩,
    ⟨avx_turns_example,
      (C15_frozen_lanes (2, 2) (0, 0) (2, 2) (0, 0) (0, 0) (0, 0) 1 4).2 0 (by decide)
        avx_turns_example⟩⟩

/-! ## The counts of the kernels, compared -/

theorem canonical_iter_spec (cx cy : ℚ) :
    canonical_iter cx cy ≤ MAX_ITER
      ∧ (∀ m, m < canonical_iter cx cy → ¬ escaped cx cy m)
      ∧ (canonical_iter cx cy < MAX_ITER → escaped cx cy (canonical_iter cx cy)) := by
  unfold canonical_iter
  split
  · rename_i h
    refine ⟨le_of_lt (Nat.find_spec h).1, ?_, fun _ => (Nat.find_spec h).2⟩
    intro m hm hesc
    exact Nat.find_min h hm ⟨lt_trans hm (Nat.find_spec h).1, hesc⟩
  · rename_i h
    refine ⟨le_refl _, ?_, fun hlt => absurd hlt (lt_irrefl _)⟩
    intro m hm hesc
    exact h ⟨m, hm, hesc⟩

theorem escaped0_zero (cx cy : ℚ) : ¬ escaped0 cx cy 0 := by
  simp only [escaped0, orbit0, normSq]
  norm_num

theorem escaped0_succ (cx cy : ℚ) (n : Nat) : escaped0 cx cy (n + 1) ↔ escaped cx cy n :=
  Iff.rfl

/-- The count of the unrolled kernel from the count of the scalar kernel. -/
theorem opt_count_of_canonical (cx cy : ℚ) :
    opt_count cx cy = if canonical_iter cx cy < 255 then canonical_iter cx cy + 1 else 0 := by
  obtain ⟨hle, hbelow, hat⟩ := canonical_iter_spec cx cy
  have hM : MAX_ITER = 256 := rfl
  split
  · rename_i hlt
    apply opt_count_eq_of cx cy _ (by omega)
    · intro m hm
      cases m with
      | zero => exact escaped0_zero cx cy
      | succ m =>
        rw [escaped0_succ]
        exact hbelow m (by omega)
    · rw [escaped0_succ]
      exact hat (by omega)
  · rename_i hge
    unfold opt_count
    rw [dif_neg]
    rintro ⟨m, hm, hesc⟩
    cases m with
    | zero => exact escaped0_zero cx cy hesc
    | succ m =>
      rw [escaped0_succ] at hesc
      exact hbelow m (by omega) hesc

theorem avx_count_le_canonical (cx cy : ℚ) : avx_count cx cy ≤ canonical_iter cx cy := by
  obtain ⟨hle, hbelow, hat⟩ := canonical_iter_spec cx cy
  have hM : MAX_ITER = 256 := rfl
  rcases Nat.lt_or_ge (canonical_iter cx cy) MAX_ITER with hlt | hge
  · have hesc : ¬ normSq (orbit cx cy (canonical_iter cx cy)) < 100 :=
      not_lt.mpr (le_of_lt (hat hlt))
    rcases Nat.eq_zero_or_pos (canonical_iter cx cy) with h0 | hpos
    · have h1 : ¬ normSq (orbit cx cy (0 + 1)) < 100 := by
        have := orbit_frozen cx cy (canonical_iter cx cy) 1 hesc
        rwa [h0] at this
      have hex : ∃ n, n < MAX_ITER ∧ ¬ normSq (orbit cx cy (n + 1)) < 100 :=
        ⟨0, by omega, h1⟩
      unfold avx_count
      rw [dif_pos hex]
      exact le_trans (Nat.find_min' hex ⟨by omega, h1⟩) (Nat.zero_le _)
    · have h1 : ¬ normSq (orbit cx cy (canonical_iter cx cy - 1 + 1)) < 100 := by
        rwa [Nat.sub_add_cancel hpos]
      have hex : ∃ n, n < MAX_ITER ∧ ¬ normSq (orbit cx cy (n + 1)) < 100 :=
        ⟨canonical_iter cx cy - 1, by omega, h1⟩
      unfold avx_count
      rw [dif_pos hex]
      exact le_trans (Nat.find_min' hex ⟨by omega, h1⟩) (Nat.sub_le _ _)
  · exact le_trans (avx_count_le cx cy) hge

theorem avx_count_of_canonical (cx cy : ℚ) (h1 : 1 ≤ canonical_iter cx cy)
    (h255 : canonical_iter cx cy ≤ 255) (hne : ∀ j, normSq (orbit cx cy j) ≠ 100) :
    avx_count cx cy = canonical_iter cx cy - 1 := by
  obtain ⟨hle, hbelow, hat⟩ := canonical_iter_spec cx cy
  have hM : MAX_ITER = 256 := rfl
  apply avx_count_eq_of cx cy _ (by omega)
  · intro m hm
    have := hbelow (m + 1) (by omega)
    simp only [escaped, not_lt] at this
    exact lt_of_le_of_ne this (hne (m + 1))
  · rw [Nat.sub_add_cancel h1]
    exact not_lt.mpr (le_of_lt (hat (by omega)))

/-- C16: for every viewport, every number of repetitions `n >= 1` and every pixel
of the grid, with `s` the final `iter` of the scalar kernel for the pixel, the
value that the unrolled kernel stores for the pixel is `s + 1` when `s < 255`
and 0 when `s` is 255 or 256; it is never `MAX_ITER = 256`, and it is 0 when no
state of the orbit of the point of the pixel escapes. -/
theorem C16_unrolled_from_scalar (state : MandelbrotState) (n : Nat) (buf : Buffer)
    (x y : Nat) (hn : 1 ≤ n) (hx : x < WIDTH) (hy : y < HEIGHT) :
    (compute_mandelbrot n state x y < 255 →
      compute_mandelbrot_optimized n state buf (y * WIDTH + x)
        = compute_mandelbrot n state x y + 1)
    ∧ ((compute_mandelbrot n state x y = 255 ∨ compute_mandelbrot n state x y = 256) →
      compute_mandelbrot_optimized n state buf (y * WIDTH + x) = 0)
    ∧ (compute_mandelbrot n state x y < 255 ∨ compute_mandelbrot n state x y = 255
        ∨ compute_mandelbrot n state x y = 256)
    ∧ compute_mandelbrot_optimized n state buf (y * WIDTH + x) ≠ 256
    ∧ ((∀ j, ¬ escaped (map_x state x) (map_y state y) j) →
      compute_mandelbrot n state x y = 256
      ∧ compute_mandelbrot_optimized n state buf (y * WIDTH + x) = 0) := by
  have hM : MAX_ITER = 256 := rfl
  have hs : compute_mandelbrot n state x y
      = (canonical_iter (map_x state x) (map_y state y) : Int) := by
    rw [scalar_pixel n hn, scalar_iter_eq_canonical]
  have ho : compute_mandelbrot_optimized n state buf (y * WIDTH + x)
      = (opt_count (map_x state x) (map_y state y) : Int) := by
    rw [opt_buffer n hn _ _ x y hx hy, opt_pixel_eq]
  have hrel := opt_count_of_canonical (map_x state x) (map_y state y)
  have hle := canonical_iter_le (map_x state x) (map_y state y)
  have hlt := opt_count_lt (map_x state x) (map_y state y)
  rw [hs, ho]
  refine ⟨?_, ?_, ?_, ?_, ?_⟩
  · intro h
    have h' : canonical_iter (map_x state x) (map_y state y) < 255 := by omega
    rw [if_pos h'] at hrel
    rw [hrel]
    push_cast
    rfl
  · intro h
    have h' : ¬ canonical_iter (map_x state x) (map_y state y) < 255 := by omega
    rw [if_neg h'] at hrel
    rw [hrel]
    rfl
  · omega
  · omega
  · intro hno
    have hc : canonical_iter (map_x state x) (map_y state y) = MAX_ITER := by
      unfold canonical_iter
      rw [dif_neg]
      rintro ⟨m, _, hesc⟩
      exact hno m hesc
    have h' : ¬ canonical_iter (map_x state x) (map_y state y) < 255 := by omega
    rw [if_neg h'] at hrel
    rw [hrel, hc]
    exact ⟨rfl, rfl⟩

theorem C16_unrolled_from_scalar_witness :
    (1 ≤ 1 ∧ 400 < WIDTH ∧ 300 < HEIGHT ∧ compute_mandelbrot 1 ⟨2, 2, 1, 0⟩ 400 300 < 255)
    ∧ compute_mandelbrot_optimized 1 ⟨2, 2, 1, 0⟩ (fun _ => 0) (300 * WIDTH + 400)
        = compute_mandelbrot 1 ⟨2, 2, 1, 0⟩ 400 300 + 1
    ∧ compute_mandelbrot_optimized 1 ⟨2, 2, 1, 0⟩ (fun _ => 0) (300 * WIDTH + 400) ≠ 256 := by
  have hx : map_x ⟨2, 2, 1, 0⟩ 400 = 2 := by norm_num [map_x, WIDTH]
  have hy : map_y ⟨2, 2, 1, 0⟩ 300 = 2 := by norm_num [map_y, HEIGHT]
  have hs : compute_mandelbrot 1 ⟨2, 2, 1, 0⟩ 400 300 < 255 := by
    rw [scalar_pixel 1 (le_refl 1), hx, hy, scalar_iter_eq_canonical, counts_2_2.1]
    decide
  have h := C16_unrolled_from_scalar ⟨2, 2, 1, 0⟩ 1 (fun _ => 0) 400 300 (by decide)
    (by decide) (by decide)
  exact ⟨⟨by decide, by decide, by decide, hs⟩, h.1 hs, h.2.2.2.1⟩

/-- C17: for every viewport, every number of repetitions `n >= 1` and every pixel
of the grid, with `s` the final `iter` of the scalar kernel for the pixel, the
value that the AVX kernel stores for the pixel is never greater than `s`, and
it is `s - 1` whenever `1 <= s <= 255` and no state of the orbit of the point of
the pixel has the squared magnitude 100 exactly. -/
theorem C17_avx_from_scalar (state : MandelbrotState) (n : Nat) (buf : Buffer)
    (x y : Nat) (hn : 1 ≤ n) (hx : x < WIDTH) (hy : y < HEIGHT) :
    compute_mandelbrot_avx2 n state buf (y * WIDTH + x) ≤ compute_mandelbrot n state x y
    ∧ (1 ≤ compute_mandelbrot n state x y → compute_mandelbrot n state x y ≤ 255 →
        (∀ j, normSq (orbit (map_x state x) (map_y state y) j) ≠ 100) →
        compute_mandelbrot_avx2 n state buf (y * WIDTH + x)
          = compute_mandelbrot n state x y - 1) := by
  have hs : compute_mandelbrot n state x y
      = (canonical_iter (map_x state x) (map_y state y) : Int) := by
    rw [scalar_pixel n hn, scalar_iter_eq_canonical]
  have ha : compute_mandelbrot_avx2 n state buf (y * WIDTH + x)
      = (avx_count (map_x state x) (map_y state y) : Int) := by
    rw [avx_buffer n hn _ _ x y hx hy, avx_pixel_eq]
  rw [hs, ha]
  constructor
  · exact_mod_cast avx_count_le_canonical (map_x state x) (map_y state y)
  · intro h1 h255 hne
    have h1' : 1 ≤ canonical_iter (map_x state x) (map_y state y) := by omega
    have h255' : canonical_iter (map_x state x) (map_y state y) ≤ 255 := by omega
    rw [avx_count_of_canonical _ _ h1' h255' hne]
    omega

theorem orbit_2_2_norm (j : Nat) : normSq (orbit 2 2 j) ≠ 100 := by
  cases j with
  | zero => norm_num [orbit, normSq]
  | succ j =>
    have h1 : ¬ normSq (orbit 2 2 1) < 104 := by norm_num [orbit, normSq]
    have h100 : 100 ≤ normSq (orbit 2 2 1) := by norm_num [orbit, normSq]
    have hc : normSq ((2 : ℚ), (2 : ℚ)) ≤ normSq (orbit 2 2 1) := by norm_num [orbit, normSq]
    have key : ∀ k, 104 ≤ normSq (orbit 2 2 (1 + k))
        ∧ normSq ((2 : ℚ), (2 : ℚ)) ≤ normSq (orbit 2 2 (1 + k)) := by
      intro k
      induction k with
      | zero => exact ⟨by norm_num [orbit, normSq], hc⟩
      | succ k ih =>
        have hg := orbit_grows 2 2 (1 + k) (by linarith [ih.1]) ih.2
        exact ⟨le_trans ih.1 hg, le_trans ih.2 hg⟩
    have := (key j).1
    rw [Nat.add_comm] at this
    intro h
    rw [h] at this
    norm_num at this

theorem C17_avx_from_scalar_witness :
    (1 ≤ 1 ∧ 400 < WIDTH ∧ 300 < HEIGHT ∧ 1 ≤ compute_mandelbrot 1 ⟨2, 2, 1, 0⟩ 400 300
      ∧ compute_mandelbrot 1 ⟨2, 2, 1, 0⟩ 400 300 ≤ 255
      ∧ ∀ j, normSq (orbit (map_x ⟨2, 2, 1, 0⟩ 400) (map_y ⟨2, 2, 1, 0⟩ 300) j) ≠ 100)
    ∧ compute_mandelbrot_avx2 1 ⟨2, 2, 1, 0⟩ (fun _ => 0) (300 * WIDTH + 400)
        ≤ compute_mandelbrot 1 ⟨2, 2, 1, 0⟩ 400 300
    ∧ compute_mandelbrot_avx2 1 ⟨2, 2, 1, 0⟩ (fun _ => 0) (300 * WIDTH + 400)
        = compute_mandelbrot 1 ⟨2, 2, 1, 0⟩ 400 300 - 1 := by
  have hx : map_x ⟨2, 2, 1, 0⟩ 400 = 2 := by norm_num [map_x, WIDTH]
  have hy : map_y ⟨2, 2, 1, 0⟩ 300 = 2 := by norm_num [map_y, HEIGHT]
  have hs : compute_mandelbrot 1 ⟨2, 2, 1, 0⟩ 400 300 = 1 := by
    rw [scalar_pixel 1 (le_refl 1), hx, hy, scalar_iter_eq_canonical, counts_2_2.1]
    rfl
  have hne : ∀ j, normSq (orbit (map_x ⟨2, 2, 1, 0⟩ 400) (map_y ⟨2, 2, 1, 0⟩ 300) j) ≠ 100 := by
    rw [hx, hy]
    exact orbit_2_2_norm
  have h1 : 1 ≤ compute_mandelbrot 1 ⟨2, 2, 1, 0⟩ 400 300 := by rw [hs]
  have h2 : compute_mandelbrot 1 ⟨2, 2, 1, 0⟩ 400 300 ≤ 255 := by rw [hs]; decide
  have h := C17_avx_from_scalar ⟨2, 2, 1, 0⟩ 1 (fun _ => 0) 400 300 (by decide)
    (by decide) (by decide)
  exact ⟨⟨by decide, by decide, by decide, h1, h2, hne⟩, h.1, h.2 h1 h2 hne⟩

/-! ## The scalar loop follows the canonical rule in every arithmetic -/

theorem whileLoop_in_spec {F : Type} (A : Arith F) (cx cy : F) (fuel k : Nat)
    (hk : k + fuel = MAX_ITER) (hprev : ∀ m, m < k → ¬ escaped_in A cx cy m) :
    ∃ r : Nat,
      whileLoop_in A cx cy fuel (orbit_in A cx cy k).1 (orbit_in A cx cy k).2 (k : Int) = (r : Int)
      ∧ r ≤ MAX_ITER ∧ (∀ m, m < r → ¬ escaped_in A cx cy m)
      ∧ (r < MAX_ITER → escaped_in A cx cy r) := by
  induction fuel generalizing k with
  | zero =>
    refine ⟨k, by simp [whileLoop_in], by omega, hprev, fun h => by omega⟩
  | succ fuel ih =>
    have hlt : (k : Int) < (MAX_ITER : Int) := by exact_mod_cast (by omega : k < MAX_ITER)
    by_cases hesc : escaped_in A cx cy k
    · refine ⟨k, ?_, by omega, hprev, fun _ => hesc⟩
      have h' : A.gt (A.add (A.mul (orbit_in A cx cy k).1 (orbit_in A cx cy k).1)
          (A.mul (orbit_in A cx cy k).2 (orbit_in A cx cy k).2)) (A.mul A.radius A.radius)
          = true := hesc
      simp only [whileLoop_in, if_pos hlt, if_pos h']
    · have h' : ¬ (A.gt (A.add (A.mul (orbit_in A cx cy k).1 (orbit_in A cx cy k).1)
          (A.mul (orbit_in A cx cy k).2 (orbit_in A cx cy k).2)) (A.mul A.radius A.radius)
          = true) := hesc
      have hprev' : ∀ m, m < k + 1 → ¬ escaped_in A cx cy m := by
        intro m hm
        rcases Nat.lt_succ_iff_lt_or_eq.mp hm with h | h
        · exact hprev m h
        · rw [h]; exact hesc
      obtain ⟨r, hr, hle, hbelow, hat⟩ := ih (k + 1) (by omega) hprev'
      refine ⟨r, ?_, hle, hbelow, hat⟩
      simp only [whileLoop_in, if_pos hlt, if_neg h']
      simpa [orbit_in] using hr

/-- The loop on the rationals is the loop in the exact arithmetic. -/
theorem whileLoop_eq_in (cx cy : ℚ) (fuel : Nat) (zx zy : ℚ) (iter : Int) :
    whileLoop cx cy fuel zx zy iter = whileLoop_in exact_arith cx cy fuel zx zy iter := by
  induction fuel generalizing zx zy iter with
  | zero => rfl
  | succ fuel ih =>
    simp only [whileLoop, whileLoop_in, exact_arith, decide_eq_true_eq]
    split
    · split
      · rfl
      · rw [ih]
        rfl
    · rfl

set_option maxRecDepth 8000 in
/-- The point of the plane `c = (0x1.4p-4, 0x1.3ffd7ffd7ffb0p+3)`, two `double`s:
in the arithmetic of binary64 the sum `zx2 + zy2` of the first turn rounds to
100, the loop goes on and returns 1; in the exact arithmetic the sum exceeds 100
and the loop returns 0. -/
theorem whileLoop_rounding_example :
    whileLoop_in double_arith (Double.fin 5629499534213120 (-56))
        (Double.fin 5629327732899760 (-49)) MAX_ITER (Double.fin 5629499534213120 (-56))
        (Double.fin 5629327732899760 (-49)) 0 = 1
    ∧ double_arith.add
        (double_arith.mul (Double.fin 5629499534213120 (-56))
          (Double.fin 5629499534213120 (-56)))
        (double_arith.mul (Double.fin 5629327732899760 (-49))
          (Double.fin 5629327732899760 (-49)))
        = Double.fin 7036874417766400 (-46)
    ∧ double_value (Double.fin 7036874417766400 (-46)) = 100
    ∧ whileLoop_in exact_arith (double_value (Double.fin 5629499534213120 (-56)))
        (double_value (Double.fin 5629327732899760 (-49))) MAX_ITER
        (double_value (Double.fin 5629499534213120 (-56)))
        (double_value (Double.fin 5629327732899760 (-49))) 0 = 0 := by
  refine ⟨by decide, by decide, by norm_num [double_value], ?_⟩
  have hM : (0 : Int) < (MAX_ITER : Int) := by decide
  have hfuel : MAX_ITER = 255 + 1 := rfl
  rw [hfuel]
  simp only [whileLoop_in, if_pos hM]
  have h : exact_arith.gt
      (exact_arith.add
        (exact_arith.mul (double_value (Double.fin 5629499534213120 (-56)))
          (double_value (Double.fin 5629499534213120 (-56))))
        (exact_arith.mul (double_value (Double.fin 5629327732899760 (-49)))
          (double_value (Double.fin 5629327732899760 (-49)))))
      (exact_arith.mul exact_arith.radius exact_arith.radius) = true := by
    simp only [exact_arith, double_value, ESCAPE_RADIUS, decide_eq_true_eq]
    norm_num
  rw [if_pos h]

/-- An escaped state in binary64: from `c = (1e200, 0)` the loop breaks at once,
and the states that the loop would compute next are infinite or NaN, on which
the comparison `>` is still defined. -/
theorem double_overflow_example :
    double_arith.mul (Double.fin 1 700) (Double.fin 1 700) = Double.inf false
    ∧ double_arith.sub (Double.inf false) (Double.inf false) = Double.nan
    ∧ double_arith.gt Double.nan (Double.fin 100 0) = false
    ∧ double_arith.gt (Double.inf false) (Double.fin 100 0) = true
    ∧ whileLoop_in double_arith (Double.fin 1 700) (Double.fin 0 0) MAX_ITER (Double.fin 1 700)
        (Double.fin 0 0) 0 = 0 := by
  refine ⟨by decide, by decide, by decide, by decide, by decide⟩

/-- C2: for every point `c = (cx, cy)` and in every arithmetic on the values of
`double` (the exact one, or the one of binary64 with its rounding, infinities
and NaN), the inner while loop of the scalar kernel, started at `z = c`,
`iter = 0`, returns the least `n < MAX_ITER = 256` such that the squared
magnitude of `w_n` exceeds `ESCAPE_RADIUS^2`, where `w_0 = c` and
`w_{n+1} = w_n^2 + c` are computed in that arithmetic, and returns `MAX_ITER`
when there is no such `n`; `ESCAPE_RADIUS^2` is 100 in the exact arithmetic and
in binary64, and in the exact arithmetic the loop is `whileLoop`. -/
theorem C2_scalar_rule_in_every_arithmetic {F : Type} (A : Arith F) (cx cy : F) :
    whileLoop_in A cx cy MAX_ITER cx cy 0
      = ((if h : ∃ n, n < MAX_ITER ∧ escaped_in A cx cy n then Nat.find h else MAX_ITER : Nat)
          : Int)
    ∧ MAX_ITER = 256
    ∧ exact_arith.mul exact_arith.radius exact_arith.radius = 100
    ∧ double_arith.mul double_arith.radius double_arith.radius = Double.fin 100 0
    ∧ (∀ qx qy : ℚ, whileLoop qx qy MAX_ITER qx qy 0
        = whileLoop_in exact_arith qx qy MAX_ITER qx qy 0) := by
  refine ⟨?_, rfl, ?_, by decide, fun qx qy => whileLoop_eq_in qx qy MAX_ITER qx qy 0⟩
  · obtain ⟨r, hr, hle, hbelow, hat⟩ :=
      whileLoop_in_spec A cx cy MAX_ITER 0 (Nat.zero_add _)
        (fun m hm => absurd hm (Nat.not_lt_zero m))
    have hr' : whileLoop_in A cx cy MAX_ITER cx cy 0 = (r : Int) := by
      simpa [orbit_in] using hr
    rw [hr']
    suffices h : (if h : ∃ n, n < MAX_ITER ∧ escaped_in A cx cy n then Nat.find h
        else MAX_ITER) = r by rw [h]
    split
    · rename_i h
      rw [Nat.find_eq_iff]
      have hlt : r < MAX_ITER := by
        obtain ⟨n, hn, hesc⟩ := h
        by_contra hge
        have : r = MAX_ITER := by omega
        exact hbelow n (by omega) hesc
      exact ⟨⟨hlt, hat hlt⟩, fun m hm hc => hbelow m hm hc.2⟩
    · rename_i h
      by_contra hne
      have hlt : r < MAX_ITER := lt_of_le_of_ne hle (fun e => hne e.symm)
      exact h ⟨r, hlt, hat hlt⟩
  · simp only [exact_arith, ESCAPE_RADIUS]
    norm_num

/-! ## The argument `--runs=N` in `parse_args` -/

theorem parse_arg_runs (f : List Char → Int) (flags : Flags) (N : List Char) :
    parse_arg f flags ("--runs=".toList ++ N)
      = (⟨flags.graphics_enabled, if 1 ≤ f N then f N else 1⟩, true) := by
  have e1 : ¬ ("--runs=".toList ++ N = "--graphics".toList) := by
    intro h
    have := congrArg (fun l => l.take 3) h
    simp at this
  have e2 : ¬ ("--runs=".toList ++ N = "--no-graphics".toList) := by
    intro h
    have := congrArg (fun l => l.take 3) h
    simp at this
  have e3 : ("--runs=".toList ++ N).take 7 = "--runs=".toList := by
    simp
  have e4 : ("--runs=".toList ++ N).drop 7 = N := by
    simp
  simp only [parse_arg, if_neg e1, if_neg e2, if_pos e3, e4]
  by_cases h : 1 ≤ f N
  · rw [if_pos h, if_neg (by omega)]
  · rw [if_neg h, if_pos (by omega)]

theorem parse_arg_keeps_run_count (f : List Char → Int) (flags : Flags) (arg : List Char)
    (h : arg.take 7 ≠ "--runs=".toList) :
    (parse_arg f flags arg).1.run_count = flags.run_count := by
  unfold parse_arg
  split
  · rfl
  · split
    · rfl
    · rfl

theorem parse_arg_known (f : List Char → Int) (flags : Flags) (arg : List Char)
    (h : known_option arg) : (parse_arg f flags arg).2 = true := by
  unfold parse_arg
  split
  · rfl
  · split
    · rfl
    · split
      · rfl
      · rename_i h1 h2 h3
        rcases h with h | h | h
        · exact absurd h h1
        · exact absurd h h2
        · exact absurd h h3

theorem parse_args_loop_no_runs (f : List Char → Int) (post : List (List Char)) (flags : Flags)
    (h : ∀ a, a ∈ post → a.take 7 ≠ "--runs=".toList) :
    (parse_args_loop f post flags).2.run_count = flags.run_count := by
  induction post generalizing flags with
  | nil => rfl
  | cons a rest ih =>
    have ha := parse_arg_keeps_run_count f flags a (h a (List.mem_cons_self a rest))
    simp only [parse_args_loop]
    split
    · rw [ih _ (fun b hb => h b (List.mem_cons_of_mem a hb)), ha]
    · exact ha

theorem parse_args_loop_known (f : List Char → Int) (pre rest : List (List Char))
    (flags : Flags) (h : ∀ a, a ∈ pre → known_option a) :
    ∃ flags1, parse_args_loop f (pre ++ rest) flags = parse_args_loop f rest flags1 := by
  induction pre generalizing flags with
  | nil => exact ⟨flags, rfl⟩
  | cons a pre ih =>
    have ha := parse_arg_known f flags a (h a (List.mem_cons_self a pre))
    obtain ⟨flags1, h1⟩ := ih (parse_arg f flags a).1 (fun b hb => h b (List.mem_cons_of_mem a hb))
    refine ⟨flags1, ?_⟩
    simp only [List.cons_append, parse_args_loop, if_pos ha]
    exact h1

theorem parse_args_loop_result (f : List Char → Int) (args : List (List Char)) (flags : Flags)
    (h : ∀ a, a ∈ args → known_option a) : (parse_args_loop f args flags).1 = 1 := by
  obtain ⟨flags1, h1⟩ := parse_args_loop_known f args [] flags h
  rw [List.append_nil] at h1
  rw [h1]
  rfl

/-- The whole of `parse_args` on a command line whose last `--runs=` argument is
`--runs=N` and which has no unknown option before it. -/
theorem parse_args_runs (f : List Char → Int) (argv0 : List Char) (pre post : List (List Char))
    (N : List Char) (flags : Flags) (hpre : ∀ a, a ∈ pre → known_option a)
    (hpost : ∀ a, a ∈ post → a.take 7 ≠ "--runs=".toList) :
    (parse_args f (argv0 :: (pre ++ ("--runs=".toList ++ N) :: post)) flags).2.run_count
      = if 1 ≤ f N then f N else 1 := by
  obtain ⟨flags1, h1⟩ :=
    parse_args_loop_known f pre (("--runs=".toList ++ N) :: post) flags hpre
  have hd : (argv0 :: (pre ++ ("--runs=".toList ++ N) :: post)).drop 1
      = pre ++ ("--runs=".toList ++ N) :: post := rfl
  unfold parse_args
  rw [hd, h1]
  simp only [parse_args_loop, parse_arg_runs, if_true]
  rw [parse_args_loop_no_runs f post _ hpost]

/-! ## The value of `atoi` on a decimal numeral -/

theorem digit_char_facts :
    ∀ d, d < 10 →
      c_isspace (Char.ofNat (48 + d)) = false ∧ Char.ofNat (48 + d) ≠ '-'
      ∧ Char.ofNat (48 + d) ≠ '+' ∧ (Char.ofNat (48 + d)).isDigit = true
      ∧ (Char.ofNat (48 + d)).toNat - 48 = d := by
  decide

theorem foldl_numeral (ds : List Nat) (hd : ∀ d, d ∈ ds → d < 10) (a : Nat) :
    (numeral ds).foldl (fun n c => 10 * n + (c.toNat - 48)) a
      = ds.foldl (fun n d => 10 * n + d) a := by
  induction ds generalizing a with
  | nil => rfl
  | cons d ds ih =>
    have h5 := (digit_char_facts d (hd d (List.mem_cons_self d ds))).2.2.2.2
    simp only [numeral, List.map_cons, List.foldl_cons, h5]
    exact ih (fun e he => hd e (List.mem_cons_of_mem d he)) _

theorem digits_value_numeral (ds : List Nat) (hd : ∀ d, d ∈ ds → d < 10) :
    digits_value (numeral ds) = decimal ds := by
  have hall : (numeral ds).takeWhile Char.isDigit = numeral ds := by
    rw [List.takeWhile_eq_self_iff]
    intro c hc
    simp only [numeral, List.mem_map] at hc
    obtain ⟨d, hdm, rfl⟩ := hc
    exact (digit_char_facts d (hd d hdm)).2.2.2.1
  unfold digits_value decimal
  rw [hall]
  exact foldl_numeral ds hd 0

theorem strtol_numeral (ds : List Nat) (hne : ds ≠ []) (hd : ∀ d, d ∈ ds → d < 10)
    (hv : decimal ds < 2 ^ 63) : strtol (numeral ds) = (decimal ds : Int) := by
  obtain ⟨d, rest, rfl⟩ : ∃ d rest, ds = d :: rest := by
    cases ds with
    | nil => exact absurd rfl hne
    | cons d rest => exact ⟨d, rest, rfl⟩
  obtain ⟨f1, f2, f3, _, _⟩ := digit_char_facts d (hd d (List.mem_cons_self d rest))
  have hdrop : (numeral (d :: rest)).dropWhile c_isspace = numeral (d :: rest) := by
    simp only [numeral, List.map_cons]
    rw [List.dropWhile_cons_of_neg]
    simp [f1]
  have ht : (numeral (d :: rest)).take 1 = [Char.ofNat (48 + d)] := by
    simp [numeral]
  have hm : ¬ ([Char.ofNat (48 + d)] = ['-']) := by
    intro h
    exact f2 (List.head_eq_of_cons_eq h)
  have hp : ¬ ([Char.ofNat (48 + d)] = ['+']) := by
    intro h
    exact f3 (List.head_eq_of_cons_eq h)
  unfold strtol
  simp only [hdrop, ht, if_neg hm, if_neg hp]
  rw [digits_value_numeral _ hd]
  have h0 : (0 : Int) ≤ (decimal (d :: rest) : Int) := Int.ofNat_nonneg _
  have h1 : (decimal (d :: rest) : Int) < 2 ^ 63 := by exact_mod_cast hv
  omega

/-- On a decimal numeral of value at most `INT_MAX`, `atoi` is the value. -/
theorem atoi_numeral (ds : List Nat) (hne : ds ≠ []) (hd : ∀ d, d ∈ ds → d < 10)
    (hv : decimal ds < 2 ^ 31) : atoi (numeral ds) = (decimal ds : Int) := by
  unfold atoi
  rw [strtol_numeral ds hne hd (lt_trans hv (by norm_num))]
  have h1 : (decimal ds : Int) < 2 ^ 31 := by exact_mod_cast hv
  have h0 : (0 : Int) ≤ (decimal ds : Int) := Int.ofNat_nonneg _
  have e : ((decimal ds : Int) % 2 ^ 32).toNat = decimal ds := by
    rw [Int.emod_eq_of_lt h0 (by omega)]
    exact Int.toNat_ofNat _
  rw [e]
  unfold int_of_word
  rw [if_pos hv]

/-- Command lines read with `atoi`: a numeral, a numeral after white space, a
negative numeral, zero, and a value that is no number. -/
theorem parse_args_atoi_examples :
    parse_args atoi ["prog".toList, "--no-graphics".toList, "--runs=12".toList] initial_flags
        = (1, ⟨0, 12⟩)
    ∧ parse_args atoi ["prog".toList, "--runs= +7x".toList] initial_flags = (1, ⟨1, 7⟩)
    ∧ parse_args atoi ["prog".toList, "--runs=-3".toList] initial_flags = (1, ⟨1, 1⟩)
    ∧ parse_args atoi ["prog".toList, "--runs=0".toList] initial_flags = (1, ⟨1, 1⟩)
    ∧ parse_args atoi ["prog".toList, "--runs=abc".toList] initial_flags = (1, ⟨1, 1⟩)
    ∧ parse_args atoi ["prog".toList, "--runs=5".toList, "--fast".toList, "--runs=9".toList]
        initial_flags = (0, ⟨1, 5⟩) := by
  refine ⟨?_, ?_, ?_, ?_, ?_, ?_⟩ <;> rfl

/-- C13, refuted at `N = 2147483648` and at `N = 4294967301`: the integer value
of `N` is at least 1, and `parse_args` leaves `run_count = 1` for the first and
`run_count = 5` for the second, not the value of `N`. -/
theorem C13_large_value_not_kept :
    digits_value "2147483648".toList = 2147483648
    ∧ parse_args atoi ["prog".toList, "--runs=2147483648".toList] initial_flags = (1, ⟨1, 1⟩)
    ∧ digits_value "4294967301".toList = 4294967301
    ∧ parse_args atoi ["prog".toList, "--runs=4294967301".toList] initial_flags
        = (1, ⟨1, 5⟩) := by
  refine ⟨?_, ?_, ?_, ?_⟩ <;> rfl

/-- C13, amended: for every argument list (and every behaviour of `atoi`), after
`parse_args` returns, with either result, `run_count >= 1`, and `main` never
calls the compute function with `run_count = 0`; on a command line with no
unknown option before the argument `--runs=N` and no other `--runs=` argument
after it, `parse_args` ends with `run_count = atoi(N)` when that is at least 1
and with 1 otherwise; when `N` is a decimal numeral of value at most
`INT_MAX = 2147483647`, `atoi(N)` is the integer value of `N`, so `run_count`
is that value when it is at least 1 and 1 otherwise, and when no option after
it is unknown either `parse_args` returns 1 and `main` calls the compute
function with that `run_count`. -/
theorem C13_run_count_normalised (f : List Char → Int) (argv : List (List Char))
    (argv0 : List Char) (pre post : List (List Char)) (N : List Char) (ds : List Nat)
    (hpre : ∀ a, a ∈ pre → known_option a)
    (hpost : ∀ a, a ∈ post → a.take 7 ≠ "--runs=".toList)
    (hne : ds ≠ []) (hd : ∀ d, d ∈ ds → d < 10) (hv : decimal ds ≤ 2147483647) :
    1 ≤ (parse_args f argv initial_flags).2.run_count
    ∧ main_run_count f argv ≠ some 0
    ∧ (parse_args f (argv0 :: (pre ++ ("--runs=".toList ++ N) :: post)) initial_flags).2.run_count
        = (if 1 ≤ f N then f N else 1)
    ∧ atoi (numeral ds) = (decimal ds : Int)
    ∧ (parse_args atoi (argv0 :: (pre ++ ("--runs=".toList ++ numeral ds) :: post))
          initial_flags).2.run_count
        = (if 1 ≤ decimal ds then (decimal ds : Int) else 1)
    ∧ ((∀ a, a ∈ post → known_option a) →
        (parse_args atoi (argv0 :: (pre ++ ("--runs=".toList ++ numeral ds) :: post))
          initial_flags).1 = 1
        ∧ main_run_count atoi (argv0 :: (pre ++ ("--runs=".toList ++ numeral ds) :: post))
          = some (if 1 ≤ decimal ds then (decimal ds : Int) else 1)) := by
  have h1 : 1 ≤ (parse_args f argv initial_flags).2.run_count :=
    parse_args_loop_run_count f _ initial_flags (by decide)
  have hat : atoi (numeral ds) = (decimal ds : Int) :=
    atoi_numeral ds hne hd (by omega)
  have hrun := parse_args_runs atoi argv0 pre post (numeral ds) initial_flags hpre hpost
  rw [hat] at hrun
  have hrun' : (parse_args atoi (argv0 :: (pre ++ ("--runs=".toList ++ numeral ds) :: post))
      initial_flags).2.run_count = (if 1 ≤ decimal ds then (decimal ds : Int) else 1) := by
    rw [hrun]
    by_cases h : 1 ≤ decimal ds
    · rw [if_pos h, if_pos (by exact_mod_cast h)]
    · rw [if_neg h, if_neg (by exact_mod_cast h)]
  refine ⟨h1, ?_, parse_args_runs f argv0 pre post N initial_flags hpre hpost, hat, hrun', ?_⟩
  · unfold main_run_count
    split
    · simp
    · intro h
      have := Option.some.inj h
      omega
  · intro hknown
    have hres : (parse_args atoi (argv0 :: (pre ++ ("--runs=".toList ++ numeral ds) :: post))
        initial_flags).1 = 1 := by
      unfold parse_args
      apply parse_args_loop_result
      intro a ha
      have ha' : a ∈ pre ++ ("--runs=".toList ++ numeral ds) :: post := ha
      rcases List.mem_append.mp ha' with h | h
      · exact hpre a h
      · rcases List.mem_cons.mp h with h | h
        · right
          right
          rw [h]
          simp
        · exact hknown a h
    refine ⟨hres, ?_⟩
    unfold main_run_count
    rw [if_neg (by rw [hres]; decide), hrun']

theorem C13_run_count_normalised_witness :
    ((∀ a, a ∈ ["--no-graphics".toList] → known_option a)
      ∧ (∀ a, a ∈ ["--graphics".toList] → a.take 7 ≠ "--runs=".toList)
      ∧ [1, 2] ≠ ([] : List Nat) ∧ (∀ d, d ∈ [1, 2] → d < 10) ∧ decimal [1, 2] ≤ 2147483647)
    ∧ (parse_args atoi
          ("prog".toList :: (["--no-graphics".toList]
            ++ ("--runs=".toList ++ numeral [1, 2]) :: ["--graphics".toList]))
          initial_flags).2.run_count = 12
    ∧ atoi (numeral [1, 2]) = 12 := by
  have hpre : ∀ a, a ∈ ["--no-graphics".toList] → known_option a := by
    intro a ha
    rw [List.mem_singleton] at ha
    exact Or.inr (Or.inl ha)
  have hpost : ∀ a, a ∈ ["--graphics".toList] → a.take 7 ≠ "--runs=".toList := by
    intro a ha
    rw [List.mem_singleton] at ha
    rw [ha]
    decide
  have hd : ∀ d, d ∈ [1, 2] → d < 10 := by decide
  have hv : decimal [1, 2] ≤ 2147483647 := by decide
  have h := C13_run_count_normalised atoi ["prog".toList, "--runs=3".toList] "prog".toList
    ["--no-graphics".toList] ["--graphics".toList] "abc".toList [1, 2] hpre hpost (by decide)
    hd hv
  exact ⟨⟨hpre, hpost, by decide, hd, hv⟩, h.2.2.2.2.1, h.2.2.2.1⟩

end Mandelbrot
